import Mathlib

/-!
# The eexpr lexer: UTF-8 decoder and token recognizers

A shallow embedding of `src/c/src/strstuff.c` and `src/c/src/lexer.c`.

* A byte is a `Fin 256`; a `uchar` (C `int32_t`, a codepoint) is an `Int`.
* A `str` handed to a function as a well-formed slice (its `len` is the number
  of readable bytes) is a `List Byte`.
* Reads through a pointer that has left its buffer, and failed `assert`s, make
  the embedded function return `none`.
-/

namespace Nest

/-- One byte of input (`uint8_t`). -/
abbrev Byte := Fin 256


/-! ## strstuff.c : the UTF-8 decoder -/

/-- The `badbyte:` label of `peekUchar`: the negated first byte, length 1. -/
def badbyte (b0 : Byte) : Int × Nat := (-(b0.val : Int), 1)

/-- The function `peekUchar` of strstuff.c on a well-formed slice (`len` is the number of
readable bytes). `UCHAR_NULL` is the constant of the
missing header, taken as a parameter. The `int32_t` arithmetic is on non-negative values
that fit 21 bits, so it is carried out in `Nat` and cast. -/
def peekUchar (UCHAR_NULL : Int) (input : List Byte) : Int × Nat :=
  match input with
  | [] => (UCHAR_NULL, 0)
  | b0 :: t =>
    if b0.val &&& 0x80 = 0 then ((b0.val : Int), 1)
    else if b0.val &&& 0x40 = 0 then badbyte b0
    else if b0.val &&& 0x20 = 0 then
      match t with
      | b1 :: _ =>
        if b1.val &&& 0xC0 ≠ 0x80 then badbyte b0
        else ((((b0.val &&& 0x1F) <<< 6 ||| (b1.val &&& 0x3F) : Nat) : Int), 2)
      | _ => badbyte b0
    else if b0.val &&& 0x10 = 0 then
      match t with
      | b1 :: b2 :: _ =>
        if b1.val &&& 0xC0 ≠ 0x80 ∨ b2.val &&& 0xC0 ≠ 0x80 then badbyte b0
        else ((((b0.val &&& 0x0F) <<< 12 ||| (b1.val &&& 0x3F) <<< 6
                ||| (b2.val &&& 0x3F) : Nat) : Int), 3)
      | _ => badbyte b0
    else if b0.val &&& 0x08 = 0 then
      match t with
      | b1 :: b2 :: b3 :: _ =>
        if b1.val &&& 0xC0 ≠ 0x80 ∨ b2.val &&& 0xC0 ≠ 0x80 ∨ b3.val &&& 0xC0 ≠ 0x80 then
          badbyte b0
        else ((((b0.val &&& 0x07) <<< 18 ||| (b1.val &&& 0x3F) <<< 12
                ||| (b2.val &&& 0x3F) <<< 6 ||| (b3.val &&& 0x3F) : Nat) : Int), 4)
      | _ => badbyte b0
    else badbyte b0

/-- The function `peekUchar` of strstuff.c on a raw `str`: `bytes` are the bytes readable from the
pointer `in.bytes` up to the end of the buffer it points into, `len` is the field `in.len`.
The two can disagree only inside `peekUchars`. A read past the buffer gives `none`. -/
def peekUcharAt (UCHAR_NULL : Int) (bytes : List Byte) (len : Nat) : Option (Int × Nat) :=
  if len = 0 then some (UCHAR_NULL, 0)
  else
    match bytes[0]? with
    | none => none
    | some b0 =>
      if b0.val &&& 0x80 = 0 then some ((b0.val : Int), 1)
      else if b0.val &&& 0x40 = 0 then some (badbyte b0)
      else if b0.val &&& 0x20 = 0 then
        if len < 2 then some (badbyte b0)
        else
          match bytes[1]? with
          | some b1 =>
            if b1.val &&& 0xC0 ≠ 0x80 then some (badbyte b0)
            else some ((((b0.val &&& 0x1F) <<< 6 ||| (b1.val &&& 0x3F) : Nat) : Int), 2)
          | none => none
      else if b0.val &&& 0x10 = 0 then
        if len < 3 then some (badbyte b0)
        else
          match bytes[1]?, bytes[2]? with
          | some b1, some b2 =>
            if b1.val &&& 0xC0 ≠ 0x80 ∨ b2.val &&& 0xC0 ≠ 0x80 then some (badbyte b0)
            else some ((((b0.val &&& 0x0F) <<< 12 ||| (b1.val &&& 0x3F) <<< 6
                    ||| (b2.val &&& 0x3F) : Nat) : Int), 3)
          | _, _ => none
      else if b0.val &&& 0x08 = 0 then
        if len < 4 then some (badbyte b0)
        else
          match bytes[1]?, bytes[2]?, bytes[3]? with
          | some b1, some b2, some b3 =>
            if b1.val &&& 0xC0 ≠ 0x80 ∨ b2.val &&& 0xC0 ≠ 0x80 ∨ b3.val &&& 0xC0 ≠ 0x80 then
              some (badbyte b0)
            else some ((((b0.val &&& 0x07) <<< 18 ||| (b1.val &&& 0x3F) <<< 12
                    ||| (b2.val &&& 0x3F) <<< 6 ||| (b3.val &&& 0x3F) : Nat) : Int), 4)
          | _, _, _ => none
      else some (badbyte b0)

/-- The loop of `peekUchars`: `k` iterations are left, `bytes`/`len` are the local copy of
`in`, `adv` the running total. Each iteration peeks, adds the peeked length to `adv`, and
then moves `in` forward by `adv` (the running total, as the source does). `in.len` is a
`size_t`: `in.len -= adv` wraps around 2^64 when `adv` exceeds it. Returns the codepoints
written to `out` from here on and the final `adv`. -/
def peekUcharsLoop (UCHAR_NULL : Int) :
    Nat → List Byte → Nat → Nat → Option (List Int × Nat)
  | 0, _, _, adv => some ([], adv)
  | k + 1, bytes, len, adv =>
    match peekUcharAt UCHAR_NULL bytes len with
    | none => none
    | some (c, adv1) =>
      let adv' := adv + adv1
      let len' := if adv' ≤ len then len - adv' else len + 2 ^ 64 - adv'
      match peekUcharsLoop UCHAR_NULL k (bytes.drop adv') len' adv' with
      | none => none
      | some (cs, r) => some (c :: cs, r)

/-- The function `peekUchars` of strstuff.c, called on a well-formed slice: the `n` codepoints written
to `out[0..n-1]` and the returned byte count. -/
def peekUchars (UCHAR_NULL : Int) (n : Nat) (input : List Byte) : Option (List Int × Nat) :=
  peekUcharsLoop UCHAR_NULL n input input.length 0

/-- What the specification says of `peekN(n)`: `n` successive peeks, each one starting where
the previous one ended; the codepoints and the sum of the lengths. -/
def successivePeeks (UCHAR_NULL : Int) : Nat → List Byte → List Int × Nat
  | 0, _ => ([], 0)
  | n + 1, input =>
    let p := peekUchar UCHAR_NULL input
    let r := successivePeeks UCHAR_NULL n (input.drop p.2)
    (p.1 :: r.1, p.2 + r.2)

/-- Modelled from the spec: `encodeUchar`, declared in the missing `strstuff.h` and used by
`takeString`; the standard UTF-8 encoding of a codepoint (1 byte below 0x80, 2 below 0x800,
3 below 0x10000, 4 otherwise). Codepoints outside 0..0x1FFFFF are not encodable and give
no bytes. -/
def encodeUchar (c : Int) : List Byte :=
  let n := c.toNat
  if c < 0 then []
  else if n < 0x80 then [Fin.ofNat n]
  else if n < 0x800 then [Fin.ofNat (0xC0 ||| (n >>> 6)), Fin.ofNat (0x80 ||| (n &&& 0x3F))]
  else if n < 0x10000 then
    [Fin.ofNat (0xE0 ||| (n >>> 12)), Fin.ofNat (0x80 ||| ((n >>> 6) &&& 0x3F)),
     Fin.ofNat (0x80 ||| (n &&& 0x3F))]
  else if n < 0x200000 then
    [Fin.ofNat (0xF0 ||| (n >>> 18)), Fin.ofNat (0x80 ||| ((n >>> 12) &&& 0x3F)),
     Fin.ofNat (0x80 ||| ((n >>> 6) &&& 0x3F)), Fin.ofNat (0x80 ||| (n &&& 0x3F))]
  else []

/-- A UTF-8 continuation byte, of the form 10xxxxxx. -/
def isCont (b : Byte) : Prop := 0x80 ≤ b.val ∧ b.val < 0xC0

instance (b : Byte) : Decidable (isCont b) := by unfold isCont; infer_instance

/-- A byte that cannot start a sequence: 0x80..0xBF or 0xF8..0xFF. -/
def invalidLead (b : Byte) : Prop := (0x80 ≤ b.val ∧ b.val < 0xC0) ∨ 0xF8 ≤ b.val

/-- The number of continuation bytes a lead byte asks for: 1 for 110xxxxx, 2 for 1110xxxx,
3 for 11110xxx, 0 for every other byte. -/
def contNeeded (b : Byte) : Nat :=
  if b.val < 0xC0 then 0 else if b.val < 0xE0 then 1 else if b.val < 0xF0 then 2
  else if b.val < 0xF8 then 3 else 0

/-- The function `ucharElem` of strstuff.c: membership of `c` in an array that ends at the first
`UCHAR_NULL`. The list holds the array's entries; running off the list stands for
reaching the terminator. -/
def ucharElem (UCHAR_NULL : Int) (c : Int) : List Int → Bool
  | [] => false
  | x :: xs => if x = UCHAR_NULL then false else if x = c then true else ucharElem UCHAR_NULL c xs

/-! ## The data model of the lexer

The headers `lexer/util.h`, `parameters.h` and `shim/common.h` are not part of the
sources at hand. The types below follow their use in lexer.c and sections 3 and 4.C of
the specification. -/

/-- Modelled from the spec: `filelocPoint`, a point of the source (byte offset, line,
column). -/
structure FilelocPoint where
  byte : Nat
  line : Nat
  col : Nat
deriving DecidableEq, Repr

/-- Modelled from the spec: `fileloc`, a span; `stop` is the field `end` of the source. A
span built by a partial C initializer has the zero point in the fields left out. -/
structure Fileloc where
  start : FilelocPoint
  stop : FilelocPoint
deriving DecidableEq, Repr

/-- The zero point of a partial initializer such as `{.loc = {.start = st->loc}}`. -/
def FilelocPoint.zero : FilelocPoint := ⟨0, 0, 0⟩

/-- Modelled from the spec: the arbitrary-precision integer `bigint`; `mag` is the
magnitude (`len != 0` in the source means `mag ≠ 0`), `pos` the sign flag. -/
structure Bigint where
  mag : Nat
  pos : Bool
deriving DecidableEq, Repr

/-- Modelled from the spec: `bigint_new()`, zero. -/
def bigint_new : Bigint := ⟨0, true⟩

/-- Modelled from the spec: `bigint_scale`, multiply by a small integer. -/
def bigint_scale (x : Bigint) (k : Nat) : Bigint := { x with mag := x.mag * k }

/-- Modelled from the spec: `bigint_inc`, add a small digit. -/
def bigint_inc (x : Bigint) (d : Nat) : Bigint := { x with mag := x.mag + d }

/-- The integer a `bigint` stands for. -/
def Bigint.toInt (x : Bigint) : Int := if x.pos then (x.mag : Int) else -(x.mag : Int)

/-- The splice kinds of a string token. -/
inductive SpliceType where
  | plain | opening | middle | closing
deriving DecidableEq, Repr

/-- The kinds of wrap; `null` is `WRAP_NULL`. -/
inductive WrapType where
  | null | paren | bracket | brace
deriving DecidableEq, Repr

/-- The kinds of splitter; `none` is `SPLITTER_NONE`. -/
inductive SplitterType where
  | none | colon | ellipsis | dot | semicolon | comma
deriving DecidableEq, Repr

/-- The result of `decodeSplitter`. -/
structure Splitter where
  type : SplitterType
  bytes : Nat
  uchars : Nat
deriving DecidableEq, Repr

/-- The token kinds (`TOK_*`). -/
inductive TokType where
  | unknownSpace | unknownNewline | comment | symbol | number | codepoint | string
  | numberError | stringError | wrap | unknownColon | unknownDot | ellipsis | semicolon
  | comma | eof
deriving DecidableEq, Repr

/-- The union `token.as`; `none` is the zero-initialised union nothing was written to. -/
inductive TokData where
  | none
  | unknownSpace (chr : Int) (size : Nat)
  | symbol (text : List Byte)
  | number (mantissa : Bigint) (radix : Nat) (fractionalDigits : Nat) (exponent : Bigint)
  | codepoint (c : Int)
  | string (text : List Byte) (splice : SpliceType)
  | wrap (type : WrapType) (isOpen : Bool)
deriving DecidableEq, Repr

/-- A token: span, kind, payload. -/
structure Token where
  loc : Fileloc
  type : TokType
  as : TokData
deriving DecidableEq, Repr

/-- The error kinds (`EEXPRERR_*`). -/
inductive ErrType where
  | noError | badBytes | badChar | mixedSpace | mixedNewlines | mixedIndentation
  | trailingSpace | badDigitSeparator | missingExponent | badExponentSign | badEscapeChar
  | badEscapeCode | missingLinePickup | badCodepoint | unclosedCodepoint | unicodeOverflow
  | badStringChar | unclosedString | heredocBadOpen | heredocBadIndentDefinition
  | heredocBadIndentation | unclosedHeredoc
deriving DecidableEq, Repr

/-- The union `eexprError.as`; `none` is the zero-initialised union. -/
inductive ErrData where
  | none
  | badChar (c : Int)
  | badEscapeChar (c : Int)
  | badEscapeCode (digits : List Int)
  | badCodepoint (c : Int)
  | unicodeOverflow (c : Int)
  | badStringChar (c : Int)
  | mixedIndentation (chr : Int) (loc : Fileloc)
deriving DecidableEq, Repr

/-- A diagnostic: span, kind, payload. -/
structure EexprError where
  loc : Fileloc
  type : ErrType
  as : ErrData
deriving DecidableEq, Repr

/-- The record `st->indent`. -/
structure Indent where
  chr : Int
  established : Fileloc
  knownMixed : Bool
deriving DecidableEq, Repr

/-- The lexer state `lexer`. `rest` is the remaining input, `tokens` and `errStream` are in
emission order, `fatal.type = noError` means no fatal was set, `discoveredNewline` is a
`newlineType` as a number. -/
structure Lexer where
  rest : List Byte
  loc : FilelocPoint
  tokens : List Token
  errStream : List EexprError
  fatal : EexprError
  discoveredNewline : Nat
  indent : Indent
deriving DecidableEq, Repr

/-- One entry of the radix table: the radix, the digit characters (`digits[0]` of the
default radix is the prefix character) and the radix-specific exponent letters. -/
structure RadixParams where
  radix : Nat
  digits : List Int
  exponentLetters : List Int
deriving DecidableEq, Repr

/-- The constants, tables and predicates of the missing `parameters.h` and `shim/common.h`,
as far as lexer.c and strstuff.c use them. -/
structure Params where
  UCHAR_NULL : Int
  UCHAR_SENTINEL : Int
  commonEscapes : List (Int × Int)
  twoHexEscapeLeader : Int
  fourHexEscapeLeader : Int
  sixHexEscapeLeader : Int
  nullEscape : Int
  escapeLeader : Int
  commentChar : Int
  tabChar : Int
  digitSep : Int
  digitPoint : Int
  genericExpLetter : Int
  negativeSign : Int
  plainStringDelim : Int
  isNewlineChar : Int → Bool
  isSpaceChar : Int → Bool
  isStringChar : Int → Bool
  isSymbolChar : Int → Bool
  isSymbolStart : Int → Int → Bool
  isSign : Int → Bool
  isStringDelim : Int → Bool
  isCodepointDelim : Int → Bool
  defaultRadix : RadixParams
  decodeRadix : Int → Option RadixParams
  isDigit : RadixParams → Int → Bool
  decodeDigit : RadixParams → Int → Nat
  NEWLINE_NONE : Nat
  decodeNewline : Int → Int → Nat
  newlineSize : Nat → Nat
  decodeSplitter : Int → Int → Splitter
  isWrapChar : Int → WrapType
  isOpenWrap : Int → Bool
  spliceType : Int → Int → SpliceType

/-- Modelled from the spec: `lexer_advance(st, byteCount, charCount)` moves the byte pointer
and increments the column by `charCount`. -/
def lexer_advance (st : Lexer) (nBytes nChars : Nat) : Lexer :=
  { st with
    rest := st.rest.drop nBytes
    loc := { st.loc with byte := st.loc.byte + nBytes, col := st.loc.col + nChars } }

/-- Modelled from the spec: `lexer_incLine(st, newlineByteCount)` advances, resets the column
to 1 and increments the line. -/
def lexer_incLine (st : Lexer) (nBytes : Nat) : Lexer :=
  { st with
    rest := st.rest.drop nBytes
    loc := { byte := st.loc.byte + nBytes, line := st.loc.line + 1, col := 1 } }

/-- Modelled from the spec: `lexer_addTok` pushes a token at the end of the token list. -/
def lexer_addTok (st : Lexer) (tok : Token) : Lexer :=
  { st with tokens := st.tokens ++ [tok] }

/-- Modelled from the spec: `lexer_delTok` pops the last emitted token. -/
def lexer_delTok (st : Lexer) : Lexer :=
  { st with tokens := st.tokens.dropLast }

/-- Modelled from the spec: `dllist_insertAfter(eexprError)(&st->errStream, NULL, &err)`
appends to the append-only error stream. -/
def lexer_addErr (st : Lexer) (err : EexprError) : Lexer :=
  { st with errStream := st.errStream ++ [err] }

/-- The peek every recognizer starts with: `peekUchar(&c, st->rest)`. -/
def Lexer.peek (P : Params) (st : Lexer) : Int × Nat := peekUchar P.UCHAR_NULL st.rest

/-! ## lexer.c : helper consumers

Every recognizer returns an `Option`: `none` stands for a run without a defined result (a
read past the input through `peekUchars`, a failed `assert`, or a loop that does not come
to an end). Loops carry a fuel counter that starts above the number of remaining bytes. -/

/-- One step of the loop of `decodeUnihex`: `accum << 4`, then the digit value or-ed in;
`none` when the character is no hex digit. -/
def unihexStep (accum : Nat) (d : Int) : Option Nat :=
  if 0x30 ≤ d ∧ d ≤ 0x39 then some ((accum <<< 4) ||| (d - 0x30).toNat)
  else if 0x61 ≤ d ∧ d ≤ 0x66 then some ((accum <<< 4) ||| (d - 0x61 + 10).toNat)
  else if 0x41 ≤ d ∧ d ≤ 0x46 then some ((accum <<< 4) ||| (d - 0x41 + 10).toNat)
  else none

/-- The loop of `decodeUnihex` over the first `nChars` entries of `digits`. -/
def decodeUnihexLoop : Nat → List Int → Nat → Option Nat
  | 0, _, accum => some accum
  | _ + 1, [], _ => none
  | n + 1, d :: ds, accum =>
    match unihexStep accum d with
    | none => none
    | some accum' => decodeUnihexLoop n ds accum'

/-- The function `decodeUnihex(nChars, out, digits)`: `some v` when it returns true having set `*out = v`,
`none` when it returns false leaving `*out` as it was. -/
def decodeUnihex (nChars : Nat) (digits : List Int) : Option Int :=
  match decodeUnihexLoop nChars digits 0 with
  | none => none
  | some accum => some (accum : Int)

/-- The loop over `commonEscapes` in `takeCharEscape`: the decoded codepoint of the first
entry whose source is `c`, stopping at the terminating entry. -/
def findCommonEscape (UCHAR_NULL : Int) (c : Int) : List (Int × Int) → Option Int
  | [] => none
  | (source, decode) :: rest =>
    if source = UCHAR_NULL then none
    else if c = source then some decode
    else findCommonEscape UCHAR_NULL c rest

/-- The body shared by the three hex branches of `takeCharEscape`: `nDigits` is 2, 4 or 6,
`c` the leader just peeked, `adv` its length, `start` the location before the leader. -/
def takeHexEscape (P : Params) (nDigits : Nat) (c : Int) (adv : Nat) (st : Lexer) :
    Option (Int × Lexer) :=
  let start := st.loc
  let st1 := lexer_advance st adv 1
  match peekUchars P.UCHAR_NULL nDigits st1.rest with
  | none => none
  | some (peeked, adv') =>
    let digits := List.replicate (6 - nDigits) P.UCHAR_NULL ++ peeked
    let st2 := lexer_advance st1 adv' nDigits
    match decodeUnihex nDigits peeked with
    | some v => some (v, st2)
    | none =>
      some (c, lexer_addErr st2
        { loc := ⟨start, st2.loc⟩, type := ErrType.badEscapeCode, as := ErrData.badEscapeCode digits })

/-- The function `takeCharEscape`: the decoded codepoint (or `UCHAR_NULL`) and the state after. -/
def takeCharEscape (P : Params) (st : Lexer) : Option (Int × Lexer) :=
  let (c, adv) := st.peek P
  match findCommonEscape P.UCHAR_NULL c P.commonEscapes with
  | some decode => some (decode, lexer_advance st adv 1)
  | none =>
    if c = P.twoHexEscapeLeader then takeHexEscape P 2 c adv st
    else if c = P.fourHexEscapeLeader then takeHexEscape P 4 c adv st
    else if c = P.sixHexEscapeLeader then takeHexEscape P 6 c adv st
    else some (P.UCHAR_NULL, st)

/-- The `while (true)` loop of `takeWhitespace`: the state, `mixed` and `advChars` at the
`break`. -/
def whitespaceLoop (P : Params) (c0 : Int) : Nat → Lexer → Bool → Nat → Option (Lexer × Bool × Nat)
  | 0, _, _, _ => none
  | fuel + 1, st, mixed, advChars =>
    let (c, adv) := st.peek P
    if P.isSpaceChar c then
      whitespaceLoop P c0 fuel (lexer_advance st adv 1) (mixed || decide (c ≠ c0)) (advChars + 1)
    else some (st, mixed, advChars)

/-- The function `takeWhitespace`. -/
def takeWhitespace (P : Params) (st : Lexer) : Option (Bool × Lexer) :=
  if !P.isSpaceChar (st.peek P).1 then some (false, st)
  else
    let c0 := (st.peek P).1
    match whitespaceLoop P c0 (st.rest.length + 1) st false 0 with
    | none => none
    | some (st1, mixed, advChars) =>
      if advChars = 0 then none
      else
        let tok : Token :=
          { loc := ⟨st.loc, st1.loc⟩, type := TokType.unknownSpace,
            as := TokData.unknownSpace (if mixed then P.UCHAR_SENTINEL else c0) advChars }
        let st2 := lexer_addTok st1 tok
        if mixed then
          some (true, lexer_addErr st2 { loc := tok.loc, type := ErrType.mixedSpace, as := ErrData.none })
        else some (true, st2)

/-- The function `takeNewline`. The source assigns `type = decodeNewline(lookahead) != 0`, the value of
the comparison. -/
def takeNewline (P : Params) (st : Lexer) : Option (Bool × Lexer) :=
  match peekUchars P.UCHAR_NULL 2 st.rest with
  | some ([la0, la1], _) =>
    let type : Nat := if P.decodeNewline la0 la1 ≠ 0 then 1 else 0
    if type = P.NEWLINE_NONE then some (false, st)
    else
      let st1 := lexer_incLine st (P.newlineSize type)
      let tok : Token := { loc := ⟨st.loc, st1.loc⟩, type := TokType.unknownNewline, as := TokData.none }
      let st2 := lexer_addTok st1 tok
      if type ≠ st2.discoveredNewline then
        if st2.discoveredNewline = P.NEWLINE_NONE then
          some (true, { st2 with discoveredNewline := type })
        else
          some (true, lexer_addErr st2
            { loc := tok.loc, type := ErrType.mixedNewlines, as := ErrData.none })
      else some (true, st2)
  | _ => none

/-- The function `takeNullEscape`; `assert(takeNewline(st))` gives `none` when the call returns false. -/
def takeNullEscape (P : Params) (st : Lexer) : Option (Bool × Lexer) :=
  let (c, adv) := st.peek P
  if P.isNewlineChar c then
    match takeNewline P st with
    | some (true, st1) =>
      let st2 := lexer_delTok st1
      match takeWhitespace P st2 with
      | none => none
      | some (ws, st3) =>
        let st4 := if ws then lexer_delTok st3 else st3
        let (c', adv') := st4.peek P
        if c' = P.escapeLeader then some (true, lexer_advance st4 adv' 1)
        else
          some (true, lexer_addErr st4
            { loc := ⟨st4.loc, st4.loc⟩, type := ErrType.missingLinePickup, as := ErrData.none })
    | _ => none
  else if c = P.nullEscape then some (true, lexer_advance st adv 1)
  else some (false, st)

/-! ## lexer.c : individual token consumers -/

/-- The trailing-whitespace loops of `takeLineContinue` and `takeHeredoc`: skips space
characters; the flag tells whether any was skipped. -/
def skipSpaceLoop (P : Params) : Nat → Lexer → Bool → Option (Lexer × Bool)
  | 0, _, _ => none
  | fuel + 1, st, trailingSpace =>
    let (c, adv) := st.peek P
    if P.isSpaceChar c then skipSpaceLoop P fuel (lexer_advance st adv 1) true
    else some (st, trailingSpace)

/-- The function `takeLineContinue`. -/
def takeLineContinue (P : Params) (st : Lexer) : Option (Bool × Lexer) :=
  let (lookahead, adv) := st.peek P
  if lookahead ≠ P.escapeLeader then some (false, st)
  else
    let st1 := lexer_advance st adv 1
    match skipSpaceLoop P (st1.rest.length + 1) st1 false with
    | none => none
    | some (st2, trailingSpace) =>
      let st3 :=
        if trailingSpace then
          lexer_addErr st2 { loc := ⟨st1.loc, st2.loc⟩, type := ErrType.trailingSpace, as := ErrData.none }
        else st2
      match takeNewline P st3 with
      | none => none
      | some (true, st4) =>
        let st5 := lexer_delTok st4
        some (true, lexer_addTok st5
          { loc := ⟨st.loc, st5.loc⟩, type := TokType.unknownSpace,
            as := TokData.unknownSpace P.escapeLeader 0 })
      | some (false, st4) =>
        some (true, lexer_addErr st4
          { loc := ⟨st.loc, st4.loc⟩, type := ErrType.badChar, as := ErrData.badChar P.escapeLeader })

/-- The function `takeEof`. -/
def takeEof (P : Params) (st : Lexer) : Option (Bool × Lexer) :=
  if (st.peek P).1 ≠ P.UCHAR_NULL then some (false, st)
  else
    some (true, lexer_addTok st { loc := ⟨st.loc, st.loc⟩, type := TokType.eof, as := TokData.none })

/-- Modelled from the spec: `untilEol` of the missing `lexer/util.h`, the bytes and
codepoints up to (not including) the next newline character, the end of input, or a byte
that fails to decode. -/
def untilEol (P : Params) : Nat → List Byte → Nat → Nat → Option (Nat × Nat)
  | 0, _, _, _ => none
  | fuel + 1, input, bytes, uchars =>
    let (c, adv) := peekUchar P.UCHAR_NULL input
    if c = P.UCHAR_NULL ∨ c < 0 ∨ P.isNewlineChar c then some (bytes, uchars)
    else untilEol P fuel (input.drop adv) (bytes + adv) (uchars + 1)

/-- The function `takeComment`. -/
def takeComment (P : Params) (st : Lexer) : Option (Bool × Lexer) :=
  if (st.peek P).1 ≠ P.commentChar then some (false, st)
  else
    match untilEol P (st.rest.length + 1) st.rest 0 0 with
    | none => none
    | some (bytes, uchars) =>
      let st1 := lexer_advance st bytes uchars
      let st2 := lexer_addTok st1 { loc := ⟨st.loc, st1.loc⟩, type := TokType.comment, as := TokData.none }
      let lookahead := (st2.peek P).1
      if lookahead < 0 ∧ lookahead ≠ P.UCHAR_NULL then
        let st3 := lexer_advance st2 1 1
        some (true, { st3 with
          fatal := { st2.fatal with type := ErrType.badBytes, loc := ⟨st2.loc, st3.loc⟩ } })
      else some (true, st2)

/-- The `while (true)` loop of `takeSymbol` and of the tag of `takeHeredoc`: consumes symbol
characters; returns the state, the bytes consumed and the characters consumed. -/
def symbolLoop (P : Params) : Nat → Lexer → Nat → Nat → Option (Lexer × Nat × Nat)
  | 0, _, _, _ => none
  | fuel + 1, st, len, nChars =>
    let (c, adv) := st.peek P
    if P.isSymbolChar c then symbolLoop P fuel (lexer_advance st adv 1) (len + adv) (nChars + 1)
    else some (st, len, nChars)

/-- The function `takeSymbol`. -/
def takeSymbol (P : Params) (st : Lexer) : Option (Bool × Lexer) :=
  match peekUchars P.UCHAR_NULL 2 st.rest with
  | some ([la0, la1], _) =>
    if !P.isSymbolStart la0 la1 then some (false, st)
    else
      match symbolLoop P (st.rest.length + 1) st 0 0 with
      | none => none
      | some (st1, len, _) =>
        if len = 0 then none
        else
          some (true, lexer_addTok st1
            { loc := ⟨st.loc, st1.loc⟩, type := TokType.symbol, as := TokData.symbol (st.rest.take len) })
  | _ => none

/-- The function `checkDigitSepContext`. -/
def checkDigitSepContext (P : Params) (radix : RadixParams) (start : FilelocPoint)
    (alwaysError : Bool) (st : Lexer) : Lexer :=
  let lookahead := (st.peek P).1
  if alwaysError ∨ (¬ P.isDigit radix lookahead ∧ lookahead ≠ P.digitSep) then
    lexer_addErr st { loc := ⟨start, st.loc⟩, type := ErrType.badDigitSeparator, as := ErrData.none }
  else st

/-- The digit loop `takeNumber` runs three times (integer part, fractional part, exponent):
digits are scaled into `acc` and counted in the `uint32_t` counter `nDigits`, digit
separators are consumed and checked. -/
def digitLoop (P : Params) (radix : RadixParams) :
    Nat → Lexer → Bigint → Nat → Option (Lexer × Bigint × Nat)
  | 0, _, _, _ => none
  | fuel + 1, st, acc, nDigits =>
    let (c, adv) := st.peek P
    if P.isDigit radix c then
      digitLoop P radix fuel (lexer_advance st adv 1)
        (bigint_inc (bigint_scale acc radix.radix) (P.decodeDigit radix c))
        ((nDigits + 1) % 2 ^ 32)
    else if c = P.digitSep then
      let loc0 := st.loc
      let st1 := lexer_advance st adv 1
      digitLoop P radix fuel (checkDigitSepContext P radix loc0 (nDigits == 0) st1) acc nDigits
    else some (st, acc, nDigits)

/-- The blocks "determine radix" and "gather exponent radix" of `takeNumber`: an optional
radix prefix, consumed when present; the default radix otherwise. -/
def takeRadix (P : Params) (st : Lexer) : Option (RadixParams × Lexer) :=
  match peekUchars P.UCHAR_NULL 2 st.rest with
  | some ([la0, la1], adv) =>
    if la0 = P.defaultRadix.digits.getD 0 P.UCHAR_NULL then
      match P.decodeRadix la1 with
      | some radix => some (radix, lexer_advance st adv 2)
      | none => some (P.defaultRadix, st)
    else some (P.defaultRadix, st)
  | _ => none

/-- The block "gather sign (or early exit)" of `takeNumber`: `some (some (neg, st))` to go
on, `some none` for the early `return false`. -/
def takeNumberSign (P : Params) (st : Lexer) : Option (Option (Bool × Lexer)) :=
  match peekUchars P.UCHAR_NULL 1 st.rest with
  | some ([la0], adv) =>
    if P.isDigit P.defaultRadix la0 then some (some (false, st))
    else if P.isSign la0 then
      let neg := decide (la0 = P.negativeSign)
      match peekUchars P.UCHAR_NULL 2 st.rest with
      | some ([_, la1], _) =>
        if P.isDigit P.defaultRadix la1 then some (some (neg, lexer_advance st adv 1))
        else some none
      | _ => none
    else some none
  | _ => none

/-- The block "gather fractional part" of `takeNumber`: the state, the mantissa and the
`uint32_t` count `fractionalDigits`. -/
def takeNumberFraction (P : Params) (radix : RadixParams) (st : Lexer) (mantissa : Bigint) :
    Option (Lexer × Bigint × Nat) :=
  let adv := (st.peek P).2
  match peekUchars P.UCHAR_NULL 2 st.rest with
  | some ([la0, la1], _) =>
    if la0 = P.digitPoint ∧ P.isDigit radix la1 then
      let st1 := lexer_advance st adv 1
      digitLoop P radix (st1.rest.length + 1) st1 mantissa 0
    else some (st, mantissa, 0)
  | _ => none

/-- The block "gather exponent sign" of `takeNumber`: the flag `expNeg` and the state after
it. A sign is honoured after a fractional part; otherwise it is consumed with a
BadExponentSign error. -/
def takeExponentSign (P : Params) (fractionalDigits : Nat) (st : Lexer) : Bool × Lexer :=
  let (lookahead, adv) := st.peek P
  if P.isSign lookahead then
    if fractionalDigits ≠ 0 then (decide (lookahead = P.negativeSign), lexer_advance st adv 1)
    else
      let st1 := lexer_advance st adv 1
      (false, lexer_addErr st1
        { loc := ⟨st.loc, st1.loc⟩, type := ErrType.badExponentSign, as := ErrData.none })
  else (false, st)

/-- The outcome of the block "gather exponent" of `takeNumber`. -/
inductive ExponentResult where
  | absent (st : Lexer)
  | missing (st : Lexer)
  | present (st : Lexer) (exponent : Bigint) (expNeg : Bool)

/-- The block "gather exponent" of `takeNumber`: `absent` when no exponent letter follows,
`missing` when the exponent has no digit (the caller emits the NumberError token), `present`
with the exponent's magnitude and sign flag otherwise. -/
def takeNumberExponent (P : Params) (radix : RadixParams) (fractionalDigits : Nat) (st : Lexer) :
    Option ExponentResult :=
  let (lookahead, adv) := st.peek P
  let presence : Option Bool :=
    if ucharElem P.UCHAR_NULL lookahead radix.exponentLetters then some false
    else if lookahead = P.genericExpLetter then some true
    else none
  match presence with
  | none => some (ExponentResult.absent st)
  | some expRadixMayDiffer =>
    let (expNeg, st2) := takeExponentSign P fractionalDigits (lexer_advance st adv 1)
    -- gather exponent radix
    let radixRes : Option (RadixParams × Lexer) :=
      if !expRadixMayDiffer then some (radix, st2) else takeRadix P st2
    match radixRes with
    | none => none
    | some (expRadix, st3) =>
      -- gather exponent digits
      match digitLoop P expRadix (st3.rest.length + 1) st3 bigint_new 0 with
      | none => none
      | some (st4, exponent, expDigits) =>
        if expDigits = 0 then some (ExponentResult.missing st4)
        else some (ExponentResult.present st4 exponent expNeg)

/-- The end of `takeNumber`, from the block "gather exponent" on: `start` is the location
the token starts at, `neg` the sign parsed at the beginning, `mantissa1` and
`fractionalDigits` come from the blocks before. -/
def takeNumberFinish (P : Params) (start : FilelocPoint) (neg : Bool) (radix : RadixParams)
    (mantissa1 : Bigint) (fractionalDigits : Nat) (st4 : Lexer) : Option (Bool × Lexer) :=
  match takeNumberExponent P radix fractionalDigits st4 with
  | none => none
  | some (ExponentResult.missing st5) =>
    let tok : Token := { loc := ⟨start, st5.loc⟩, type := TokType.numberError, as := TokData.none }
    some (true, lexer_addErr (lexer_addTok st5 tok)
      { loc := tok.loc, type := ErrType.missingExponent, as := ErrData.none })
  | some (ExponentResult.absent st5) =>
    let mantissa := if mantissa1.mag ≠ 0 then { mantissa1 with pos := !neg } else mantissa1
    some (true, lexer_addTok st5
      { loc := ⟨start, st5.loc⟩, type := TokType.number,
        as := TokData.number mantissa radix.radix fractionalDigits bigint_new })
  | some (ExponentResult.present st5 exponent0 expNeg) =>
    let mantissa := if mantissa1.mag ≠ 0 then { mantissa1 with pos := !neg } else mantissa1
    let exponent := if exponent0.mag ≠ 0 then { exponent0 with pos := !expNeg } else exponent0
    some (true, lexer_addTok st5
      { loc := ⟨start, st5.loc⟩, type := TokType.number,
        as := TokData.number mantissa radix.radix fractionalDigits exponent })

/-- The function `takeNumber`. -/
def takeNumber (P : Params) (st : Lexer) : Option (Bool × Lexer) :=
  match takeNumberSign P st with
  | none => none
  | some none => some (false, st)
  | some (some (neg, st1)) =>
    match takeRadix P st1 with
    | none => none
    | some (radix, st2) =>
      match digitLoop P radix (st2.rest.length + 1) st2 bigint_new 0 with
      | none => none
      | some (st3, mantissa0, _) =>
        match takeNumberFraction P radix st3 mantissa0 with
        | none => none
        | some (st4, mantissa1, fractionalDigits) =>
          takeNumberFinish P st.loc neg radix mantissa1 fractionalDigits st4

/-- The error-recovery loop of `takeCodepoint` after a missing closing tick: consumes
codepoints up to and including the next codepoint delimiter or newline character, or up to
the end of input. -/
def unclosedCodepointLoop (P : Params) : Nat → Lexer → Option Lexer
  | 0, _ => none
  | fuel + 1, st =>
    let (c, adv) := st.peek P
    let st1 := lexer_advance st adv (if c = P.UCHAR_NULL then 0 else 1)
    if P.isCodepointDelim c ∨ P.isNewlineChar c ∨ c = P.UCHAR_NULL then some st1
    else unclosedCodepointLoop P fuel st1

/-- The BadEscapeChar recovery shared by `takeCodepoint` and `takeString`: `isDelim` is
`isCodepointDelim` or `isStringDelim`. The error's end point is never assigned. -/
def badEscapeChar (P : Params) (isDelim : Int → Bool) (st : Lexer) : Lexer :=
  let (bad, adv) := st.peek P
  if isDelim bad then
    lexer_addErr st
      { loc := ⟨st.loc, FilelocPoint.zero⟩, type := ErrType.badEscapeChar,
        as := ErrData.badEscapeChar P.UCHAR_NULL }
  else if bad ≠ P.UCHAR_NULL then
    lexer_addErr (lexer_advance st adv 1)
      { loc := ⟨st.loc, FilelocPoint.zero⟩, type := ErrType.badEscapeChar,
        as := ErrData.badEscapeChar bad }
  else
    lexer_addErr st
      { loc := ⟨st.loc, FilelocPoint.zero⟩, type := ErrType.badEscapeChar,
        as := ErrData.badEscapeChar bad }

/-- The block "obtain a single codepoint" of `takeCodepoint`, entered after the opening
tick: the value left in `tok.as.codepoint` and the state at `codepointBuilt`. -/
def takeCodepointBody (P : Params) (st : Lexer) : Option (Int × Lexer) :=
  let (c, adv) := st.peek P
  if P.isStringChar c then some (c, lexer_advance st adv 1)
  else if c = P.escapeLeader then
    match takeCharEscape P (lexer_advance st adv 1) with
    | none => none
    | some (cp, st1) =>
      if cp = P.UCHAR_NULL then some (cp, badEscapeChar P P.isCodepointDelim st1)
      else some (cp, st1)
  else
    let payload := if P.isCodepointDelim c then P.UCHAR_NULL else c
    let st1 := if ¬ P.isCodepointDelim c ∧ c ≠ P.UCHAR_NULL then lexer_advance st adv 1 else st
    some (P.UCHAR_NULL, lexer_addErr st1
      { loc := ⟨st.loc, st1.loc⟩, type := ErrType.badCodepoint, as := ErrData.badCodepoint payload })

/-- The block "closing tick, or error recovery" of `takeCodepoint`. -/
def takeCodepointClose (P : Params) (st : Lexer) : Option Lexer :=
  let (lookahead, adv) := st.peek P
  if P.isCodepointDelim lookahead then some (lexer_advance st adv 1)
  else
    match unclosedCodepointLoop P (st.rest.length + 1) st with
    | none => none
    | some st1 =>
      some (lexer_addErr st1
        { loc := ⟨st.loc, st1.loc⟩, type := ErrType.unclosedCodepoint, as := ErrData.none })

/-- The function `takeCodepoint`. -/
def takeCodepoint (P : Params) (st : Lexer) : Option (Bool × Lexer) :=
  let (lookahead, adv) := st.peek P
  if !P.isCodepointDelim lookahead then some (false, st)
  else
    match takeCodepointBody P (lexer_advance st adv 1) with
    | none => none
    | some (cp, st1) =>
      match takeCodepointClose P st1 with
      | none => none
      | some st2 =>
        let (cp', st3) : Int × Lexer :=
          if cp > 0x10FFFF then
            (P.UCHAR_NULL, lexer_addErr st2
              { loc := ⟨st.loc, FilelocPoint.zero⟩, type := ErrType.unicodeOverflow,
                as := ErrData.unicodeOverflow cp })
          else (cp, st2)
        if cp' ≥ 0 then
          some (true, lexer_addTok st3
            { loc := ⟨st.loc, st3.loc⟩, type := TokType.codepoint, as := TokData.codepoint cp' })
        else some (true, st3)

/-- The "standard characters" loop of `takeString`: consumes string characters; returns
the state and the number of bytes consumed. -/
def stringCharsLoop (P : Params) : Nat → Lexer → Nat → Option (Lexer × Nat)
  | 0, _, _ => none
  | fuel + 1, st, advLen =>
    let (c, adv) := st.peek P
    if !P.isStringChar c then some (st, advLen)
    else stringCharsLoop P fuel (lexer_advance st adv 1) (advLen + adv)

/-- The block "escape sequences" of `takeString`: the state, the buffer and the flag `more`
after it. -/
def takeStringEscape (P : Params) (st : Lexer) (buf : List Byte) (more : Bool) :
    Option (Lexer × List Byte × Bool) :=
  let (c, adv) := st.peek P
  if c = P.escapeLeader then
    match takeCharEscape P (lexer_advance st adv 1) with
    | none => none
    | some (decoded, st1) =>
      if decoded ≠ P.UCHAR_NULL then some (st1, buf ++ encodeUchar decoded, true)
      else
        match takeNullEscape P st1 with
        | none => none
        | some (true, st2) => some (st2, buf, true)
        | some (false, st2) => some (badEscapeChar P P.isStringDelim st2, buf, true)
  else some (st, buf, more)

/-- The `for (bool more = true; more; )` loop of `takeString`: the state and the bytes
gathered in `buf` when the loop is left. -/
def stringBodyLoop (P : Params) : Nat → Lexer → List Byte → Option (Lexer × List Byte)
  | 0, _, _ => none
  | fuel + 1, st, buf =>
    match stringCharsLoop P (st.rest.length + 1) st 0 with
    | none => none
    | some (st1, advLen) =>
      let buf1 := if advLen ≠ 0 then buf ++ st.rest.take advLen else buf
      match takeStringEscape P st1 buf1 (decide (advLen ≠ 0)) with
      | none => none
      | some (st2, buf2, more) =>
        let (c, adv) := st2.peek P
        if c = P.UCHAR_NULL ∨ P.isStringDelim c ∨ P.isNewlineChar c then some (st2, buf2)
        else if !more then
          let st3 := lexer_advance st2 adv 1
          some (lexer_addErr st3
            { loc := ⟨st2.loc, st3.loc⟩, type := ErrType.badStringChar,
              as := ErrData.badStringChar c }, buf2)
        else stringBodyLoop P fuel st2 buf2

/-- The function `takeString`. -/
def takeString (P : Params) (st : Lexer) : Option (Bool × Lexer) :=
  let (opener, adv) := st.peek P
  if !P.isStringDelim opener then some (false, st)
  else
    let st1 := lexer_advance st adv 1
    match stringBodyLoop P (st1.rest.length + 1) st1 [] with
    | none => none
    | some (st2, buf) =>
      let (close, adv') := st2.peek P
      let st3 :=
        if P.isStringDelim close then lexer_advance st2 adv' 1
        else
          lexer_addErr st2
            { loc := ⟨st2.loc, st2.loc⟩, type := ErrType.unclosedString, as := ErrData.none }
      some (true, lexer_addTok st3
        { loc := ⟨st.loc, st3.loc⟩, type := TokType.string,
          as := TokData.string buf (P.spliceType opener close) })

/-- The StringError exit of `takeHeredoc` (label `badIndentDef` and the unclosed case): the
token, the fatal of the given kind with the token's span, `return true`. -/
def heredocFail (st0 st : Lexer) (kind : ErrType) : Bool × Lexer :=
  let tok : Token :=
    { loc := ⟨st0.loc, st.loc⟩, type := TokType.stringError,
      as := TokData.string [] SpliceType.plain }
  let st1 := lexer_addTok st tok
  (true, { st1 with fatal := { st1.fatal with type := kind, loc := tok.loc } })

/-- The loop "count indentation depth" of `takeHeredoc`: `some (some (st, n))` at the
`break`, `some none` for the jump to `badIndentDef` (with the state reached). -/
def heredocIndentLoop (P : Params) (indentChar : Int) :
    Nat → Lexer → Nat → Option (Lexer × Option Nat)
  | 0, _, _ => none
  | fuel + 1, st, n =>
    let (c, adv) := st.peek P
    if c = indentChar then heredocIndentLoop P indentChar fuel (lexer_advance st adv 1) (n + 1)
    else if c = P.escapeLeader then
      let st1 := lexer_advance st adv 1
      if c = P.tabChar then
        let (c', adv') := st1.peek P
        if c' = P.tabChar then some (lexer_advance st1 adv' 1, some (n + 1))
        else some (st1, none)
      else some (st1, some (n + 1))
    else some (st, none)

/-- The loop "consume line" of `takeHeredoc`: consumes up to the next newline character or
the end of input; returns the state and the number of bytes consumed. -/
def heredocLineLoop (P : Params) : Nat → Lexer → Nat → Option (Lexer × Nat)
  | 0, _, _ => none
  | fuel + 1, st, len =>
    let (c, adv) := st.peek P
    if c = P.UCHAR_NULL ∨ P.isNewlineChar c then some (st, len)
    else heredocLineLoop P fuel (lexer_advance st adv 1) (len + adv)

/-- The loop "consume indentation" of `takeHeredoc`: `k` iterations are left, `i` is the
loop index, `start` the location before the indentation. -/
def heredocSkipIndent (P : Params) (indentChar : Int) (start : FilelocPoint) :
    Nat → Nat → Lexer → Lexer
  | 0, _, st => st
  | k + 1, i, st =>
    let (c, adv) := st.peek P
    if c = indentChar then heredocSkipIndent P indentChar start k (i + 1) (lexer_advance st adv 1)
    else if P.isNewlineChar c then
      if i ≠ 0 then
        lexer_addErr st { loc := ⟨start, st.loc⟩, type := ErrType.trailingSpace, as := ErrData.none }
      else st
    else
      lexer_addErr st
        { loc := ⟨start, st.loc⟩, type := ErrType.heredocBadIndentation, as := ErrData.none }

/-- The loop "accumulate lines until end marker" of `takeHeredoc`: `st0` is the state at the
start of the heredoc, `ender`/`enderNChars` the closing marker, `text` the buffer. -/
def heredocLinesLoop (P : Params) (st0 : Lexer) (ender : List Byte) (enderNChars : Nat)
    (indentChar : Int) (indentNChars : Nat) : Nat → Lexer → List Byte → Option (Bool × Lexer)
  | 0, _, _ => none
  | fuel + 1, st, text =>
    match heredocLineLoop P (st.rest.length + 1) st 0 with
    | none => none
    | some (st1, len) =>
      let text1 := text ++ st.rest.take len
      match takeNewline P st1 with
      | none => none
      | some (false, st2) => some (heredocFail st0 st2 ErrType.unclosedHeredoc)
      | some (true, st2') =>
        let st2 := lexer_delTok st2'
        let nlText := st1.rest.take (st1.rest.length - st2.rest.length)
        let st3 := heredocSkipIndent P indentChar st2.loc indentNChars 0 st2
        if ender.isPrefixOf st3.rest then
          let st4 := lexer_advance st3 ender.length enderNChars
          some (true, lexer_addTok st4
            { loc := ⟨st0.loc, st4.loc⟩, type := TokType.string,
              as := TokData.string text1 SpliceType.plain })
        else heredocLinesLoop P st0 ender enderNChars indentChar indentNChars fuel st3 (text1 ++ nlText)

/-- The block "accumulate indentation" of `takeHeredoc` for an indented heredoc:
`some (st, some (indentChar, indentNChars))`, or `some (st, none)` for `badIndentDef`. -/
def heredocIndentDef (P : Params) (st : Lexer) : Option (Lexer × Option (Int × Nat)) :=
  let (c, adv) := st.peek P
  if P.isSpaceChar c then
    match heredocIndentLoop P c (st.rest.length + 1) (lexer_advance st adv 1) 1 with
    | none => none
    | some (st1, none) => some (st1, none)
    | some (st1, some n) =>
      if st1.indent.chr = P.UCHAR_NULL then
        some ({ st1 with indent := { st1.indent with chr := c, established := ⟨st.loc, st1.loc⟩ } },
          some (c, n))
      else if c ≠ st1.indent.chr ∧ ¬ st1.indent.knownMixed then
        some (lexer_addErr { st1 with indent := { st1.indent with knownMixed := true } }
          { loc := ⟨st.loc, st1.loc⟩, type := ErrType.mixedIndentation,
            as := ErrData.mixedIndentation st1.indent.chr st1.indent.established }, some (c, n))
      else some (st1, some (c, n))
  else some (st, none)

/-- The block "detect indentation flag" of `takeHeredoc`: the state after it and the flag
`indented`. -/
def heredocIndentFlag (P : Params) (st : Lexer) : Option (Lexer × Bool) :=
  match skipSpaceLoop P (st.rest.length + 1) st false with
  | none => none
  | some (st1, trailing1) =>
    let (lookahead, adv) := st1.peek P
    if lookahead = P.escapeLeader then
      let st2 := lexer_advance st1 adv 1
      match skipSpaceLoop P (st2.rest.length + 1) st2 false with
      | none => none
      | some (st3, trailing2) =>
        if trailing2 then
          some (lexer_addErr st3
            { loc := ⟨st2.loc, st3.loc⟩, type := ErrType.trailingSpace, as := ErrData.none }, true)
        else some (st3, true)
    else if trailing1 then
      some (lexer_addErr st1
        { loc := ⟨st.loc, st1.loc⟩, type := ErrType.trailingSpace, as := ErrData.none }, false)
    else some (st1, false)

/-- The function `takeHeredoc`. The closing marker is built from the tag and three bytes holding
`plainStringDelim`; with a delimiter that does not encode to one byte the marker would
hold bytes never written, which gives `none`. -/
def takeHeredoc (P : Params) (st : Lexer) : Option (Bool × Lexer) :=
  match peekUchars P.UCHAR_NULL 3 st.rest with
  | some ([la0, la1, la2], adv) =>
    if la0 ≠ P.plainStringDelim ∨ la1 ≠ P.plainStringDelim ∨ la2 ≠ P.plainStringDelim then
      some (false, st)
    else
      let st1 := lexer_advance st adv 3
      match symbolLoop P (st1.rest.length + 1) st1 0 0 with
      | none => none
      | some (st2, nameLen, nameChars) =>
        if (encodeUchar P.plainStringDelim).length ≠ 1 then none
        else
          let quote : Byte := Fin.ofNat (P.plainStringDelim % 256).toNat
          let ender := st1.rest.take nameLen ++ [quote, quote, quote]
          let enderNChars := nameChars + 3
          match heredocIndentFlag P st2 with
          | none => none
          | some (st3, indented) =>
            match takeNewline P st3 with
            | none => none
            | some (nl, st4') =>
              let st4 :=
                if nl then lexer_delTok st4'
                else { st4' with
                  fatal := { st4'.fatal with type := ErrType.heredocBadOpen, loc := ⟨st.loc, st4'.loc⟩ } }
              if indented then
                match heredocIndentDef P st4 with
                | none => none
                | some (st5, none) => some (heredocFail st st5 ErrType.heredocBadIndentDefinition)
                | some (st5, some (indentChar, indentNChars)) =>
                  heredocLinesLoop P st ender enderNChars indentChar indentNChars
                    (st5.rest.length + 1) st5 []
              else
                heredocLinesLoop P st ender enderNChars P.UCHAR_NULL 0 (st4.rest.length + 1) st4 []
  | _ => none

/-- The function `takeWrap`. -/
def takeWrap (P : Params) (st : Lexer) : Option (Bool × Lexer) :=
  let (lookahead, adv) := st.peek P
  let type := P.isWrapChar lookahead
  if type = WrapType.null then some (false, st)
  else
    let st1 := lexer_advance st adv 1
    some (true, lexer_addTok st1
      { loc := ⟨st.loc, st1.loc⟩, type := TokType.wrap,
        as := TokData.wrap type (P.isOpenWrap lookahead) })

/-- The function `takeSplitter`. -/
def takeSplitter (P : Params) (st : Lexer) : Option (Bool × Lexer) :=
  match peekUchars P.UCHAR_NULL 2 st.rest with
  | some ([la0, la1], _) =>
    let info := P.decodeSplitter la0 la1
    let st1 := lexer_advance st info.bytes info.uchars
    let emit (t : TokType) : Option (Bool × Lexer) :=
      some (true, lexer_addTok st1 { loc := ⟨st.loc, st1.loc⟩, type := t, as := TokData.none })
    match info.type with
    | SplitterType.none => some (false, st)
    | SplitterType.colon => emit TokType.unknownColon
    | SplitterType.ellipsis => emit TokType.ellipsis
    | SplitterType.dot => emit TokType.unknownDot
    | SplitterType.semicolon => emit TokType.semicolon
    | SplitterType.comma => emit TokType.comma
  | _ => none

/-- The function `takeUnexpected`. -/
def takeUnexpected (P : Params) (st : Lexer) : Option (Bool × Lexer) :=
  let (c, adv) := st.peek P
  if c < 0 ∨ c > 0x10FFFF then
    let st1 := lexer_advance st adv 0
    some (true, lexer_addErr st1 { loc := ⟨st.loc, st1.loc⟩, type := ErrType.badBytes, as := ErrData.none })
  else
    let st1 := lexer_advance st adv 1
    some (true, lexer_addErr st1 { loc := ⟨st.loc, st1.loc⟩, type := ErrType.badChar, as := ErrData.badChar c })

/-! ## lexer.c : the dispatch loop -/

/-- The chain `if (takeA(st)) { continue; } if (takeB(st)) { continue; } ...`: runs the
recognizers in order until one returns true. -/
def firstOf : List (Lexer → Option (Bool × Lexer)) → Lexer → Option (Bool × Lexer)
  | [], st => some (false, st)
  | f :: fs, st =>
    match f st with
    | none => none
    | some (true, st1) => some (true, st1)
    | some (false, st1) => firstOf fs st1

/-- The recognizers `lexer_raw` tries before `takeEof`, in order. -/
def recognizers (P : Params) : List (Lexer → Option (Bool × Lexer)) :=
  [takeWhitespace P, takeNewline P, takeComment P, takeSymbol P, takeNumber P, takeHeredoc P,
   takeString P, takeCodepoint P, takeSplitter P, takeWrap P, takeLineContinue P]

/-- The `while` loop of `lexer_raw`, with a bound on the number of iterations; the trailing
`assert(false)` gives `none`. -/
def lexer_rawLoop (P : Params) : Nat → Lexer → Option Lexer
  | 0, _ => none
  | fuel + 1, st =>
    if st.fatal.type ≠ ErrType.noError then some st
    else
      match firstOf (recognizers P) st with
      | none => none
      | some (true, st1) => lexer_rawLoop P fuel st1
      | some (false, st1) =>
        match takeEof P st1 with
        | none => none
        | some (true, st2) => some st2
        | some (false, st2) =>
          match takeUnexpected P st2 with
          | some (true, st3) => lexer_rawLoop P fuel st3
          | _ => none

/-- The function `lexer_raw`: at most one iteration per remaining byte, one more for the end of input
and one to observe a fatal. -/
def lexer_raw (P : Params) (st : Lexer) : Option Lexer :=
  lexer_rawLoop P (st.rest.length + 2) st

/-- Modelled from the spec: the lexer state a caller starts from (the constructor is in the
missing `lexer/util.h`): the whole input ahead, line 1, column 1, nothing emitted, no fatal,
no newline or indentation discovered. -/
def lexer_init (P : Params) (input : List Byte) : Lexer :=
  { rest := input
    loc := ⟨0, 1, 1⟩
    tokens := []
    errStream := []
    fatal := { loc := ⟨FilelocPoint.zero, FilelocPoint.zero⟩, type := ErrType.noError, as := ErrData.none }
    discoveredNewline := P.NEWLINE_NONE
    indent := { chr := P.UCHAR_NULL, established := ⟨FilelocPoint.zero, FilelocPoint.zero⟩, knownMixed := false } }

/-! ## A concrete parameter set

`parameters.c` is not part of the sources at hand. The instance below follows the
specification (sections 4.B, 4.G and 8) and the comments of lexer.c; entries the
specification leaves open are marked. The general theorems hold for every `Params` that
meets their hypotheses; this instance serves the concrete scenarios. -/

/-- Modelled from the spec: value of a digit character, case-insensitive
(`0`-`9`, `a`-`z`, `A`-`Z`). -/
def specDecodeDigit (c : Int) : Nat :=
  if 0x30 ≤ c ∧ c ≤ 0x39 then (c - 0x30).toNat
  else if 0x61 ≤ c ∧ c ≤ 0x7A then (c - 0x61 + 10).toNat
  else if 0x41 ≤ c ∧ c ≤ 0x5A then (c - 0x41 + 10).toNat
  else 0

/-- Modelled from the spec: the default radix 10, exponent letters `e`, `E`. -/
def specRadix10 : RadixParams :=
  { radix := 10, digits := [0x30, 0x31, 0x32, 0x33, 0x34, 0x35, 0x36, 0x37, 0x38, 0x39],
    exponentLetters := [0x65, 0x45] }

/-- Modelled from the spec: radix 2 (the exponent letters are a choice of this instance). -/
def specRadix2 : RadixParams :=
  { radix := 2, digits := [0x30, 0x31], exponentLetters := [0x65, 0x45] }

/-- Modelled from the spec: radix 8 (the exponent letters are a choice of this instance). -/
def specRadix8 : RadixParams :=
  { radix := 8, digits := [0x30, 0x31, 0x32, 0x33, 0x34, 0x35, 0x36, 0x37],
    exponentLetters := [0x65, 0x45] }

/-- Modelled from the spec: radix 12 (the digits above 9 and the exponent letters are a
choice of this instance). -/
def specRadix12 : RadixParams :=
  { radix := 12,
    digits := [0x30, 0x31, 0x32, 0x33, 0x34, 0x35, 0x36, 0x37, 0x38, 0x39, 0x61, 0x62, 0x41, 0x42],
    exponentLetters := [0x65, 0x45] }

/-- Modelled from the spec: radix 16, digits case-insensitive (the exponent letters are a
choice of this instance; `e` is a digit here). -/
def specRadix16 : RadixParams :=
  { radix := 16,
    digits := [0x30, 0x31, 0x32, 0x33, 0x34, 0x35, 0x36, 0x37, 0x38, 0x39,
               0x61, 0x62, 0x63, 0x64, 0x65, 0x66, 0x41, 0x42, 0x43, 0x44, 0x45, 0x46],
    exponentLetters := [0x70, 0x50] }

/-- Modelled from the spec: the radix letter after the prefix character `0`; `x` is fixed
by scenario 1 of the specification, the letters `b`, `o`, `z` are a choice of this
instance. -/
def specDecodeRadix (c : Int) : Option RadixParams :=
  if c = 0x62 ∨ c = 0x42 then some specRadix2
  else if c = 0x6F ∨ c = 0x4F then some specRadix8
  else if c = 0x7A ∨ c = 0x5A then some specRadix12
  else if c = 0x78 ∨ c = 0x58 then some specRadix16
  else none

/-- Modelled from the spec: symbol characters (letters, digits and a few operator
characters; the exact set is a choice of this instance). -/
def specIsSymbolChar (c : Int) : Bool :=
  decide ((0x61 ≤ c ∧ c ≤ 0x7A) ∨ (0x41 ≤ c ∧ c ≤ 0x5A) ∨ (0x30 ≤ c ∧ c ≤ 0x39)
    ∨ c ∈ [0x5F, 0x2B, 0x2D, 0x2A, 0x2F, 0x3C, 0x3D, 0x3E, 0x21, 0x3F])

/-- Modelled from the spec: the newline table LF (kind 1), CR (kind 2), CRLF (kind 3);
kind 0 is `NEWLINE_NONE`. -/
def specDecodeNewline (la0 la1 : Int) : Nat :=
  if la0 = 0x0D ∧ la1 = 0x0A then 3 else if la0 = 0x0A then 1 else if la0 = 0x0D then 2 else 0

/-- Modelled from the spec: the byte length of each newline kind. -/
def specNewlineSize (type : Nat) : Nat :=
  if type = 3 then 2 else if type = 1 ∨ type = 2 then 1 else 0

/-- Modelled from the spec: the splitter table (`:`, `.`, `..`, `;`, `,`). -/
def specDecodeSplitter (la0 la1 : Int) : Splitter :=
  if la0 = 0x3A then ⟨SplitterType.colon, 1, 1⟩
  else if la0 = 0x2E ∧ la1 = 0x2E then ⟨SplitterType.ellipsis, 2, 2⟩
  else if la0 = 0x2E then ⟨SplitterType.dot, 1, 1⟩
  else if la0 = 0x3B then ⟨SplitterType.semicolon, 1, 1⟩
  else if la0 = 0x2C then ⟨SplitterType.comma, 1, 1⟩
  else ⟨SplitterType.none, 0, 0⟩

/-- Modelled from the spec: the parameter set of the lexer. The null codepoint is the
negative sentinel -1 (lexer.c tests `lookahead < 0 && lookahead != UCHAR_NULL` and emits a
codepoint token only when the value is `>= 0`). -/
def specParams : Params :=
  { UCHAR_NULL := -1
    UCHAR_SENTINEL := -2
    commonEscapes := [(0x6E, 0x0A), (0x72, 0x0D), (0x74, 0x09), (0x5C, 0x5C), (0x27, 0x27), (0x22, 0x22)]
    twoHexEscapeLeader := 0x78
    fourHexEscapeLeader := 0x75
    sixHexEscapeLeader := 0x55
    nullEscape := 0x26
    escapeLeader := 0x5C
    commentChar := 0x23
    tabChar := 0x09
    digitSep := 0x5F
    digitPoint := 0x2E
    genericExpLetter := 0x5E
    negativeSign := 0x2D
    plainStringDelim := 0x22
    isNewlineChar := fun c => decide (c = 0x0A ∨ c = 0x0D)
    isSpaceChar := fun c => decide (c = 0x20 ∨ c = 0x09)
    isStringChar := fun c =>
      decide (0x20 ≤ c ∧ c ≤ 0x10FFFF ∧ c ≠ 0x7F ∧ c ≠ 0x22 ∧ c ≠ 0x60 ∧ c ≠ 0x5C)
    isSymbolChar := specIsSymbolChar
    isSymbolStart := fun la0 la1 =>
      specIsSymbolChar la0 && !decide (la0 ∈ specRadix10.digits)
        && !(decide (la0 = 0x2B ∨ la0 = 0x2D) && decide (la1 ∈ specRadix10.digits))
    isSign := fun c => decide (c = 0x2B ∨ c = 0x2D)
    isStringDelim := fun c => decide (c = 0x22 ∨ c = 0x60)
    isCodepointDelim := fun c => decide (c = 0x27)
    defaultRadix := specRadix10
    decodeRadix := specDecodeRadix
    isDigit := fun radix c => decide (c ∈ radix.digits)
    decodeDigit := fun _ c => specDecodeDigit c
    NEWLINE_NONE := 0
    decodeNewline := specDecodeNewline
    newlineSize := specNewlineSize
    decodeSplitter := specDecodeSplitter
    isWrapChar := fun c =>
      if c = 0x28 ∨ c = 0x29 then WrapType.paren
      else if c = 0x5B ∨ c = 0x5D then WrapType.bracket
      else if c = 0x7B ∨ c = 0x7D then WrapType.brace
      else WrapType.null
    isOpenWrap := fun c => decide (c = 0x28 ∨ c = 0x5B ∨ c = 0x7B)
    spliceType := fun opener close =>
      if opener = 0x22 then (if close = 0x60 then SpliceType.opening else SpliceType.plain)
      else (if close = 0x60 then SpliceType.middle else SpliceType.closing) }

/-! ## Describing the input by the codepoints it decodes to -/

/-- The input `rest` starts with the codepoints of `xs`, in order; every codepoint comes
with the number of bytes that encode it. -/
def spells (N : Int) : List (Int × Nat) → List Byte → Bool
  | [], _ => true
  | (c, adv) :: xs, rest =>
    decide (peekUchar N rest = (c, adv)) && decide (0 < adv) && spells N xs (rest.drop adv)

/-- The number of bytes a list of decoded codepoints takes. -/
def nbytes (xs : List (Int × Nat)) : Nat := (xs.map Prod.snd).sum

/-- The lookahead codepoint at byte offset `k` of the input. -/
def codepointAt (N : Int) (rest : List Byte) (k : Nat) : Int := (peekUchar N (rest.drop k)).1

/-- The state after `nBytes` bytes and `nChars` codepoints were consumed and the errors
`errs` were appended. -/
def Lexer.after (st : Lexer) (nBytes nChars : Nat) (errs : List EexprError) : Lexer :=
  { st with
    rest := st.rest.drop nBytes
    loc := { st.loc with byte := st.loc.byte + nBytes, col := st.loc.col + nChars }
    errStream := st.errStream ++ errs }

/-- A digit group of radix `radix`: every codepoint is a digit of the radix or the digit
separator. -/
def isGroup (P : Params) (radix : RadixParams) (xs : List (Int × Nat)) : Prop :=
  ∀ x ∈ xs, P.isDigit radix x.1 = true ∨ x.1 = P.digitSep

instance (P : Params) (radix : RadixParams) (xs : List (Int × Nat)) :
    Decidable (isGroup P radix xs) := by unfold isGroup; infer_instance

/-- The base-`radix` value of the digits of a group read after the value `acc`, digit
separators ignored. -/
def groupValue (P : Params) (radix : RadixParams) : List (Int × Nat) → Nat → Nat
  | [], acc => acc
  | (c, _) :: xs, acc =>
    if P.isDigit radix c then groupValue P radix xs (acc * radix.radix + P.decodeDigit radix c)
    else groupValue P radix xs acc

/-- The number of digits of a group. -/
def groupDigits (P : Params) (radix : RadixParams) (xs : List (Int × Nat)) : Nat :=
  (xs.filter (fun x => P.isDigit radix x.1)).length

/-- The first codepoint of `xs`, or `next` when `xs` is empty. -/
def headCodepoint (xs : List (Int × Nat)) (next : Int) : Int :=
  match xs with
  | [] => next
  | (c, _) :: _ => c

/-- The BadDigitSeparator errors of a digit group that starts at `loc` after `n` digits
were counted, `next` being the codepoint after the group, gathered from left to right: a
separator gets one error, spanning the separator, when no digit was counted before it or
the codepoint after it is neither a digit nor a separator. (`separatorErrors` gives the same
list position by position.) -/
def sepErrors (P : Params) (radix : RadixParams) (next : Int) :
    FilelocPoint → Nat → List (Int × Nat) → List EexprError
  | _, _, [] => []
  | loc, n, (c, adv) :: xs =>
    let loc' : FilelocPoint := { loc with byte := loc.byte + adv, col := loc.col + 1 }
    if P.isDigit radix c then sepErrors P radix next loc' ((n + 1) % 2 ^ 32) xs
    else
      let la := headCodepoint xs next
      if n = 0 ∨ (P.isDigit radix la = false ∧ la ≠ P.digitSep) then
        { loc := ⟨loc, loc'⟩, type := ErrType.badDigitSeparator, as := ErrData.none }
          :: sepErrors P radix next loc' n xs
      else sepErrors P radix next loc' n xs

/-- The two codepoints `peekUchars(lookahead, 2, ...)` sees at byte offset `k` of the
input. -/
def lookahead2 (N : Int) (rest : List Byte) (k : Nat) : Int × Int :=
  let p := peekUchar N (rest.drop k)
  (p.1, (peekUchar N (rest.drop (k + p.2))).1)

/-- A radix prefix stands at byte offset `k`: the prefix digit followed by a radix
letter. -/
def radixPrefixAt (P : Params) (rest : List Byte) (k : Nat) : Bool :=
  decide ((lookahead2 P.UCHAR_NULL rest k).1 = P.defaultRadix.digits.getD 0 P.UCHAR_NULL)
    && (P.decodeRadix (lookahead2 P.UCHAR_NULL rest k).2).isSome

/-- The codepoints of an optional radix prefix. -/
def prefixCodepoints (pfx : Option ((Int × Nat) × (Int × Nat))) : List (Int × Nat) :=
  match pfx with
  | none => []
  | some (z, l) => [z, l]

/-- The radix an optional radix prefix selects: the one of its letter, the default radix
without a prefix. -/
def prefixRadix (P : Params) (pfx : Option ((Int × Nat) × (Int × Nat))) : RadixParams :=
  match pfx with
  | none => P.defaultRadix
  | some (_, l) => (P.decodeRadix l.1).getD P.defaultRadix

/-- An optional radix prefix is the one found at byte offset `k`: when given, it is the
prefix digit and a radix letter; when absent, no radix prefix stands there. -/
def prefixOk (P : Params) (rest : List Byte) (k : Nat)
    (pfx : Option ((Int × Nat) × (Int × Nat))) : Bool :=
  match pfx with
  | none => !radixPrefixAt P rest k
  | some (z, l) =>
    decide (z.1 = P.defaultRadix.digits.getD 0 P.UCHAR_NULL) && (P.decodeRadix l.1).isSome

/-- An optional sign is a sign character that is no decimal digit. -/
def signOk (P : Params) (sign : Option (Int × Nat)) : Bool :=
  match sign with
  | none => true
  | some s => P.isSign s.1 && !P.isDigit P.defaultRadix s.1

/-- An optional sign is the negative sign. -/
def signNegative (P : Params) (sign : Option (Int × Nat)) : Bool :=
  match sign with
  | none => false
  | some s => decide (s.1 = P.negativeSign)

/-- The part `sign? radix-prefix? digits ('.' digits)?` of a number literal, as decoded
codepoints with their byte lengths. `frac` holds the decimal point and the group after
it. -/
structure MantissaLit where
  sign : Option (Int × Nat)
  radixPfx : Option ((Int × Nat) × (Int × Nat))
  intPart : List (Int × Nat)
  frac : Option ((Int × Nat) × List (Int × Nat))

/-- The codepoints of the fractional part, decimal point included. -/
def MantissaLit.fracCodepoints (m : MantissaLit) : List (Int × Nat) :=
  match m.frac with
  | none => []
  | some (p, ds) => p :: ds

/-- The digit group after the decimal point. -/
def MantissaLit.fracDigits (m : MantissaLit) : List (Int × Nat) :=
  match m.frac with
  | none => []
  | some (_, ds) => ds

/-- All codepoints of the mantissa part, in source order. -/
def MantissaLit.codepoints (m : MantissaLit) : List (Int × Nat) :=
  m.sign.toList ++ prefixCodepoints m.radixPfx ++ m.intPart ++ m.fracCodepoints

/-- The radix of the literal. -/
def MantissaLit.radix (P : Params) (m : MantissaLit) : RadixParams := prefixRadix P m.radixPfx

/-- The remaining input `rest` starts with the mantissa part `m`, and `m` is all of it:
* the input spells the codepoints of `m`;
* a sign, when given, is a sign character (and no decimal digit);
* the codepoint after the sign is a decimal digit (the early-exit rule);
* the radix prefix is the one found after the sign;
* the integer part is a digit group of the radix, and the group ends where `m` says;
* a fractional part is the decimal point followed by a digit and a digit group, the
  decimal point being neither a digit nor the separator; without a fractional part, no
  decimal point followed by a digit comes after the integer part;
* the codepoint after the last group is neither a digit nor the separator. -/
def mantissaAt (P : Params) (m : MantissaLit) (rest : List Byte) : Bool :=
  let N := P.UCHAR_NULL
  let r := m.radix P
  let kSign := nbytes m.sign.toList
  let kInt := nbytes (m.sign.toList ++ prefixCodepoints m.radixPfx ++ m.intPart)
  spells N m.codepoints rest
  && signOk P m.sign
  && P.isDigit P.defaultRadix (codepointAt N rest kSign)
  && prefixOk P rest kSign m.radixPfx
  && decide (isGroup P r m.intPart)
  && (match m.frac with
      | none =>
        !P.isDigit r (codepointAt N rest kInt) && decide (codepointAt N rest kInt ≠ P.digitSep)
        && !(decide ((lookahead2 N rest kInt).1 = P.digitPoint)
              && P.isDigit r (lookahead2 N rest kInt).2)
      | some (p, ds) =>
        decide (p.1 = P.digitPoint) && !P.isDigit r P.digitPoint
        && decide (P.digitPoint ≠ P.digitSep)
        && P.isDigit r (headCodepoint ds N) && decide (ds ≠ []) && decide (isGroup P r ds)
        && !P.isDigit r (codepointAt N rest (nbytes m.codepoints))
        && decide (codepointAt N rest (nbytes m.codepoints) ≠ P.digitSep))

/-- The mantissa a literal denotes: the base-radix value of the integer digits followed
by the fractional digits. -/
def MantissaLit.value (P : Params) (m : MantissaLit) : Nat :=
  groupValue P (m.radix P) m.fracDigits (groupValue P (m.radix P) m.intPart 0)

/-- The literal carries the negative sign. -/
def MantissaLit.negative (P : Params) (m : MantissaLit) : Bool := signNegative P m.sign

/-- No exponent part follows at byte offset `k`: the codepoint there is neither an
exponent letter of the radix nor the generic exponent letter. -/
def noExponentAt (P : Params) (radix : RadixParams) (rest : List Byte) (k : Nat) : Bool :=
  !ucharElem P.UCHAR_NULL (codepointAt P.UCHAR_NULL rest k) radix.exponentLetters
    && decide (codepointAt P.UCHAR_NULL rest k ≠ P.genericExpLetter)

/-- The exponent part `exp-letter sign? radix-prefix? digits` of a number literal, as
decoded codepoints with their byte lengths. -/
structure ExpLit where
  letter : Int × Nat
  sign : Option (Int × Nat)
  radixPfx : Option ((Int × Nat) × (Int × Nat))
  digits : List (Int × Nat)

/-- All codepoints of the exponent part, in source order. -/
def ExpLit.codepoints (e : ExpLit) : List (Int × Nat) :=
  [e.letter] ++ e.sign.toList ++ prefixCodepoints e.radixPfx ++ e.digits

/-- The exponent letter is one of the radix-specific letters of the mantissa's radix. -/
def ExpLit.specific (P : Params) (radix : RadixParams) (e : ExpLit) : Bool :=
  ucharElem P.UCHAR_NULL e.letter.1 radix.exponentLetters

/-- The radix of the exponent: the mantissa's radix after a radix-specific letter; after the
generic letter, the radix of the radix prefix that follows, the default radix without one. -/
def ExpLit.radix (P : Params) (radix : RadixParams) (e : ExpLit) : RadixParams :=
  if e.specific P radix then radix else prefixRadix P e.radixPfx

/-- An optional exponent sign is the one found at byte offset `k`: when given it is a sign
character; when absent no sign character stands there. -/
def expSignOk (P : Params) (rest : List Byte) (k : Nat) (sign : Option (Int × Nat)) : Bool :=
  match sign with
  | none => !P.isSign (codepointAt P.UCHAR_NULL rest k)
  | some s => P.isSign s.1

/-- The remaining input has the exponent part `e` at byte offset `k`, after a mantissa of
radix `radix`, and `e` is all of it:
* the input spells the codepoints of `e` there;
* the letter is a radix-specific exponent letter or the generic one;
* the sign is the one found after the letter;
* the radix prefix is the one found after the sign, and there is none after a
  radix-specific letter;
* the digits are a digit group of the exponent's radix with at least one digit, and the
  codepoint after it is neither a digit nor the separator. -/
def exponentAt (P : Params) (radix : RadixParams) (e : ExpLit) (rest : List Byte) (k : Nat) : Bool :=
  let N := P.UCHAR_NULL
  spells N e.codepoints (rest.drop k)
  && (e.specific P radix || decide (e.letter.1 = P.genericExpLetter))
  && expSignOk P rest (k + e.letter.2) e.sign
  && (if e.specific P radix then e.radixPfx.isNone
      else prefixOk P rest (k + nbytes ([e.letter] ++ e.sign.toList)) e.radixPfx)
  && decide (isGroup P (e.radix P radix) e.digits)
  && decide (0 < groupDigits P (e.radix P radix) e.digits)
  && !P.isDigit (e.radix P radix) (codepointAt N rest (k + nbytes e.codepoints))
  && decide (codepointAt N rest (k + nbytes e.codepoints) ≠ P.digitSep)

/-- The value of the exponent digits read in the exponent's radix. -/
def ExpLit.value (P : Params) (radix : RadixParams) (e : ExpLit) : Nat :=
  groupValue P (e.radix P radix) e.digits 0

/-- What follows the mantissa part at byte offset `k`: the exponent part `e` when one is
given, no exponent part otherwise. -/
def exponentPartAt (P : Params) (radix : RadixParams) (e : Option ExpLit) (rest : List Byte)
    (k : Nat) : Bool :=
  match e with
  | none => noExponentAt P radix rest k
  | some e => exponentAt P radix e rest k

/-- The exponent a literal denotes: 0 without an exponent part; otherwise the value of the
exponent digits, negated when the exponent sign is the negative sign and the literal has a
fractional part. -/
def exponentValue (P : Params) (m : MantissaLit) (e : Option ExpLit) : Int :=
  match e with
  | none => 0
  | some e =>
    if signNegative P e.sign && m.frac.isSome then -(e.value P (m.radix P) : Int)
    else (e.value P (m.radix P) : Int)

/-- The input of scenario 1 of the specification, `0x1F_e2`. -/
def input_0x1F_e2 : List Byte := [0x30, 0x78, 0x31, 0x46, 0x5F, 0x65, 0x32]

/-- The input of scenario 2 of the specification, `-12.50e+2`. -/
def input_neg_12_50e2 : List Byte := [0x2D, 0x31, 0x32, 0x2E, 0x35, 0x30, 0x65, 0x2B, 0x32]

/-- The input of scenario 6 of the specification, `1__2`. -/
def input_1__2 : List Byte := [0x31, 0x5F, 0x5F, 0x32]

/-- The input `1.5e-0`: a fractional literal with a negative exponent sign and the exponent
digit zero. -/
def input_1_5e_minus_0 : List Byte := [0x31, 0x2E, 0x35, 0x65, 0x2D, 0x30]

/-- The mantissa part of `0x1F_e2`: the prefix `0x` and the group `1F_e2`. -/
def lit_0x1F_e2 : MantissaLit :=
  { sign := none, radixPfx := some ((0x30, 1), (0x78, 1)),
    intPart := [(0x31, 1), (0x46, 1), (0x5F, 1), (0x65, 1), (0x32, 1)], frac := none }

/-- The mantissa part of `-12.50e+2`: the sign, the group `12`, the point and the group
`50`. -/
def lit_neg_12_50 : MantissaLit :=
  { sign := some (0x2D, 1), radixPfx := none, intPart := [(0x31, 1), (0x32, 1)],
    frac := some ((0x2E, 1), [(0x35, 1), (0x30, 1)]) }

/-- The exponent part of `-12.50e+2`: the letter `e`, the sign `+` and the group `2`. -/
def exp_e_plus_2 : ExpLit :=
  { letter := (0x65, 1), sign := some (0x2B, 1), radixPfx := none, digits := [(0x32, 1)] }

/-- The mantissa part of `1.5e-0`. -/
def lit_1_5 : MantissaLit :=
  { sign := none, radixPfx := none, intPart := [(0x31, 1)],
    frac := some ((0x2E, 1), [(0x35, 1)]) }

/-- The digit group `_1__2_`: a separator at the start, two in the middle, one at the
end. -/
def group_1__2 : List (Int × Nat) := [(0x5F, 1), (0x31, 1), (0x5F, 1), (0x5F, 1), (0x32, 1), (0x5F, 1)]

/-- The bytes of `_1__2_`. -/
def input_group_1__2 : List Byte := [0x5F, 0x31, 0x5F, 0x5F, 0x32, 0x5F]

/-- The six bytes `"""END`, the opening line of the heredoc of scenario 5. -/
def input_heredoc_open : List Byte := [0x22, 0x22, 0x22, 0x45, 0x4E, 0x44]

/-- The input of scenario 3 of the specification, `'é'`. -/
def input_codepoint_u00E9 : List Byte := [0x27, 0x5C, 0x75, 0x30, 0x30, 0x45, 0x39, 0x27]

/-- The input of scenario 3 followed by two spaces. -/
def input_codepoint_u00E9_sp : List Byte :=
  [0x27, 0x5C, 0x75, 0x30, 0x30, 0x45, 0x39, 0x27, 0x20, 0x20]

/-- The string literal `"ézz"`: a four-digit hex escape and two string characters. -/
def input_string_u00E9zz : List Byte := [0x22, 0x5C, 0x75, 0x30, 0x30, 0x45, 0x39, 0x7A, 0x7A, 0x22]

/-- The string literal `"a?b"` with the control character 0x01 in the place of `?`. -/
def input_string_ctrl : List Byte := [0x22, 0x61, 0x01, 0x62, 0x22]

/-- The input of scenario 4 of the specification, the six bytes `"a\nb"`. -/
def input_string_a_nl_b : List Byte := [0x22, 0x61, 0x5C, 0x6E, 0x62, 0x22]

/-- The location reached from `loc` after the codepoints `ys` of one line. -/
def locAfter (loc : FilelocPoint) (ys : List (Int × Nat)) : FilelocPoint :=
  { loc with byte := loc.byte + nbytes ys, col := loc.col + ys.length }

/-- The BadDigitSeparator error for position `i` of the digit group `xs`, if any. The group
starts at `loc` after `n` digits were counted; `next` is the codepoint after the group. A
separator at position `i` gets an error, spanning the separator, when the `uint32_t` count
of the digits read before it is zero or the codepoint after it is neither a digit nor a
separator; digits get none. -/
def separatorError (P : Params) (radix : RadixParams) (next : Int) (loc : FilelocPoint) (n : Nat)
    (xs : List (Int × Nat)) (i : Nat) : Option EexprError :=
  match xs[i]? with
  | none => none
  | some x =>
    if P.isDigit radix x.1 then none
    else
      let la := headCodepoint (xs.drop (i + 1)) next
      if (n + groupDigits P radix (xs.take i)) % 2 ^ 32 = 0
          ∨ (P.isDigit radix la = false ∧ la ≠ P.digitSep) then
        some { loc := ⟨locAfter loc (xs.take i), locAfter loc (xs.take (i + 1))⟩,
               type := ErrType.badDigitSeparator, as := ErrData.none }
      else none

/-- The BadDigitSeparator errors of a digit group, position by position. -/
def separatorErrors (P : Params) (radix : RadixParams) (next : Int) (loc : FilelocPoint) (n : Nat)
    (xs : List (Int × Nat)) : List EexprError :=
  (List.range xs.length).filterMap (separatorError P radix next loc n xs)


/-- The input of scenario 5 of the specification: the lines `"""END`, `hello` and `END"""`,
separated by LF. -/
def input_heredoc_hello : List Byte :=
  [0x22, 0x22, 0x22, 0x45, 0x4E, 0x44, 0x0A, 0x68, 0x65, 0x6C, 0x6C, 0x6F, 0x0A,
   0x45, 0x4E, 0x44, 0x22, 0x22, 0x22]

/-- The one-byte input `(`. -/
def input_paren : List Byte := [0x28]

/-- The input LF, CR, LF: a line feed followed by a carriage return and line feed pair. -/
def input_lf_crlf : List Byte := [0x0A, 0x0D, 0x0A]

/-- The input CR, LF: one carriage return and line feed pair. -/
def input_crlf : List Byte := [0x0D, 0x0A]

/-- The recognizers of lexer.c that return a flag: those the dispatch loop tries, and the
helper `takeNullEscape`. -/
def flagRecognizers (P : Params) : List (Lexer → Option (Bool × Lexer)) :=
  [takeWhitespace P, takeNewline P, takeComment P, takeSymbol P, takeNumber P, takeHeredoc P,
   takeString P, takeCodepoint P, takeSplitter P, takeWrap P, takeLineContinue P, takeEof P,
   takeNullEscape P]

/-! ## The effect of a recognizer on the lexer state -/

/-- The errors the state `st'` holds beyond those of `st`, when the error stream of `st'`
extends that of `st`. -/
def newErrs (st st' : Lexer) : List EexprError := st'.errStream.drop st.errStream.length

/-- The relation `Adv st st' toks`: the state `st'` is reached from `st` by consuming input,
appending errors and appending the tokens `toks`. The byte offset does not decrease, no
more bytes leave the remaining input than the offset counts, the token list grows by
`toks`, the error stream grows at its end, and every error appended starts between the
two byte offsets. -/
structure Adv (st st' : Lexer) (toks : List Token) : Prop where
  byte_le : st.loc.byte ≤ st'.loc.byte
  rest_le : st.rest.length + st.loc.byte ≤ st'.rest.length + st'.loc.byte
  tokens_eq : st'.tokens = st.tokens ++ toks
  errs_eq : st'.errStream = st.errStream ++ newErrs st st'
  errs_win : ∀ e ∈ newErrs st st',
    st.loc.byte ≤ e.loc.start.byte ∧ e.loc.start.byte ≤ st'.loc.byte

/-- The conditions a token `t` emitted by a recognizer call from `st` to `st'` meets: it is
no EOF token, it starts where the call started, it ends at or after its start and at or
before the position the call reached, and it ends at that position unless the call set a
fatal. -/
def TokOK (st st' : Lexer) (t : Token) : Prop :=
  t.type ≠ TokType.eof ∧ t.loc.start = st.loc ∧ st.loc.byte ≤ t.loc.stop.byte ∧
    t.loc.stop.byte ≤ st'.loc.byte ∧ (st'.fatal.type = ErrType.noError → t.loc.stop = st'.loc)

/-- The error kinds with which `takeCodepoint` rejects a codepoint literal. -/
def rejectedKinds : List ErrType :=
  [ErrType.badCodepoint, ErrType.badEscapeChar, ErrType.unicodeOverflow]

/-- The parameter sets in which no string character, no result of a common escape (the
null codepoint apart) and no hex escape leader is a negative codepoint. -/
def Params.CodepointsNonneg (P : Params) : Prop :=
  (∀ c, P.isStringChar c = true → 0 ≤ c) ∧
  (∀ p ∈ P.commonEscapes, 0 ≤ p.2 ∨ p.2 = P.UCHAR_NULL) ∧
  0 ≤ P.twoHexEscapeLeader ∧ 0 ≤ P.fourHexEscapeLeader ∧ 0 ≤ P.sixHexEscapeLeader

/-- The outcome of a recognizer call from `st` to `st'` that returned true. Either the call
emitted one token, which meets `TokOK`; or it emitted no token and (in a parameter set
without negative codepoints) appended an error that spans the input it consumed or an
error that rejects a codepoint literal. -/
def Step (P : Params) (st st' : Lexer) : Prop :=
  (∃ t, Adv st st' [t] ∧ TokOK st st' t) ∨
  (Adv st st' [] ∧
    (P.CodepointsNonneg →
      ∃ e ∈ newErrs st st', e.loc = ⟨st.loc, st'.loc⟩ ∨ e.type ∈ rejectedKinds))

/-- The byte at offset `i` lies in the span of a token or of an error of the state `st`
(spans are half-open at their end). -/
def covered (st : Lexer) (i : Nat) : Prop :=
  (∃ t ∈ st.tokens, t.loc.start.byte ≤ i ∧ i < t.loc.stop.byte) ∨
  (∃ e ∈ st.errStream, e.loc.start.byte ≤ i ∧ i < e.loc.stop.byte)

instance (st : Lexer) (i : Nat) : Decidable (covered st i) := by
  unfold covered; infer_instance

/-- Two consecutive tokens `a`, `b` are adjacent, or an error of `errs` starts in the gap
between them. -/
def adjacentOrError (errs : List EexprError) (a b : Token) : Prop :=
  a.loc.stop = b.loc.start ∨
    ∃ e ∈ errs, a.loc.stop.byte ≤ e.loc.start.byte ∧ e.loc.start.byte ≤ b.loc.start.byte

/-- The five bytes `a`, 0x01, `abc`: a symbol, a control character no recognizer accepts,
and a symbol. -/
def input_sym_ctrl_sym : List Byte := [0x61, 0x01, 0x61, 0x62, 0x63]

/-- The three bytes backslash, space, `x`: an escape leader and a space that no newline
follows. -/
def input_backslash_space_x : List Byte := [0x5C, 0x20, 0x78]

/-- The three bytes tick, 0x01, tick: a codepoint literal around a control character. -/
def input_codepoint_ctrl : List Byte := [0x27, 0x01, 0x27]

/-- The state in which lexing `1__2` ends: the Number token, the EOF token, no error. -/
def output_1__2 : Lexer :=
  { lexer_init specParams [] with
    loc := ⟨4, 1, 5⟩
    tokens :=
      [⟨⟨⟨0, 1, 1⟩, ⟨4, 1, 5⟩⟩, TokType.number, TokData.number ⟨12, true⟩ 10 0 ⟨0, true⟩⟩,
       ⟨⟨⟨4, 1, 5⟩, ⟨4, 1, 5⟩⟩, TokType.eof, TokData.none⟩] }

/-- The state in which lexing `a`, 0x01, `abc` ends: two Symbol tokens with the byte 1
between them, the EOF token, and a BadChar error on the byte 1. -/
def output_sym_ctrl_sym : Lexer :=
  { lexer_init specParams [] with
    loc := ⟨5, 1, 6⟩
    tokens :=
      [⟨⟨⟨0, 1, 1⟩, ⟨1, 1, 2⟩⟩, TokType.symbol, TokData.symbol [0x61]⟩,
       ⟨⟨⟨2, 1, 3⟩, ⟨5, 1, 6⟩⟩, TokType.symbol, TokData.symbol [0x61, 0x62, 0x63]⟩,
       ⟨⟨⟨5, 1, 6⟩, ⟨5, 1, 6⟩⟩, TokType.eof, TokData.none⟩]
    errStream := [⟨⟨⟨1, 1, 2⟩, ⟨2, 1, 3⟩⟩, ErrType.badChar, ErrData.badChar 1⟩] }

/-- The state in which lexing backslash, space, `x` ends: a TrailingSpace error on the
space, then a BadChar error that starts at the backslash. -/
def output_backslash_space_x : Lexer :=
  { lexer_init specParams [] with
    loc := ⟨3, 1, 4⟩
    tokens :=
      [⟨⟨⟨2, 1, 3⟩, ⟨3, 1, 4⟩⟩, TokType.symbol, TokData.symbol [0x78]⟩,
       ⟨⟨⟨3, 1, 4⟩, ⟨3, 1, 4⟩⟩, TokType.eof, TokData.none⟩]
    errStream :=
      [⟨⟨⟨1, 1, 2⟩, ⟨2, 1, 3⟩⟩, ErrType.trailingSpace, ErrData.none⟩,
       ⟨⟨⟨0, 1, 1⟩, ⟨2, 1, 3⟩⟩, ErrType.badChar, ErrData.badChar 0x5C⟩] }

/-- The state in which lexing tick, 0x01, tick ends: the EOF token alone, and a
BadCodepoint error on the byte 1. -/
def output_codepoint_ctrl : Lexer :=
  { lexer_init specParams [] with
    loc := ⟨3, 1, 4⟩
    tokens := [⟨⟨⟨3, 1, 4⟩, ⟨3, 1, 4⟩⟩, TokType.eof, TokData.none⟩]
    errStream := [⟨⟨⟨1, 1, 2⟩, ⟨2, 1, 3⟩⟩, ErrType.badCodepoint, ErrData.badCodepoint 1⟩] }
/-! ## Inputs and descriptions for the claims on newlines, heredocs, escapes and locations -/

/-- The three bytes backslash, CR, LF: a line continuation before a CRLF newline. -/
def input_backslash_crlf : List Byte := [0x5C, 0x0D, 0x0A]

/-- The three bytes backslash, space, LF: a line continuation with a trailing space. -/
def input_backslash_space_lf : List Byte := [0x5C, 0x20, 0x0A]

/-- The eight bytes `"""END x`: a heredoc opening line with the tag `END` on which a
space and `x` follow instead of a newline. -/
def input_heredoc_end_x : List Byte := [0x22, 0x22, 0x22, 0x45, 0x4E, 0x44, 0x20, 0x78]

/-- The five bytes `""""x`: three plain-string delimiters, an empty tag, and then a fourth
delimiter and `x` where a newline is required; the input ends there. -/
def input_four_quotes_x : List Byte := [0x22, 0x22, 0x22, 0x22, 0x78]

/-- The input `""""x`, a newline and the closing marker `"""`. -/
def input_four_quotes_x_closed : List Byte :=
  [0x22, 0x22, 0x22, 0x22, 0x78, 0x0A, 0x22, 0x22, 0x22]

/-- An indented heredoc whose indent-definition line is one tab and the closing escape
leader, followed by `x`: the three lines `"""\`, tab `\x`, `"""`. -/
def input_heredoc_tab_indent : List Byte :=
  [0x22, 0x22, 0x22, 0x5C, 0x0A, 0x09, 0x5C, 0x78, 0x0A, 0x22, 0x22, 0x22]

/-- The state at the start of the indent-definition line of `input_heredoc_tab_indent`:
the five bytes of the opening line are consumed, the location is line 2, column 1. -/
def state_tab_indent_line : Lexer :=
  { lexer_init specParams input_heredoc_tab_indent with
    rest := [0x09, 0x5C, 0x78, 0x0A, 0x22, 0x22, 0x22]
    loc := ⟨5, 2, 1⟩ }

/-- The state at the start of an indent-definition line that reads tab, escape leader,
tab, `x`, followed by the line tab, tab, `"""`: here the alignment tab after the closing
escape leader is present. -/
def state_tab_indent_aligned : Lexer :=
  { lexer_init specParams input_heredoc_tab_indent with
    rest := [0x09, 0x5C, 0x09, 0x78, 0x0A, 0x09, 0x09, 0x22, 0x22, 0x22]
    loc := ⟨5, 2, 1⟩ }

/-- The four bytes `'a`, LF, `b`: a codepoint literal without closing tick, ended by a
newline. -/
def input_tick_a_lf_b : List Byte := [0x27, 0x61, 0x0A, 0x62]

/-- The four bytes `"\x4`: a string whose two-digit hex escape is cut short by the end of
the input. -/
def input_string_x4 : List Byte := [0x22, 0x5C, 0x78, 0x34]

/-- The six bytes `'\xZZ'`: a codepoint literal whose two-digit hex escape holds no hex
digit. -/
def input_codepoint_xZZ : List Byte := [0x27, 0x5C, 0x78, 0x5A, 0x5A, 0x27]

/-- The ten bytes `'\u00Z9'bc`: a codepoint literal whose four-digit hex escape holds the
codepoint `Z`, followed by the symbol `bc`. -/
def input_codepoint_u00Z9 : List Byte :=
  [0x27, 0x5C, 0x75, 0x30, 0x30, 0x5A, 0x39, 0x27, 0x62, 0x63]

/-- The number of newline sequences in a run of bytes, in the words of the specification:
LF, CR and CRLF are newlines, and CRLF counts once. -/
def newlineSequences : List Byte → Nat
  | [] => 0
  | [b] => if b = 0x0A ∨ b = 0x0D then 1 else 0
  | b :: c :: rest =>
    if b = 0x0D ∧ c = 0x0A then 1 + newlineSequences rest
    else (if b = 0x0A ∨ b = 0x0D then 1 else 0) + newlineSequences (c :: rest)

/-- A codepoint is a hex digit: `0`-`9`, `a`-`f` or `A`-`F`. -/
def isHexDigit (d : Int) : Bool :=
  decide ((0x30 ≤ d ∧ d ≤ 0x39) ∨ (0x61 ≤ d ∧ d ≤ 0x66) ∨ (0x41 ≤ d ∧ d ≤ 0x46))

/-- The value of a hex digit: 0 to 9 for `0`-`9`, 10 to 15 for `a`-`f` and for `A`-`F`. -/
def hexDigitValue (d : Int) : Nat :=
  if 0x30 ≤ d ∧ d ≤ 0x39 then (d - 0x30).toNat
  else if 0x61 ≤ d ∧ d ≤ 0x66 then (d - 0x61).toNat + 10
  else (d - 0x41).toNat + 10

/-- The base-16 value of hex digits read most-significant first, after the value `acc`. -/
def hexValueFrom (acc : Nat) (ds : List Int) : Nat :=
  ds.foldl (fun a d => a * 16 + hexDigitValue d) acc

/-- The base-16 value of a list of hex digits read most-significant first. -/
def hexValue (ds : List Int) : Nat := hexValueFrom 0 ds

/-- The call `decodeUnihex(nChars, &out, digits)` seen from the caller: the flag returned
and the value of the variable `out` after the call. -/
def decodeUnihexCall (nChars : Nat) (out : Int) (digits : List Int) : Bool × Int :=
  match decodeUnihex nChars digits with
  | some v => (true, v)
  | none => (false, out)

/-- The remaining input has at byte offset `k`, after a mantissa of radix `radix`, an
exponent part without exponent digits, and `e` is all of it:
* the input spells the codepoints of `e` there;
* the letter is a radix-specific exponent letter or the generic one;
* the sign is the one found after the letter;
* the radix prefix is the one found after the sign, and there is none after a
  radix-specific letter;
* `e.digits` holds no digit of the exponent's radix (it is empty or a run of digit
  separators), and the codepoint after it is neither a digit nor the separator. -/
def missingExponentAt (P : Params) (radix : RadixParams) (e : ExpLit) (rest : List Byte)
    (k : Nat) : Bool :=
  let N := P.UCHAR_NULL
  spells N e.codepoints (rest.drop k)
  && (e.specific P radix || decide (e.letter.1 = P.genericExpLetter))
  && expSignOk P rest (k + e.letter.2) e.sign
  && (if e.specific P radix then e.radixPfx.isNone
      else prefixOk P rest (k + nbytes ([e.letter] ++ e.sign.toList)) e.radixPfx)
  && decide (isGroup P (e.radix P radix) e.digits)
  && decide (groupDigits P (e.radix P radix) e.digits = 0)
  && !P.isDigit (e.radix P radix) (codepointAt N rest (k + nbytes e.codepoints))
  && decide (codepointAt N rest (k + nbytes e.codepoints) ≠ P.digitSep)

/-- The input `1.5e+_`: a decimal literal whose exponent letter is followed by a sign and
a digit separator, and by no digit. -/
def input_1_5e_plus_sep : List Byte := [0x31, 0x2E, 0x35, 0x65, 0x2B, 0x5F]

/-- The exponent part `e+_` of `1.5e+_`. -/
def exp_e_plus_sep : ExpLit :=
  { letter := (0x65, 1), sign := some (0x2B, 1), radixPfx := none, digits := [(0x5F, 1)] }

/-- The field `fractionalDigits` of the payload of a Number token. -/
def Token.fractionalDigits (t : Token) : Option Nat :=
  match t.as with
  | TokData.number _ _ fd _ => Option.some fd
  | _ => Option.none

/-- The input `1.` followed by `n` digits `0`. -/
def input_one_point_zeros (n : Nat) : List Byte := [0x31, 0x2E] ++ List.replicate n 0x30

/-- The mantissa part of `1.` followed by `n` digits `0`: the integer part `1`, the decimal
point and `n` fractional digits. -/
def lit_one_point_zeros (n : Nat) : MantissaLit :=
  { sign := none, radixPfx := none, intPart := [(0x31, 1)],
    frac := some ((0x2E, 1), List.replicate n (0x30, 1)) }

/-- The BadDigitSeparator errors of the mantissa part `m` of a literal that starts at the
location `loc` of the input `rest`: those of the integer digit group, then those of the
fractional digit group, each by `separatorErrors` with no digit counted at the start of
the group. The codepoint after the integer group is the decimal point when a fractional
part follows. -/
def MantissaLit.separatorErrs (P : Params) (m : MantissaLit) (rest : List Byte)
    (loc : FilelocPoint) : List EexprError :=
  let pre := m.sign.toList ++ prefixCodepoints m.radixPfx
  match m.frac with
  | none =>
    separatorErrors P (m.radix P) (codepointAt P.UCHAR_NULL rest (nbytes (pre ++ m.intPart)))
      (locAfter loc pre) 0 m.intPart
  | some (p, ds) =>
    separatorErrors P (m.radix P) P.digitPoint (locAfter loc pre) 0 m.intPart
      ++ separatorErrors P (m.radix P) (codepointAt P.UCHAR_NULL rest (nbytes m.codepoints))
          (locAfter loc (pre ++ m.intPart ++ [p])) 0 ds

/-- The error of the block "gather exponent sign" of `takeNumber`: a sign given after a
mantissa without counted fractional digit (`fd` = 0) gets one BadExponentSign error
spanning the sign, which stands at `loc`. -/
def expSignErrs (fd : Nat) (sign : Option (Int × Nat)) (loc : FilelocPoint) : List EexprError :=
  match sign with
  | none => []
  | some s =>
    if fd = 0 then
      [{ loc := ⟨loc, { loc with byte := loc.byte + s.2, col := loc.col + 1 }⟩,
         type := ErrType.badExponentSign, as := ErrData.none }]
    else []

/-- The errors of the exponent part `e`, which stands at byte offset `k` of `rest` and at
the location `loc`, after a mantissa of radix `radix` with the fractional digit count `fd`:
the error of the sign, then the BadDigitSeparator errors of the exponent's digit group. -/
def ExpLit.errs (P : Params) (radix : RadixParams) (fd : Nat) (e : ExpLit) (rest : List Byte)
    (k : Nat) (loc : FilelocPoint) : List EexprError :=
  expSignErrs fd e.sign (locAfter loc [e.letter])
    ++ separatorErrors P (e.radix P radix) (codepointAt P.UCHAR_NULL rest (k + nbytes e.codepoints))
        (locAfter loc ([e.letter] ++ e.sign.toList ++ prefixCodepoints e.radixPfx)) 0 e.digits

/-- The errors of an optional exponent part. -/
def exponentErrs (P : Params) (radix : RadixParams) (fd : Nat) (e : Option ExpLit)
    (rest : List Byte) (k : Nat) (loc : FilelocPoint) : List EexprError :=
  match e with
  | none => []
  | some x => x.errs P radix fd rest k loc

/-- The codepoints of an optional exponent part. -/
def exponentCodepoints (e : Option ExpLit) : List (Int × Nat) :=
  match e with
  | none => []
  | some x => x.codepoints

/-- The input `1__2_.3_e+_4_`: digit separators at the end of the integer part, between
its digits, at the end of the fractional part, and at the start and the end of the
exponent. -/
def input_separators : List Byte :=
  [0x31, 0x5F, 0x5F, 0x32, 0x5F, 0x2E, 0x33, 0x5F, 0x65, 0x2B, 0x5F, 0x34, 0x5F]

/-- The mantissa part `1__2_.3_` of `input_separators`. -/
def lit_separators : MantissaLit :=
  { sign := none, radixPfx := none,
    intPart := [(0x31, 1), (0x5F, 1), (0x5F, 1), (0x32, 1), (0x5F, 1)],
    frac := some ((0x2E, 1), [(0x33, 1), (0x5F, 1)]) }

/-- The exponent part `e+_4_` of `input_separators`. -/
def exp_separators : ExpLit :=
  { letter := (0x65, 1), sign := some (0x2B, 1), radixPfx := none,
    digits := [(0x5F, 1), (0x34, 1), (0x5F, 1)] }

/-! ## The iterations of the dispatch loop -/

/-- One iteration of the `while` loop of `lexer_raw`: `some (true, s)` when a recognizer
(one of `recognizers`, or `takeUnexpected`) returned true and the loop goes on from `s`;
`some (false, s)` when the loop ends with the state `s` (a fatal is set, or `takeEof`
returned true); `none` when a call has no defined result. -/
def lexer_rawStep (P : Params) (st : Lexer) : Option (Bool × Lexer) :=
  if st.fatal.type ≠ ErrType.noError then some (false, st)
  else
    match firstOf (recognizers P) st with
    | none => none
    | some (true, st1) => some (true, st1)
    | some (false, st1) =>
      match takeEof P st1 with
      | none => none
      | some (true, st2) => some (false, st2)
      | some (false, st2) =>
        match takeUnexpected P st2 with
        | some (true, st3) => some (true, st3)
        | _ => none

/-- The calls of a run of `lexer_raw`: for every iteration after which the loop goes on,
the state in which the iteration started and the state in which the recognizer that
returned true left it, in order. -/
def lexer_rawCalls (P : Params) : Nat → Lexer → Option (List (Lexer × Lexer))
  | 0, _ => none
  | fuel + 1, st =>
    match lexer_rawStep P st with
    | none => none
    | some (false, _) => some []
    | some (true, s) => (lexer_rawCalls P fuel s).map (fun cs => (st, s) :: cs)

/-- The pairs `calls` are the calls of a run of the loop that starts in `st` and ends with
`st'`: each iteration starts where the one before left the state. -/
def callChain (P : Params) : Lexer → List (Lexer × Lexer) → Lexer → Prop
  | st, [], st' => lexer_rawStep P st = some (false, st')
  | st, c :: cs, st' => c.1 = st ∧ lexer_rawStep P st = some (true, c.2) ∧ callChain P c.2 cs st'

/-- The byte offset `i` lies in a codepoint literal that the call `c` rejected: the call is
a call of `takeCodepoint` that returned true and appended no token, and `i` is one of the
byte offsets it consumed. -/
def inRejectedLiteral (P : Params) (c : Lexer × Lexer) (i : Nat) : Prop :=
  takeCodepoint P c.1 = some (true, c.2) ∧ c.2.tokens = c.1.tokens ∧
    c.1.loc.byte ≤ i ∧ i < c.2.loc.byte

/-- The errors each call of a run appended, call by call. -/
def callErrors (calls : List (Lexer × Lexer)) : List (List EexprError) :=
  calls.map (fun c => newErrs c.1 c.2)

/-- The ten bytes `"\q"`, tick, 0x01, tick, `abc`: a string with a bad escape character,
a codepoint literal around a control character, and a symbol. -/
def input_bad_escape_ctrl : List Byte :=
  [0x22, 0x5C, 0x71, 0x22, 0x27, 0x01, 0x27, 0x61, 0x62, 0x63]

/-- The seven bytes backslash, space, 0x01, 0x01, `abc`: a line continuation without
newline, two control characters, and a symbol. -/
def input_backslash_ctrl : List Byte := [0x5C, 0x20, 0x01, 0x01, 0x61, 0x62, 0x63]

/-- The state in which lexing `input_bad_escape_ctrl` ends: the String token over the bytes
0 to 4, the Symbol token over the bytes 7 to 10, the EOF token, a BadEscapeChar error at
the byte 2 and a BadCodepoint error over the byte 5. -/
def output_bad_escape_ctrl : Lexer :=
  { lexer_init specParams [] with
    loc := ⟨10, 1, 11⟩
    tokens :=
      [⟨⟨⟨0, 1, 1⟩, ⟨4, 1, 5⟩⟩, TokType.string, TokData.string [] SpliceType.plain⟩,
       ⟨⟨⟨7, 1, 8⟩, ⟨10, 1, 11⟩⟩, TokType.symbol, TokData.symbol [0x61, 0x62, 0x63]⟩,
       ⟨⟨⟨10, 1, 11⟩, ⟨10, 1, 11⟩⟩, TokType.eof, TokData.none⟩]
    errStream :=
      [⟨⟨⟨2, 1, 3⟩, FilelocPoint.zero⟩, ErrType.badEscapeChar, ErrData.badEscapeChar 0x71⟩,
       ⟨⟨⟨5, 1, 6⟩, ⟨6, 1, 7⟩⟩, ErrType.badCodepoint, ErrData.badCodepoint 1⟩] }

/-- The state in which lexing `input_backslash_ctrl` ends: the Symbol token over the bytes
4 to 7, the EOF token, and four errors: TrailingSpace on the space, BadChar from the
backslash, and one BadChar on each control character. -/
def output_backslash_ctrl : Lexer :=
  { lexer_init specParams [] with
    loc := ⟨7, 1, 8⟩
    tokens :=
      [⟨⟨⟨4, 1, 5⟩, ⟨7, 1, 8⟩⟩, TokType.symbol, TokData.symbol [0x61, 0x62, 0x63]⟩,
       ⟨⟨⟨7, 1, 8⟩, ⟨7, 1, 8⟩⟩, TokType.eof, TokData.none⟩]
    errStream :=
      [⟨⟨⟨1, 1, 2⟩, ⟨2, 1, 3⟩⟩, ErrType.trailingSpace, ErrData.none⟩,
       ⟨⟨⟨0, 1, 1⟩, ⟨2, 1, 3⟩⟩, ErrType.badChar, ErrData.badChar 0x5C⟩,
       ⟨⟨⟨2, 1, 3⟩, ⟨3, 1, 4⟩⟩, ErrType.badChar, ErrData.badChar 1⟩,
       ⟨⟨⟨3, 1, 4⟩, ⟨4, 1, 5⟩⟩, ErrType.badChar, ErrData.badChar 1⟩] }

/-- The outcome of a call of the dispatch loop from `st` to `st'` that returned true: the
call appended one token, which meets `TokOK`; or it appended no token and an error that
spans the input it consumed; or it is a call of `takeCodepoint` that appended no token. -/
def CallOutcome (P : Params) (st st' : Lexer) : Prop :=
  (∃ t, Adv st st' [t] ∧ TokOK st st' t) ∨
  (Adv st st' [] ∧ ∃ e ∈ newErrs st st', e.loc = ⟨st.loc, st'.loc⟩) ∨
  (Adv st st' [] ∧ takeCodepoint P st = some (true, st'))

/-- A summary of a call: the byte offset at which it began, the byte offset at which it
returned, and the kind and start offset of each error it appended. -/
def callSummary (c : Lexer × Lexer) : Nat × Nat × List (ErrType × Nat) :=
  (c.1.loc.byte, c.2.loc.byte, (newErrs c.1 c.2).map (fun e => (e.type, e.loc.start.byte)))

/-! ## Termination: parameter sets, lookaheads outside the input, runs -/

set_option maxRecDepth 100000 in
theorem byte_and80 : ∀ b : Byte, (b.val &&& 0x80 = 0) ↔ b.val < 0x80 := by decide
set_option maxRecDepth 100000 in
theorem byte_and40 : ∀ b : Byte, (b.val &&& 0x40 = 0) ↔ b.val % 128 < 64 := by decide
set_option maxRecDepth 100000 in
theorem byte_and20 : ∀ b : Byte, (b.val &&& 0x20 = 0) ↔ b.val % 64 < 32 := by decide
set_option maxRecDepth 100000 in
theorem byte_and10 : ∀ b : Byte, (b.val &&& 0x10 = 0) ↔ b.val % 32 < 16 := by decide
set_option maxRecDepth 100000 in
theorem byte_and08 : ∀ b : Byte, (b.val &&& 0x08 = 0) ↔ b.val % 16 < 8 := by decide
set_option maxRecDepth 100000 in
theorem byte_andC0 : ∀ b : Byte, (b.val &&& 0xC0 = 0x80) ↔ (0x80 ≤ b.val ∧ b.val < 0xC0) := by decide

theorem or_eq_add (A z k : Nat) (hA : 2 ^ k ∣ A) (hz : z < 2 ^ k) : A ||| z = A + z := by
  obtain ⟨m, rfl⟩ := hA
  exact (Nat.mul_add_lt_is_or hz m).symm

theorem and_1F (x : Nat) : x &&& 0x1F = x % 32 := Nat.and_pow_two_sub_one_eq_mod x 5
theorem and_3F (x : Nat) : x &&& 0x3F = x % 64 := Nat.and_pow_two_sub_one_eq_mod x 6
theorem and_0F (x : Nat) : x &&& 0x0F = x % 16 := Nat.and_pow_two_sub_one_eq_mod x 4
theorem and_07 (x : Nat) : x &&& 0x07 = x % 8 := Nat.and_pow_two_sub_one_eq_mod x 3

theorem dec2_eq (a b : Nat) : (a &&& 0x1F) <<< 6 ||| (b &&& 0x3F) = a % 32 * 64 + b % 64 := by
  rw [and_1F, and_3F, Nat.shiftLeft_eq]
  exact or_eq_add _ _ 6 ⟨a % 32, by ring⟩ (Nat.mod_lt _ (by norm_num))

theorem dec3_eq (a b c : Nat) :
    (a &&& 0x0F) <<< 12 ||| (b &&& 0x3F) <<< 6 ||| (c &&& 0x3F)
      = a % 16 * 4096 + b % 64 * 64 + c % 64 := by
  rw [and_0F, and_3F, and_3F, Nat.shiftLeft_eq, Nat.shiftLeft_eq]
  have hb := Nat.mod_lt b (show 0 < 64 by norm_num)
  have h1 : a % 16 * 2 ^ 12 ||| b % 64 * 2 ^ 6 = a % 16 * 4096 + b % 64 * 64 :=
    or_eq_add (a % 16 * 2 ^ 12) (b % 64 * 2 ^ 6) 12 ⟨a % 16, by ring⟩ (by omega)
  rw [h1]
  exact or_eq_add _ (c % 64) 6 ⟨a % 16 * 64 + b % 64, by ring⟩ (Nat.mod_lt _ (by norm_num))

theorem dec4_eq (a b c d : Nat) :
    (a &&& 0x07) <<< 18 ||| (b &&& 0x3F) <<< 12 ||| (c &&& 0x3F) <<< 6 ||| (d &&& 0x3F)
      = a % 8 * 262144 + b % 64 * 4096 + c % 64 * 64 + d % 64 := by
  rw [and_07, and_3F, and_3F, and_3F, Nat.shiftLeft_eq, Nat.shiftLeft_eq, Nat.shiftLeft_eq]
  have hb := Nat.mod_lt b (show 0 < 64 by norm_num)
  have hc := Nat.mod_lt c (show 0 < 64 by norm_num)
  have h1 : a % 8 * 2 ^ 18 ||| b % 64 * 2 ^ 12 = a % 8 * 262144 + b % 64 * 4096 :=
    or_eq_add (a % 8 * 2 ^ 18) (b % 64 * 2 ^ 12) 18 ⟨a % 8, by ring⟩ (by omega)
  have h2 : a % 8 * 262144 + b % 64 * 4096 ||| c % 64 * 2 ^ 6
      = a % 8 * 262144 + b % 64 * 4096 + c % 64 * 64 :=
    or_eq_add _ (c % 64 * 2 ^ 6) 12 ⟨a % 8 * 64 + b % 64, by ring⟩ (by omega)
  rw [h1, h2]
  exact or_eq_add _ (d % 64) 6 ⟨a % 8 * 4096 + b % 64 * 64 + c % 64, by ring⟩
    (Nat.mod_lt _ (by norm_num))


theorem peekUchar_lead1 (N : Int) (b0 : Byte) (t : List Byte) (h : b0.val < 0x80) :
    peekUchar N (b0 :: t) = ((b0.val : Int), 1) := by
  simp only [peekUchar, byte_and80]
  rw [if_pos h]

theorem peekUchar_badlead (N : Int) (b0 : Byte) (t : List Byte)
    (h : (0x80 ≤ b0.val ∧ b0.val < 0xC0) ∨ 0xF8 ≤ b0.val) :
    peekUchar N (b0 :: t) = badbyte b0 := by
  have := b0.isLt
  simp only [peekUchar, byte_and80, byte_and40, byte_and20, byte_and10, byte_and08]
  split_ifs <;> first | rfl | omega


theorem peekUchar_lead2 (N : Int) (b0 b1 : Byte) (t : List Byte)
    (h0 : 0xC0 ≤ b0.val ∧ b0.val < 0xE0) (h1 : isCont b1) :
    peekUchar N (b0 :: b1 :: t) = (((b0.val % 32 * 64 + b1.val % 64 : Nat) : Int), 2) := by
  have := b0.isLt
  unfold isCont at h1
  simp only [peekUchar, byte_and80, byte_and40, byte_and20, byte_andC0, dec2_eq, ne_eq]
  rw [if_neg (by omega), if_neg (by omega), if_pos (by omega), if_neg (by simp [h1])]

theorem peekUchar_lead3 (N : Int) (b0 b1 b2 : Byte) (t : List Byte)
    (h0 : 0xE0 ≤ b0.val ∧ b0.val < 0xF0) (h1 : isCont b1) (h2 : isCont b2) :
    peekUchar N (b0 :: b1 :: b2 :: t)
      = (((b0.val % 16 * 4096 + b1.val % 64 * 64 + b2.val % 64 : Nat) : Int), 3) := by
  have := b0.isLt
  unfold isCont at h1 h2
  simp only [peekUchar, byte_and80, byte_and40, byte_and20, byte_and10, byte_andC0, dec3_eq,
    ne_eq]
  rw [if_neg (by omega), if_neg (by omega), if_neg (by omega), if_pos (by omega),
    if_neg (by simp [h1, h2])]

theorem peekUchar_lead4 (N : Int) (b0 b1 b2 b3 : Byte) (t : List Byte)
    (h0 : 0xF0 ≤ b0.val ∧ b0.val < 0xF8) (h1 : isCont b1) (h2 : isCont b2) (h3 : isCont b3) :
    peekUchar N (b0 :: b1 :: b2 :: b3 :: t)
      = (((b0.val % 8 * 262144 + b1.val % 64 * 4096 + b2.val % 64 * 64 + b3.val % 64 : Nat)
          : Int), 4) := by
  have := b0.isLt
  unfold isCont at h1 h2 h3
  simp only [peekUchar, byte_and80, byte_and40, byte_and20, byte_and10, byte_and08, byte_andC0,
    dec4_eq, ne_eq]
  rw [if_neg (by omega), if_neg (by omega), if_neg (by omega), if_neg (by omega),
    if_pos (by omega), if_neg (by simp [h1, h2, h3])]

theorem peekUchar_short_or_badcont (N : Int) (b0 : Byte) (t : List Byte)
    (h : t.length < contNeeded b0 ∨
      ∃ i, i < contNeeded b0 ∧ ∃ c, t[i]? = some c ∧ ¬ isCont c) :
    peekUchar N (b0 :: t) = badbyte b0 := by
  have hb := b0.isLt
  unfold contNeeded at h
  by_cases c1 : b0.val < 0xC0
  · simp [c1] at h
  by_cases c2 : b0.val < 0xE0
  · simp only [c1, c2, if_true, if_false] at h
    simp only [peekUchar, byte_and80, byte_and40, byte_and20, byte_andC0, ne_eq]
    rw [if_neg (by omega), if_neg (by omega), if_pos (by omega)]
    rcases t with _ | ⟨b1, t⟩
    · rfl
    · rcases h with h | ⟨i, hi, c, hc, hn⟩
      · simp at h
      · have : i = 0 := by omega
        subst this
        simp only [List.getElem?_cons_zero, Option.some.injEq] at hc
        subst hc
        simp only [isCont] at hn
        simp only
        rw [if_pos hn]
  by_cases c3 : b0.val < 0xF0
  · simp only [c1, c2, c3, if_true, if_false] at h
    simp only [peekUchar, byte_and80, byte_and40, byte_and20, byte_and10, byte_andC0, ne_eq]
    rw [if_neg (by omega), if_neg (by omega), if_neg (by omega), if_pos (by omega)]
    rcases t with _ | ⟨b1, _ | ⟨b2, t⟩⟩
    · rfl
    · rfl
    · rcases h with h | ⟨i, hi, c, hc, hn⟩
      · simp only [List.length_cons] at h
        omega
      · simp only
        rw [if_pos]
        simp only [isCont] at hn
        rcases i with _ | _ | i
        · simp only [List.getElem?_cons_zero, Option.some.injEq] at hc
          subst hc
          exact Or.inl hn
        · simp only [List.getElem?_cons_succ, List.getElem?_cons_zero, Option.some.injEq] at hc
          subst hc
          exact Or.inr hn
        · omega
  by_cases c4 : b0.val < 0xF8
  · simp only [c1, c2, c3, c4, if_true, if_false] at h
    simp only [peekUchar, byte_and80, byte_and40, byte_and20, byte_and10, byte_and08,
      byte_andC0, ne_eq]
    rw [if_neg (by omega), if_neg (by omega), if_neg (by omega), if_neg (by omega),
      if_pos (by omega)]
    rcases t with _ | ⟨b1, _ | ⟨b2, _ | ⟨b3, t⟩⟩⟩
    · rfl
    · rfl
    · rfl
    · rcases h with h | ⟨i, hi, c, hc, hn⟩
      · simp only [List.length_cons] at h
        omega
      · simp only
        rw [if_pos]
        simp only [isCont] at hn
        rcases i with _ | _ | _ | i
        · simp only [List.getElem?_cons_zero, Option.some.injEq] at hc
          subst hc
          exact Or.inl hn
        · simp only [List.getElem?_cons_succ, List.getElem?_cons_zero, Option.some.injEq] at hc
          subst hc
          exact Or.inr (Or.inl hn)
        · simp only [List.getElem?_cons_succ, List.getElem?_cons_zero, Option.some.injEq] at hc
          subst hc
          exact Or.inr (Or.inr hn)
        · omega
  · simp [c1, c2, c3, c4] at h


/-- C1 (amended): for every byte slice `peekUchar` returns exactly one of: the null
codepoint with length 0, on empty input; a codepoint in 0..0x1FFFFF with a length between 1
and 4 (a codepoint of at most 0xFFFF unless the length is 4), on success; the negated first
byte, a byte of at least 0x80, with length 1, on a decoding failure. A success of length 4
can exceed 0x10FFFF. -/
theorem peekUchar_outcomes (N : Int) (input : List Byte) :
    (input = [] ∧ peekUchar N input = (N, 0)) ∨
    (∃ b0 t, input = b0 :: t ∧
      Xor' (0 ≤ (peekUchar N input).1 ∧ (peekUchar N input).1 ≤ 0x1FFFFF ∧
              1 ≤ (peekUchar N input).2 ∧ (peekUchar N input).2 ≤ 4 ∧
              ((peekUchar N input).2 = 4 ∨ (peekUchar N input).1 ≤ 0xFFFF))
           (peekUchar N input = (-(b0.val : Int), 1) ∧ 0x80 ≤ b0.val)) := by
  rcases input with _ | ⟨b0, t⟩
  · exact Or.inl ⟨rfl, rfl⟩
  · right
    refine ⟨b0, t, rfl, ?_⟩
    have hb := b0.isLt
    simp only [peekUchar, badbyte, byte_and80, byte_and40, byte_and20, byte_and10, byte_and08,
      byte_andC0, dec2_eq, dec3_eq, dec4_eq, ne_eq]
    repeat' split
    all_goals simp only [Xor', Prod.mk.injEq, and_true, true_and, true_or]
    all_goals omega

theorem encode_val (x : Nat) (h : x < 256) : ((Fin.ofNat x : Byte)).val = x := by
  show x % 256 = x
  omega

theorem or_80 (x : Nat) (h : x < 64) : 0x80 ||| x = 128 + x :=
  or_eq_add 128 x 6 ⟨2, by norm_num⟩ h

/-- C2: for every Unicode value `cp` in 0..0x10FFFF and every byte suffix `s`, `peekUchar`
on the standard UTF-8 encoding of `cp` followed by `s` returns `cp` and the length of that
encoding: 1 below 0x80, 2 below 0x800, 3 below 0x10000, 4 otherwise. -/
theorem peekUchar_encodeUchar (N : Int) (cp : Int) (s : List Byte)
    (h0 : 0 ≤ cp) (h1 : cp ≤ 0x10FFFF) :
    peekUchar N (encodeUchar cp ++ s)
      = (cp, if cp < 0x80 then 1 else if cp < 0x800 then 2 else if cp < 0x10000 then 3 else 4) := by
  lift cp to Nat using h0 with n
  have hn : n ≤ 0x10FFFF := by omega
  have hneg : ¬ ((n : Int) < 0) := by omega
  simp only [encodeUchar, Int.toNat_ofNat, and_3F, Nat.shiftRight_eq_div_pow, hneg, if_false]
  by_cases c1 : n < 0x80
  · have i1 : (n : Int) < 0x80 := by omega
    simp only [c1, i1, if_true]
    rw [List.singleton_append, peekUchar_lead1 N _ s (by rw [encode_val n (by omega)]; exact c1),
      encode_val n (by omega)]
  have i1 : ¬ ((n : Int) < 0x80) := by omega
  by_cases c2 : n < 0x800
  · have i2 : (n : Int) < 0x800 := by omega
    simp only [c1, c2, i1, i2, if_true, if_false]
    have e0 : 0xC0 ||| n / 2 ^ 6 = 192 + n / 64 :=
      or_eq_add 192 (n / 2 ^ 6) 6 ⟨3, by norm_num⟩ (by omega)
    rw [e0, or_80 _ (by omega)]
    show peekUchar N (_ :: _ :: s) = _
    rw [peekUchar_lead2 N _ _ s (by rw [encode_val _ (by omega)]; omega)
      (by unfold isCont; rw [encode_val _ (by omega)]; omega),
      encode_val _ (by omega), encode_val _ (by omega)]
    congr 2
    omega
  have i2 : ¬ ((n : Int) < 0x800) := by omega
  by_cases c3 : n < 0x10000
  · have i3 : (n : Int) < 0x10000 := by omega
    simp only [c1, c2, c3, i1, i2, i3, if_true, if_false]
    have e0 : 0xE0 ||| n / 2 ^ 12 = 224 + n / 4096 :=
      or_eq_add 224 (n / 2 ^ 12) 5 ⟨7, by norm_num⟩ (by omega)
    rw [e0, or_80 _ (by omega), or_80 _ (by omega)]
    show peekUchar N (_ :: _ :: _ :: s) = _
    rw [peekUchar_lead3 N _ _ _ s (by rw [encode_val _ (by omega)]; omega)
      (by unfold isCont; rw [encode_val _ (by omega)]; omega)
      (by unfold isCont; rw [encode_val _ (by omega)]; omega),
      encode_val _ (by omega), encode_val _ (by omega), encode_val _ (by omega)]
    congr 2
    omega
  have i3 : ¬ ((n : Int) < 0x10000) := by omega
  have c4 : n < 0x200000 := by omega
  simp only [c1, c2, c3, c4, i1, i2, i3, if_true, if_false]
  have e0 : 0xF0 ||| n / 2 ^ 18 = 240 + n / 262144 :=
    or_eq_add 240 (n / 2 ^ 18) 4 ⟨15, by norm_num⟩ (by omega)
  rw [e0, or_80 _ (by omega), or_80 _ (by omega), or_80 _ (by omega)]
  show peekUchar N (_ :: _ :: _ :: _ :: s) = _
  rw [peekUchar_lead4 N _ _ _ _ s (by rw [encode_val _ (by omega)]; omega)
    (by unfold isCont; rw [encode_val _ (by omega)]; omega)
    (by unfold isCont; rw [encode_val _ (by omega)]; omega)
    (by unfold isCont; rw [encode_val _ (by omega)]; omega),
    encode_val _ (by omega), encode_val _ (by omega), encode_val _ (by omega),
    encode_val _ (by omega)]
  congr 2
  omega


/-! ### `peekUcharAt` and `peekUchars` on well-formed slices -/

theorem peekUchar_len_le (N : Int) (bs : List Byte) : (peekUchar N bs).2 ≤ bs.length := by
  rcases bs with _ | ⟨b0, _ | ⟨b1, _ | ⟨b2, _ | ⟨b3, t⟩⟩⟩⟩ <;>
    simp only [peekUchar, badbyte, List.length_cons, List.length_nil] <;>
    repeat' split
  all_goals try dsimp only
  all_goals omega

theorem peekUcharAt_wf (N : Int) (bs : List Byte) :
    peekUcharAt N bs bs.length = some (peekUchar N bs) := by
  rcases bs with _ | ⟨b0, _ | ⟨b1, _ | ⟨b2, _ | ⟨b3, t⟩⟩⟩⟩ <;>
    simp [peekUcharAt, peekUchar] <;>
    repeat' split
  all_goals first | rfl | omega

theorem peekUchars_zero (N : Int) (bs : List Byte) : peekUchars N 0 bs = some ([], 0) := rfl

theorem peekUchars_one (N : Int) (bs : List Byte) :
    peekUchars N 1 bs = some ([(peekUchar N bs).1], (peekUchar N bs).2) := by
  simp [peekUchars, peekUcharsLoop, peekUcharAt_wf]

theorem peekUchars_two (N : Int) (bs : List Byte) :
    peekUchars N 2 bs
      = some ([(peekUchar N bs).1, (peekUchar N (bs.drop (peekUchar N bs).2)).1],
              (peekUchar N bs).2 + (peekUchar N (bs.drop (peekUchar N bs).2)).2) := by
  have h := peekUchar_len_le N bs
  have e : bs.length - (peekUchar N bs).2 = (bs.drop (peekUchar N bs).2).length := by simp
  simp only [peekUchars, peekUcharsLoop, peekUcharAt_wf, Nat.zero_add, if_pos h, e]

/-! ### Lexer states -/

theorem Lexer.after_zero (st : Lexer) : st.after 0 0 [] = st := by
  cases st
  simp [Lexer.after]

theorem Lexer.after_after (st : Lexer) (a b c d : Nat) (e e' : List EexprError) :
    (st.after a b e).after c d e' = st.after (a + c) (b + d) (e ++ e') := by
  simp only [Lexer.after, List.drop_drop, List.append_assoc, Nat.add_assoc]

theorem lexer_advance_eq_after (st : Lexer) (a b : Nat) : lexer_advance st a b = st.after a b [] := by
  simp [lexer_advance, Lexer.after]

theorem lexer_addErr_after (st : Lexer) (a b : Nat) (e : List EexprError) (err : EexprError) :
    lexer_addErr (st.after a b e) err = st.after a b (e ++ [err]) := by
  simp [lexer_addErr, Lexer.after]

@[simp] theorem Lexer.after_rest (st : Lexer) (a b : Nat) (e : List EexprError) :
    (st.after a b e).rest = st.rest.drop a := rfl

@[simp] theorem Lexer.after_loc (st : Lexer) (a b : Nat) (e : List EexprError) :
    (st.after a b e).loc = { st.loc with byte := st.loc.byte + a, col := st.loc.col + b } := rfl

@[simp] theorem Lexer.after_tokens (st : Lexer) (a b : Nat) (e : List EexprError) :
    (st.after a b e).tokens = st.tokens := rfl

@[simp] theorem Lexer.after_errStream (st : Lexer) (a b : Nat) (e : List EexprError) :
    (st.after a b e).errStream = st.errStream ++ e := rfl

theorem Lexer.peek_after (P : Params) (st : Lexer) (a b : Nat) (e : List EexprError) :
    (st.after a b e).peek P = peekUchar P.UCHAR_NULL (st.rest.drop a) := rfl

/-! ### The digit loop of `takeNumber` -/

theorem spells_cons (N : Int) (c : Int) (adv : Nat) (xs : List (Int × Nat)) (rest : List Byte) :
    spells N ((c, adv) :: xs) rest = true ↔
      peekUchar N rest = (c, adv) ∧ 0 < adv ∧ spells N xs (rest.drop adv) = true := by
  simp [spells, and_assoc]

theorem spells_append (N : Int) (xs ys : List (Int × Nat)) (rest : List Byte) :
    spells N (xs ++ ys) rest = true ↔
      spells N xs rest = true ∧ spells N ys (rest.drop (nbytes xs)) = true := by
  induction xs generalizing rest with
  | nil => simp [spells, nbytes]
  | cons x xs ih =>
    obtain ⟨c, adv⟩ := x
    simp only [List.cons_append, spells_cons, ih, nbytes, List.map_cons, List.sum_cons,
      List.drop_drop, and_assoc]

theorem spells_length_le (N : Int) (xs : List (Int × Nat)) (rest : List Byte)
    (h : spells N xs rest = true) : xs.length ≤ nbytes xs ∧ nbytes xs ≤ rest.length := by
  induction xs generalizing rest with
  | nil => simp [nbytes]
  | cons x xs ih =>
    obtain ⟨c, adv⟩ := x
    rw [spells_cons] at h
    obtain ⟨h1, h2, h3⟩ := h
    have := ih _ h3
    have hle := peekUchar_len_le N rest
    rw [h1] at hle
    simp only [nbytes, List.map_cons, List.sum_cons, List.length_cons, List.length_drop] at *
    omega

theorem checkDigitSepContext_after (P : Params) (radix : RadixParams) (start : FilelocPoint)
    (b : Bool) (st : Lexer) (a k : Nat) (e : List EexprError) :
    checkDigitSepContext P radix start b (st.after a k e)
      = st.after a k (e ++
          if b = true ∨ (P.isDigit radix (codepointAt P.UCHAR_NULL st.rest a) = false
              ∧ codepointAt P.UCHAR_NULL st.rest a ≠ P.digitSep)
          then [{ loc := ⟨start, (st.after a k e).loc⟩, type := ErrType.badDigitSeparator,
                  as := ErrData.none }]
          else []) := by
  simp only [checkDigitSepContext, Lexer.peek_after, codepointAt, Bool.not_eq_true]
  split_ifs
  · rw [lexer_addErr_after]
  · simp [Lexer.after]

theorem spells_head (N : Int) (xs : List (Int × Nat)) (rest : List Byte) (next : Int)
    (hsp : spells N xs rest = true) (hnext : codepointAt N rest (nbytes xs) = next) :
    codepointAt N rest 0 = headCodepoint xs next := by
  rcases xs with _ | ⟨⟨c, adv⟩, xs⟩
  · simpa [nbytes, headCodepoint] using hnext
  · rw [spells_cons] at hsp
    simp [codepointAt, hsp.1, headCodepoint]

theorem digitLoop_group (P : Params) (radix : RadixParams) (next : Int) :
    ∀ (xs : List (Int × Nat)) (fuel : Nat) (st : Lexer) (acc : Bigint) (n : Nat),
      spells P.UCHAR_NULL xs st.rest = true → isGroup P radix xs →
      codepointAt P.UCHAR_NULL st.rest (nbytes xs) = next →
      P.isDigit radix next = false → next ≠ P.digitSep → xs.length < fuel → n < 2 ^ 32 →
      digitLoop P radix fuel st acc n
        = some (st.after (nbytes xs) xs.length (sepErrors P radix next st.loc n xs),
                ⟨groupValue P radix xs acc.mag, acc.pos⟩,
                (n + groupDigits P radix xs) % 2 ^ 32) := by
  intro xs
  induction xs with
  | nil =>
    intro fuel st acc n _ _ hnext hnd hns hfuel hn
    obtain ⟨fuel, rfl⟩ : ∃ f, fuel = f + 1 := ⟨fuel - 1, by simp at hfuel; omega⟩
    simp only [codepointAt, nbytes, List.map_nil, List.sum_nil, List.drop_zero] at hnext
    have hp : st.peek P = (next, (st.peek P).2) := by rw [← hnext]; rfl
    rw [digitLoop, hp]
    simp only [hnd, hns, Bool.false_eq_true, if_false]
    simp only [nbytes, sepErrors, groupValue, groupDigits, Lexer.after_zero, List.map_nil,
      List.sum_nil, List.length_nil, List.filter_nil, Nat.add_zero, Nat.mod_eq_of_lt hn]
  | cons x xs ih =>
    intro fuel st acc n hsp hg hnext hnd hns hfuel hn
    obtain ⟨c, adv⟩ := x
    obtain ⟨fuel, rfl⟩ : ∃ f, fuel = f + 1 := ⟨fuel - 1, by simp at hfuel; omega⟩
    rw [spells_cons] at hsp
    obtain ⟨hpk, hadv, hsp'⟩ := hsp
    have hp : st.peek P = (c, adv) := hpk
    have hnb : nbytes ((c, adv) :: xs) = adv + nbytes xs := by simp [nbytes]
    have hnext' : codepointAt P.UCHAR_NULL (st.rest.drop adv) (nbytes xs) = next := by
      rw [← hnext, hnb]; simp [codepointAt, List.drop_drop, Nat.add_comm]
    have hg' : isGroup P radix xs := fun x hx => hg x (List.mem_cons_of_mem _ hx)
    have hfuel' : xs.length < fuel := by simp at hfuel; omega
    rw [digitLoop, hp]
    by_cases hd : P.isDigit radix c = true
    · simp only [hd, if_true]
      rw [lexer_advance_eq_after,
        ih fuel _ _ _ hsp' hg' hnext' hnd hns hfuel' (Nat.mod_lt _ (by norm_num))]
      rw [Lexer.after_after]
      simp only [sepErrors, hd, if_true, groupValue, groupDigits, hnb, bigint_inc, bigint_scale,
        List.length_cons, List.nil_append, Lexer.after_loc, List.filter_cons]
      congr 3
      · omega
      · omega
    · have hc : c = P.digitSep := by
        rcases hg (c, adv) (List.mem_cons_self _ _) with h | h
        · exact absurd h hd
        · exact h
      simp only [hd, if_false, hc, if_true]
      rw [lexer_advance_eq_after, checkDigitSepContext_after]
      rw [ih fuel _ _ _ hsp' hg' hnext' hnd hns hfuel' hn, Lexer.after_after]
      have hla := spells_head P.UCHAR_NULL xs (st.rest.drop adv) next hsp' hnext'
      simp only [codepointAt, List.drop_zero] at hla
      simp only [sepErrors, ← hc, hd, if_false, groupValue, groupDigits, hnb,
        List.length_cons, List.nil_append, Lexer.after_loc, List.filter_cons, codepointAt, hla,
        beq_iff_eq, Bool.false_eq_true]
      split_ifs <;> simp [Nat.add_comm]

/-! ### The blocks of `takeNumber` on a literal -/

theorem spells_nil (N : Int) (rest : List Byte) : spells N [] rest = true := rfl

theorem codepointAt_drop (N : Int) (rest : List Byte) (a b : Nat) :
    codepointAt N (rest.drop a) b = codepointAt N rest (a + b) := by
  simp [codepointAt, List.drop_drop, Nat.add_comm]

theorem lookahead2_drop (N : Int) (rest : List Byte) (a b : Nat) :
    lookahead2 N (rest.drop a) b = lookahead2 N rest (a + b) := by
  simp only [lookahead2, List.drop_drop, Nat.add_assoc]

theorem peekUchars_two_drop (N : Int) (rest : List Byte) (k : Nat) :
    peekUchars N 2 (rest.drop k)
      = some ([(lookahead2 N rest k).1, (lookahead2 N rest k).2],
              (peekUchar N (rest.drop k)).2
                + (peekUchar N (rest.drop (k + (peekUchar N (rest.drop k)).2))).2) := by
  rw [peekUchars_two]
  simp only [lookahead2, List.drop_drop]

theorem takeNumberSign_literal (P : Params) (st : Lexer) (sign : Option (Int × Nat))
    (hsp : spells P.UCHAR_NULL sign.toList st.rest = true)
    (hsign : signOk P sign = true)
    (hdig : P.isDigit P.defaultRadix (codepointAt P.UCHAR_NULL st.rest (nbytes sign.toList)) = true) :
    takeNumberSign P st
      = some (some (signNegative P sign,
          st.after (nbytes sign.toList) sign.toList.length [])) := by
  revert hsp hsign hdig
  rcases sign with _ | ⟨s, a⟩
  · intro _ _ hdig
    simp only [Option.toList, nbytes, List.map_nil, List.sum_nil, codepointAt, List.drop_zero] at hdig
    simp only [takeNumberSign, peekUchars_one, hdig, if_true, Option.toList, nbytes, List.map_nil,
      List.sum_nil, List.length_nil, Lexer.after_zero, signNegative]
  · intro hsp hsign hdig
    simp only [Option.toList, spells_cons, spells_nil, and_true] at hsp
    simp only [signOk, Bool.and_eq_true, Bool.not_eq_true'] at hsign
    have hnb : nbytes [(s, a)] = a := by simp [nbytes]
    simp only [Option.toList, hnb] at hdig
    have h2 := peekUchars_two_drop P.UCHAR_NULL st.rest 0
    simp only [List.drop_zero, lookahead2, hsp.1, Nat.zero_add] at h2
    simp only [codepointAt] at hdig
    simp only [takeNumberSign, peekUchars_one, hsp.1, hsign.1, hsign.2, Bool.false_eq_true,
      if_false, if_true, h2, hdig, Option.toList, hnb, List.length_singleton,
      lexer_advance_eq_after, signNegative]

theorem takeRadix_literal (P : Params) (st : Lexer) (pfx : Option ((Int × Nat) × (Int × Nat)))
    (hsp : spells P.UCHAR_NULL (prefixCodepoints pfx) st.rest = true)
    (hok : prefixOk P st.rest 0 pfx = true) :
    takeRadix P st
      = some (prefixRadix P pfx,
              st.after (nbytes (prefixCodepoints pfx)) (prefixCodepoints pfx).length []) := by
  have h2 := peekUchars_two_drop P.UCHAR_NULL st.rest 0
  simp only [List.drop_zero, Nat.zero_add] at h2
  revert hsp hok
  rcases pfx with _ | ⟨⟨z, a⟩, ⟨l, a'⟩⟩
  · intro _ hok
    simp only [prefixOk, radixPrefixAt, Bool.not_eq_true', Bool.and_eq_false_iff,
      decide_eq_false_iff_not] at hok
    simp only [takeRadix, h2, prefixRadix, prefixCodepoints, nbytes, List.map_nil, List.sum_nil,
      List.length_nil, Lexer.after_zero]
    rcases hok with h | h
    · rw [if_neg h]
    · cases hr : P.decodeRadix (lookahead2 P.UCHAR_NULL st.rest 0).2 with
      | none => split_ifs <;> rfl
      | some r => rw [hr] at h; simp at h
  · intro hsp hok
    simp only [prefixCodepoints, spells_cons, spells_nil, and_true] at hsp
    obtain ⟨hz, _, hl, _⟩ := hsp
    simp only [prefixOk, Bool.and_eq_true, decide_eq_true_eq] at hok
    obtain ⟨hz0, hsome⟩ := hok
    obtain ⟨r, hr⟩ := Option.isSome_iff_exists.mp hsome
    simp only [lookahead2, List.drop_zero, Nat.zero_add, hz, hl] at h2
    simp only [takeRadix, h2, hz0, if_true, hr, prefixRadix, Option.getD_some, prefixCodepoints,
      nbytes, List.map_cons, List.map_nil, List.sum_cons, List.sum_nil, Nat.add_zero,
      List.length_cons, List.length_nil, lexer_advance_eq_after]

theorem takeNumberFraction_none (P : Params) (radix : RadixParams) (st : Lexer) (mant : Bigint)
    (h : (decide ((lookahead2 P.UCHAR_NULL st.rest 0).1 = P.digitPoint)
              && P.isDigit radix (lookahead2 P.UCHAR_NULL st.rest 0).2) = false) :
    takeNumberFraction P radix st mant = some (st, mant, 0) := by
  have h2 := peekUchars_two_drop P.UCHAR_NULL st.rest 0
  simp only [List.drop_zero, Nat.zero_add] at h2
  simp only [Bool.and_eq_false_iff, decide_eq_false_iff_not] at h
  simp only [takeNumberFraction, h2]
  rw [if_neg]
  rintro ⟨h1, h2⟩
  rcases h with h | h
  · exact h h1
  · rw [h] at h2; exact Bool.false_ne_true h2

theorem takeNumberFraction_some (P : Params) (radix : RadixParams) (st : Lexer) (mant : Bigint)
    (p : Int × Nat) (ds : List (Int × Nat)) (next : Int)
    (hsp : spells P.UCHAR_NULL (p :: ds) st.rest = true) (hp : p.1 = P.digitPoint)
    (hd : P.isDigit radix (headCodepoint ds P.UCHAR_NULL) = true) (hne : ds ≠ [])
    (hg : isGroup P radix ds)
    (hnext : codepointAt P.UCHAR_NULL st.rest (nbytes (p :: ds)) = next)
    (hnd : P.isDigit radix next = false) (hns : next ≠ P.digitSep) :
    takeNumberFraction P radix st mant
      = some (st.after (nbytes (p :: ds)) (p :: ds).length
                (sepErrors P radix next (st.after p.2 1 []).loc 0 ds),
              ⟨groupValue P radix ds mant.mag, mant.pos⟩,
              groupDigits P radix ds % 2 ^ 32) := by
  obtain ⟨pc, pa⟩ := p
  rw [spells_cons] at hsp
  obtain ⟨hpk, hpa, hsp'⟩ := hsp
  have h2 := peekUchars_two_drop P.UCHAR_NULL st.rest 0
  have hhead := spells_head P.UCHAR_NULL ds (st.rest.drop pa) next hsp'
    (by rw [codepointAt_drop]; simpa [nbytes] using hnext)
  have hhead' : headCodepoint ds next = headCodepoint ds P.UCHAR_NULL := by
    rcases ds with _ | ⟨⟨c, a⟩, ds⟩
    · exact absurd rfl hne
    · rfl
  simp only [List.drop_zero, Nat.zero_add, lookahead2, hpk] at h2
  simp only [codepointAt, List.drop_zero] at hhead
  simp only at hp
  have hlen := (spells_length_le P.UCHAR_NULL ds _ hsp')
  simp only [takeNumberFraction, h2, Lexer.peek, hpk, hhead, hhead', hd, hp, and_self, if_true,
    lexer_advance_eq_after]
  rw [digitLoop_group P radix next ds _ _ _ _ hsp' hg
    (by rw [Lexer.after_rest, codepointAt_drop]; simpa [nbytes] using hnext) hnd hns
    (by simp only [Lexer.after_rest, List.length_drop] at hlen ⊢; omega) (by norm_num),
    Lexer.after_after]
  simp [nbytes, Nat.add_comm]

theorem takeNumberExponent_absent (P : Params) (radix : RadixParams) (fd : Nat) (st : Lexer)
    (h : noExponentAt P radix st.rest 0 = true) :
    takeNumberExponent P radix fd st = some (ExponentResult.absent st) := by
  simp only [noExponentAt, codepointAt, List.drop_zero, Bool.and_eq_true, Bool.not_eq_true',
    decide_eq_true_eq] at h
  have hp : st.peek P = ((peekUchar P.UCHAR_NULL st.rest).1, (peekUchar P.UCHAR_NULL st.rest).2) := rfl
  rw [takeNumberExponent, hp]
  simp only [h.1, h.2, Bool.false_eq_true, if_false]

theorem nbytes_append (xs ys : List (Int × Nat)) : nbytes (xs ++ ys) = nbytes xs + nbytes ys := by
  simp [nbytes]

theorem nbytes_nil : nbytes [] = 0 := rfl

theorem nbytes_cons (x : Int × Nat) (xs : List (Int × Nat)) : nbytes (x :: xs) = x.2 + nbytes xs := by
  simp [nbytes]

theorem prefixOk_drop (P : Params) (rest : List Byte) (a b : Nat)
    (pfx : Option ((Int × Nat) × (Int × Nat))) :
    prefixOk P (rest.drop a) b pfx = prefixOk P rest (a + b) pfx := by
  rcases pfx with _ | ⟨z, l⟩
  · simp only [prefixOk, radixPrefixAt, lookahead2_drop]
  · rfl

theorem groupDigits_le (P : Params) (radix : RadixParams) (xs : List (Int × Nat)) :
    groupDigits P radix xs ≤ xs.length := by
  simp only [groupDigits]
  exact List.length_filter_le _ _

theorem takeNumber_of_mantissa (P : Params) (st : Lexer) (m : MantissaLit)
    (h : mantissaAt P m st.rest = true) :
    ∃ errs, takeNumber P st
      = takeNumberFinish P st.loc (m.negative P) (m.radix P) ⟨m.value P, true⟩
          (groupDigits P (m.radix P) m.fracDigits % 2 ^ 32)
          (st.after (nbytes m.codepoints) m.codepoints.length errs) := by
  obtain ⟨sign, pfx, ip, frac⟩ := m
  have hK : nbytes (MantissaLit.mk sign pfx ip frac).codepoints
      = nbytes sign.toList + nbytes (prefixCodepoints pfx) + nbytes ip
        + nbytes (MantissaLit.mk sign pfx ip frac).fracCodepoints := by
    simp only [MantissaLit.codepoints, nbytes_append]
  have hL : (MantissaLit.mk sign pfx ip frac).codepoints.length
      = sign.toList.length + (prefixCodepoints pfx).length + ip.length
        + (MantissaLit.mk sign pfx ip frac).fracCodepoints.length := by
    simp only [MantissaLit.codepoints, List.length_append]
  rw [hK, hL]
  simp only [mantissaAt, MantissaLit.codepoints, MantissaLit.radix, Bool.and_eq_true,
    decide_eq_true_eq] at h
  obtain ⟨⟨⟨⟨⟨hsp, hsign⟩, hdig⟩, hpfx⟩, hip⟩, hfrac⟩ := h
  simp only [spells_append] at hsp
  obtain ⟨⟨⟨hspS, hspP⟩, hspI⟩, hspF⟩ := hsp
  have hlenI := spells_length_le _ _ _ hspI
  have hlenF := spells_length_le _ _ _ hspF
  simp only [List.length_drop] at hlenI hlenF
  simp only [nbytes_append] at hspI hspF hlenI hlenF hfrac
  -- the sign
  have e1 := takeNumberSign_literal P st sign hspS hsign hdig
  -- the radix prefix
  have e2 := takeRadix_literal P (st.after (nbytes sign.toList) sign.toList.length []) pfx
    (by rw [Lexer.after_rest]; exact hspP)
    (by rw [Lexer.after_rest, prefixOk_drop, Nat.add_zero]; exact hpfx)
  rw [Lexer.after_after] at e2
  simp only [takeNumber, e1, e2, MantissaLit.negative, MantissaLit.radix, MantissaLit.value,
    MantissaLit.fracDigits]
  rcases frac with _ | ⟨p, ds⟩
  · -- no fractional part
    simp only [Bool.and_eq_true, Bool.not_eq_true', decide_eq_true_eq] at hfrac
    obtain ⟨⟨hnd, hns⟩, hnf⟩ := hfrac
    have e3 := digitLoop_group P (prefixRadix P pfx) _ ip
      ((st.after (nbytes sign.toList + nbytes (prefixCodepoints pfx))
        (sign.toList.length + (prefixCodepoints pfx).length) ([] ++ [])).rest.length + 1)
      (st.after (nbytes sign.toList + nbytes (prefixCodepoints pfx))
        (sign.toList.length + (prefixCodepoints pfx).length) ([] ++ [])) bigint_new 0
      (by rw [Lexer.after_rest]; exact hspI) hip
      (by rw [Lexer.after_rest, codepointAt_drop]) hnd hns
      (by simp only [Lexer.after_rest, List.length_drop] at hlenI ⊢; omega)
      (by norm_num)
    rw [e3, Lexer.after_after]
    simp only []
    rw [takeNumberFraction_none _ _ _ _
      (by rw [Lexer.after_rest, lookahead2_drop, Nat.add_zero]; exact hnf)]
    exact ⟨_, rfl⟩
  · -- a fractional part
    simp only [Bool.and_eq_true, Bool.not_eq_true', decide_eq_true_eq, decide_not,
      Bool.not_eq_true', decide_eq_false_iff_not, ne_eq] at hfrac
    obtain ⟨⟨⟨⟨⟨⟨⟨hp, hpd⟩, hps⟩, hd⟩, hne⟩, hg⟩, hnd⟩, hns⟩ := hfrac
    simp only [MantissaLit.fracCodepoints] at hspF hlenF hnd hns
    have hpk : codepointAt P.UCHAR_NULL st.rest
        (nbytes sign.toList + nbytes (prefixCodepoints pfx) + nbytes ip) = P.digitPoint := by
      obtain ⟨pc, pa⟩ := p
      rw [spells_cons] at hspF
      simp only [codepointAt, hspF.1]
      exact hp
    have e3 := digitLoop_group P (prefixRadix P pfx) P.digitPoint ip
      ((st.after (nbytes sign.toList + nbytes (prefixCodepoints pfx))
        (sign.toList.length + (prefixCodepoints pfx).length) ([] ++ [])).rest.length + 1)
      (st.after (nbytes sign.toList + nbytes (prefixCodepoints pfx))
        (sign.toList.length + (prefixCodepoints pfx).length) ([] ++ [])) bigint_new 0
      (by rw [Lexer.after_rest]; exact hspI) hip
      (by rw [Lexer.after_rest, codepointAt_drop]; exact hpk) hpd (fun e => hps e)
      (by simp only [Lexer.after_rest, List.length_drop] at hlenI ⊢; omega)
      (by norm_num)
    rw [e3, Lexer.after_after]
    simp only []
    rw [takeNumberFraction_some P _ _ _ p ds _
      (by rw [Lexer.after_rest]; exact hspF) hp hd hne hg
      (by rw [Lexer.after_rest, codepointAt_drop])
      hnd hns, Lexer.after_after]
    exact ⟨_, rfl⟩

theorem expSignOk_drop (P : Params) (rest : List Byte) (a b : Nat) (sign : Option (Int × Nat)) :
    expSignOk P (rest.drop a) b sign = expSignOk P rest (a + b) sign := by
  rcases sign with _ | s
  · simp only [expSignOk, codepointAt_drop]
  · rfl

theorem takeExponentSign_literal (P : Params) (fd : Nat) (st : Lexer) (sign : Option (Int × Nat))
    (hsp : spells P.UCHAR_NULL sign.toList st.rest = true)
    (hsign : expSignOk P st.rest 0 sign = true) :
    ∃ errs, takeExponentSign P fd st
      = (signNegative P sign && decide (fd ≠ 0),
          st.after (nbytes sign.toList) sign.toList.length errs) := by
  revert hsp hsign
  rcases sign with _ | ⟨sc, sa⟩
  · intro _ hsign
    simp only [expSignOk, Bool.not_eq_true', codepointAt, List.drop_zero] at hsign
    refine ⟨[], ?_⟩
    have hp1 : st.peek P
        = ((peekUchar P.UCHAR_NULL st.rest).1, (peekUchar P.UCHAR_NULL st.rest).2) := rfl
    rw [takeExponentSign, hp1]
    simp only [hsign, Bool.false_eq_true, if_false, signNegative, Bool.false_and,
      Option.toList, nbytes_nil, List.length_nil, Lexer.after_zero]
  · intro hsp hsign
    simp only [expSignOk] at hsign
    simp only [Option.toList, spells_cons, spells_nil, and_true] at hsp
    have hp1 : st.peek P = (sc, sa) := hsp.1
    rw [takeExponentSign, hp1]
    by_cases hfd : fd = 0
    · refine ⟨[{ loc := ⟨st.loc, (st.after sa 1 []).loc⟩, type := ErrType.badExponentSign,
                 as := ErrData.none }], ?_⟩
      simp only [hsign, if_true, hfd, ne_eq, not_true_eq_false, if_false, decide_False,
        Bool.and_false, lexer_advance_eq_after, lexer_addErr_after,
        Option.toList, nbytes_cons, nbytes_nil, List.length_singleton, Nat.add_zero,
        List.nil_append]
    · refine ⟨[], ?_⟩
      simp only [hsign, if_true, hfd, ne_eq, not_false_eq_true, decide_True, Bool.and_true,
        lexer_advance_eq_after, signNegative,
        Option.toList, nbytes_cons, nbytes_nil, List.length_singleton, Nat.add_zero]

theorem takeNumberExponent_present (P : Params) (radix : RadixParams) (fd : Nat) (st : Lexer)
    (e : ExpLit) (h : exponentAt P radix e st.rest 0 = true)
    (hcount : groupDigits P (e.radix P radix) e.digits < 2 ^ 32) :
    ∃ errs, takeNumberExponent P radix fd st
      = some (ExponentResult.present
          (st.after (nbytes e.codepoints) e.codepoints.length errs)
          ⟨e.value P radix, true⟩ (signNegative P e.sign && decide (fd ≠ 0))) := by
  obtain ⟨⟨lc, la⟩, sign, pfx, ds⟩ := e
  have hK : nbytes (ExpLit.mk (lc, la) sign pfx ds).codepoints
      = la + nbytes sign.toList + nbytes (prefixCodepoints pfx) + nbytes ds := by
    simp only [ExpLit.codepoints, nbytes_append, nbytes_cons, nbytes_nil, Nat.add_zero]
  have hL : (ExpLit.mk (lc, la) sign pfx ds).codepoints.length
      = 1 + sign.toList.length + (prefixCodepoints pfx).length + ds.length := by
    simp only [ExpLit.codepoints, List.length_append, List.length_singleton]
  simp only [exponentAt, Bool.and_eq_true, decide_eq_true_eq, List.drop_zero, Nat.zero_add,
    Bool.or_eq_true, Bool.not_eq_true'] at h
  obtain ⟨⟨⟨⟨⟨⟨⟨hsp, hletter⟩, hsign⟩, hpfx⟩, hg⟩, hpos⟩, hnd⟩, hns⟩ := h
  rw [hK] at hnd hns
  rw [hK, hL]
  simp only [ExpLit.codepoints, spells_append, nbytes_append, nbytes_cons, nbytes_nil,
    Nat.add_zero] at hsp hpfx
  obtain ⟨⟨⟨hspL, hspS⟩, hspP⟩, hspD⟩ := hsp
  rw [spells_cons] at hspL
  obtain ⟨hpk, hla, -⟩ := hspL
  have hp : st.peek P = (lc, la) := hpk
  have hlenD := spells_length_le _ _ _ hspD
  simp only [List.length_drop] at hlenD
  have hgd : groupDigits P ((ExpLit.mk (lc, la) sign pfx ds).radix P radix) ds % 2 ^ 32 ≠ 0 := by
    have hcount' : groupDigits P ((ExpLit.mk (lc, la) sign pfx ds).radix P radix) ds < 2 ^ 32 :=
      hcount
    rw [Nat.mod_eq_of_lt hcount']
    omega
  obtain ⟨errs1, hsgn⟩ := takeExponentSign_literal P fd (st.after la 1 []) sign
    (by rw [Lexer.after_rest]; exact hspS)
    (by rw [Lexer.after_rest, expSignOk_drop, Nat.add_zero]; exact hsign)
  rw [Lexer.after_after] at hsgn
  rw [takeNumberExponent, hp]
  simp only [ExpLit.specific, ExpLit.value, ExpLit.radix] at hletter hpfx hg hgd hnd ⊢
  by_cases hspec : ucharElem P.UCHAR_NULL lc radix.exponentLetters = true
  · -- a radix-specific exponent letter
    simp only [hspec, if_true, Option.isNone_iff_eq_none] at hpfx hg hgd hnd ⊢
    subst hpfx
    simp only [prefixCodepoints, nbytes_nil, Nat.add_zero] at hspD hlenD hnd hns ⊢
    simp only [lexer_advance_eq_after, hsgn, Bool.not_false, if_true]
    have e3 := digitLoop_group P radix _ ds
      ((st.after (la + nbytes sign.toList) (1 + sign.toList.length) ([] ++ errs1)).rest.length + 1)
      (st.after (la + nbytes sign.toList) (1 + sign.toList.length) ([] ++ errs1)) bigint_new 0
      (by rw [Lexer.after_rest]; exact hspD) hg
      (by rw [Lexer.after_rest, codepointAt_drop]) hnd hns
      (by simp only [Lexer.after_rest, List.length_drop] at hlenD ⊢; omega)
      (by norm_num)
    rw [e3, Lexer.after_after]
    simp only [Nat.zero_add, hgd, if_false, bigint_new, List.length_nil, Nat.add_zero]
    exact ⟨_, rfl⟩
  · -- the generic exponent letter
    have hgen : lc = P.genericExpLetter := by
      rcases hletter with h | h
      · exact absurd h hspec
      · exact h
    simp only [hspec, Bool.false_eq_true, if_false] at hpfx hg hgd hnd ⊢
    simp only [hgen, if_true, lexer_advance_eq_after, hsgn, Bool.not_true]
    have e2 := takeRadix_literal P
      (st.after (la + nbytes sign.toList) (1 + sign.toList.length) ([] ++ errs1)) pfx
      (by rw [Lexer.after_rest]; exact hspP)
      (by rw [Lexer.after_rest, prefixOk_drop, Nat.add_zero]; exact hpfx)
    rw [Lexer.after_after] at e2
    simp only [Bool.false_eq_true, if_false, e2]
    have e3 := digitLoop_group P (prefixRadix P pfx) _ ds
      ((st.after (la + nbytes sign.toList + nbytes (prefixCodepoints pfx))
        (1 + sign.toList.length + (prefixCodepoints pfx).length) ([] ++ errs1 ++ [])).rest.length + 1)
      (st.after (la + nbytes sign.toList + nbytes (prefixCodepoints pfx))
        (1 + sign.toList.length + (prefixCodepoints pfx).length) ([] ++ errs1 ++ [])) bigint_new 0
      (by rw [Lexer.after_rest]; exact hspD) hg
      (by rw [Lexer.after_rest, codepointAt_drop]) hnd hns
      (by simp only [Lexer.after_rest, List.length_drop] at hlenD ⊢; omega)
      (by norm_num)
    rw [e3, Lexer.after_after]
    simp only [Nat.zero_add, hgd, if_false, bigint_new]
    exact ⟨_, rfl⟩

/-! ### Claims on `takeNumber` -/

theorem Bigint.toInt_signed (v : Nat) (neg : Bool) :
    (if v ≠ 0 then ({ mag := v, pos := !neg } : Bigint) else ⟨v, true⟩).toInt
      = if neg then -(v : Int) else (v : Int) := by
  by_cases hv : v = 0
  · subst hv
    cases neg <;> simp [Bigint.toInt]
  · cases neg <;> simp [Bigint.toInt, hv]

theorem exponentAt_drop (P : Params) (radix : RadixParams) (e : ExpLit) (rest : List Byte)
    (a : Nat) : exponentAt P radix e (rest.drop a) 0 = exponentAt P radix e rest a := by
  simp only [exponentAt, List.drop_zero, Nat.zero_add, expSignOk_drop, prefixOk_drop,
    codepointAt_drop]

theorem fracDigits_ne_zero (P : Params) (m : MantissaLit) (rest : List Byte)
    (h : mantissaAt P m rest = true) :
    decide (groupDigits P (m.radix P) m.fracDigits ≠ 0) = m.frac.isSome := by
  obtain ⟨sign, pfx, ip, frac⟩ := m
  rcases frac with _ | ⟨p, ds⟩
  · simp [MantissaLit.fracDigits, groupDigits]
  · simp only [mantissaAt, MantissaLit.radix, Bool.and_eq_true, decide_eq_true_eq] at h
    obtain ⟨-, hfrac⟩ := h
    obtain ⟨⟨⟨⟨⟨-, hd⟩, hne⟩, -⟩, -⟩, -⟩ := hfrac
    rcases ds with _ | ⟨⟨c, a⟩, ds⟩
    · exact absurd rfl hne
    · simp only [headCodepoint] at hd
      simp [MantissaLit.fracDigits, groupDigits, MantissaLit.radix, List.filter_cons, hd]

/-- C6 (amended): the exponent of the Number token is the value of the exponent digits read
in the exponent's radix (the mantissa's radix after a radix-specific letter; after the
generic letter the radix of the prefix that follows, the default radix without one),
negated when the exponent sign is the negative sign and the literal has a fractional
part; so it is negative exactly when, in addition, that value is not zero. A literal without
exponent part has exponent 0. The digit counts stay below 2^32, the range of the `uint32_t`
counters. -/
theorem takeNumber_exponent_token (P : Params) (st : Lexer) (m : MantissaLit) (e : Option ExpLit)
    (h : mantissaAt P m st.rest = true)
    (hexp : exponentPartAt P (m.radix P) e st.rest (nbytes m.codepoints) = true)
    (hcount : groupDigits P (m.radix P) m.fracDigits < 2 ^ 32)
    (hcountExp : ∀ x, e = some x → groupDigits P (x.radix P (m.radix P)) x.digits < 2 ^ 32) :
    ∃ st' mantissa exponent, takeNumber P st = some (true, st') ∧
      st'.tokens = st.tokens ++ [Token.mk ⟨st.loc, st'.loc⟩ TokType.number
        (TokData.number mantissa (m.radix P).radix
          (groupDigits P (m.radix P) m.fracDigits) exponent)] ∧
      exponent.toInt = exponentValue P m e ∧
      (exponent.toInt < 0 ↔
        ∃ x, e = some x ∧ signNegative P x.sign = true ∧ m.frac.isSome = true
          ∧ 0 < x.value P (m.radix P)) := by
  obtain ⟨errs, he⟩ := takeNumber_of_mantissa P st m h
  rw [Nat.mod_eq_of_lt hcount] at he
  revert hexp hcountExp
  rcases e with _ | x
  · intro hexp _
    have ha := takeNumberExponent_absent P (m.radix P) (groupDigits P (m.radix P) m.fracDigits)
      (st.after (nbytes m.codepoints) m.codepoints.length errs)
      (by simpa [noExponentAt, codepointAt_drop, exponentPartAt] using hexp)
    rw [he, takeNumberFinish, ha]
    refine ⟨_, _, _, rfl, rfl, ?_, ?_⟩
    · simp [exponentValue, bigint_new, Bigint.toInt]
    · simp [bigint_new, Bigint.toInt]
  · intro hexp hcountExp
    obtain ⟨errs', hp⟩ := takeNumberExponent_present P (m.radix P)
      (groupDigits P (m.radix P) m.fracDigits)
      (st.after (nbytes m.codepoints) m.codepoints.length errs) x
      (by rw [Lexer.after_rest, exponentAt_drop]; exact hexp) (hcountExp x rfl)
    rw [he, takeNumberFinish, hp]
    have hv := Bigint.toInt_signed (x.value P (m.radix P))
      (signNegative P x.sign && decide (groupDigits P (m.radix P) m.fracDigits ≠ 0))
    rw [fracDigits_ne_zero P m st.rest h] at hv
    refine ⟨_, _, _, rfl, rfl, ?_, ?_⟩
    · rw [fracDigits_ne_zero P m st.rest h]
      exact hv
    · rw [fracDigits_ne_zero P m st.rest h, hv]
      constructor
      · intro hlt
        refine ⟨x, rfl, ?_⟩
        by_cases hb : (signNegative P x.sign && m.frac.isSome) = true
        · rw [if_pos hb] at hlt
          simp only [Bool.and_eq_true] at hb
          exact ⟨hb.1, hb.2, by omega⟩
        · rw [if_neg hb] at hlt
          omega
      · rintro ⟨y, hy, hs, hf, hpos⟩
        cases hy
        rw [if_pos (by simp [hs, hf])]
        omega

/-- Witness of C6: `-12.50e+2` has exponent +2. -/
theorem takeNumber_exponent_token_witness :
    mantissaAt specParams lit_neg_12_50 (lexer_init specParams input_neg_12_50e2).rest = true ∧
    exponentPartAt specParams (lit_neg_12_50.radix specParams) (some exp_e_plus_2)
      (lexer_init specParams input_neg_12_50e2).rest (nbytes lit_neg_12_50.codepoints) = true ∧
    groupDigits specParams (lit_neg_12_50.radix specParams) lit_neg_12_50.fracDigits < 2 ^ 32 ∧
    (∀ x, some exp_e_plus_2 = some x →
      groupDigits specParams (x.radix specParams (lit_neg_12_50.radix specParams)) x.digits
        < 2 ^ 32) ∧
    exponentValue specParams lit_neg_12_50 (some exp_e_plus_2) = 2 ∧
    ∃ st' mantissa exponent,
      takeNumber specParams (lexer_init specParams input_neg_12_50e2) = some (true, st') ∧
      st'.tokens = (lexer_init specParams input_neg_12_50e2).tokens ++
        [Token.mk ⟨(lexer_init specParams input_neg_12_50e2).loc, st'.loc⟩ TokType.number
          (TokData.number mantissa (lit_neg_12_50.radix specParams).radix
            (groupDigits specParams (lit_neg_12_50.radix specParams) lit_neg_12_50.fracDigits)
            exponent)] ∧
      exponent.toInt = exponentValue specParams lit_neg_12_50 (some exp_e_plus_2) ∧
      (exponent.toInt < 0 ↔
        ∃ x, some exp_e_plus_2 = some x ∧ signNegative specParams x.sign = true
          ∧ lit_neg_12_50.frac.isSome = true
          ∧ 0 < x.value specParams (lit_neg_12_50.radix specParams)) :=
  ⟨by decide, by decide, by decide, fun x hx => by cases hx; decide, by decide,
    takeNumber_exponent_token specParams (lexer_init specParams input_neg_12_50e2) lit_neg_12_50
      (some exp_e_plus_2) (by decide) (by decide) (by decide)
      (fun x hx => by cases hx; decide)⟩

/-- Counterexample to C6 as stated: in `1.5e-0` the negative exponent sign is given and the
literal has a fractional part, and the exponent of the token is zero, with the positive
sign flag: it is not negative. -/
theorem takeNumber_negative_zero_exponent :
    (takeNumber specParams (lexer_init specParams input_1_5e_minus_0)).map
        (fun r => (r.1, r.2.tokens.map Token.as, r.2.errStream))
      = some (true, [TokData.number ⟨15, true⟩ 10 1 ⟨0, true⟩], []) ∧
    (Bigint.mk 0 true).toInt = 0 ∧
    mantissaAt specParams lit_1_5 input_1_5e_minus_0 = true := by
  decide

/-! ### Claims on the decoder -/

/-- Counterexample to C1 as stated: the four bytes F4 90 80 80 decode with success, length
4, to 0x110000, a value above 0x10FFFF. -/
theorem peekUchar_above_unicode :
    peekUchar (-1) [0xF4, 0x90, 0x80, 0x80] = (0x110000, 4) ∧
    (0x10FFFF : Int) < (peekUchar (-1) [0xF4, 0x90, 0x80, 0x80]).1 := by
  decide

/-- Witness of C2: U+00E9 is encoded as C3 A9 and decoded back with length 2. -/
theorem peekUchar_encodeUchar_witness :
    (0 : Int) ≤ 0xE9 ∧ (0xE9 : Int) ≤ 0x10FFFF ∧ encodeUchar 0xE9 = [0xC3, 0xA9] ∧
    peekUchar (-1) (encodeUchar 0xE9 ++ [0x27])
      = (0xE9, if (0xE9 : Int) < 0x80 then 1 else if (0xE9 : Int) < 0x800 then 2
          else if (0xE9 : Int) < 0x10000 then 3 else 4) :=
  ⟨by decide, by decide, by decide,
    peekUchar_encodeUchar (-1) 0xE9 [0x27] (by decide) (by decide)⟩

/-- C3: when the first byte is an invalid lead (0x80..0xBF or 0xF8..0xFF), or a 2/3/4-byte
lead followed by fewer bytes than it requires or by a byte, among the required ones, that
is not of the form 10xxxxxx, `peekUchar` returns the negated first byte with length 1. -/
theorem peekUchar_failure (N : Int) (b : Byte) (t : List Byte)
    (h : invalidLead b ∨ t.length < contNeeded b ∨
      ∃ i, i < contNeeded b ∧ ∃ c, t[i]? = some c ∧ ¬ isCont c) :
    peekUchar N (b :: t) = (-(b.val : Int), 1) := by
  rcases h with h | h
  · exact peekUchar_badlead N b t h
  · exact peekUchar_short_or_badcont N b t h

/-- Witness of C3: the three-byte lead E2 followed by 82 alone (truncated) fails with
-0xE2. -/
theorem peekUchar_failure_witness :
    (invalidLead (0xE2 : Byte) ∨ [(0x82 : Byte)].length < contNeeded 0xE2 ∨
      ∃ i, i < contNeeded (0xE2 : Byte) ∧ ∃ c, [(0x82 : Byte)][i]? = some c ∧ ¬ isCont c) ∧
    peekUchar (-1) [0xE2, 0x82] = (-((0xE2 : Byte).val : Int), 1) :=
  ⟨Or.inr (Or.inl (by decide)),
    peekUchar_failure (-1) 0xE2 [0x82] (Or.inr (Or.inl (by decide)))⟩

/-- C4 at its own witness: on `"""END` with n = 3, `peekUchars` writes the codepoints `"`,
`"`, `E` and returns 3, where three successive peeks give `"`, `"`, `"` and 3: after the
second peek the source moves the input by the running total instead of the length just
peeked, so the third peek skips a byte. -/
theorem peekUchars_heredoc_open :
    peekUchars (-1) 3 input_heredoc_open = some ([0x22, 0x22, 0x45], 3) ∧
    successivePeeks (-1) 3 input_heredoc_open = ([0x22, 0x22, 0x22], 3) := by
  decide

/-! ### Claims on escapes and strings -/

/-- C8 at its own witness: lexing `'é'` has no defined result, because `peekUchars`
with n = 4 peeks at byte offsets 0, 1, 3 and 6 of the five bytes left after the leader and
so reads past the input. With two spaces appended the peeked digits are `0`, `0`, `9` and
the space: `takeCharEscape` reports BadEscapeCode, returns the leader `u` and consumes four
bytes, and the lexer emits Codepoint 0x75 instead of 0xE9. -/
theorem takeCharEscape_four_hex :
    lexer_raw specParams (lexer_init specParams input_codepoint_u00E9) = none ∧
    (takeCharEscape specParams
        (lexer_advance (lexer_init specParams input_codepoint_u00E9_sp) 2 2)).map
        (fun r => (r.1, r.2.rest, r.2.errStream.map (fun e => (e.type, e.as))))
      = some (0x75, [0x27, 0x20, 0x20],
          [(ErrType.badEscapeCode, ErrData.badEscapeCode [-1, -1, 0x30, 0x30, 0x39, 0x20])]) ∧
    (lexer_raw specParams (lexer_init specParams input_codepoint_u00E9_sp)).map
        (fun s => (s.tokens.map (fun t => (t.type, t.as)), s.errStream.map (fun e => e.type)))
      = some ([(TokType.codepoint, TokData.codepoint 0x75),
               (TokType.unknownSpace, TokData.unknownSpace 0x20 2),
               (TokType.eof, TokData.none)],
              [ErrType.badEscapeCode]) := by
  decide

/-- C9 at a failing input: the literal `"ézz"` consists of a char escape and two string
characters; `takeString` emits a String token with the bytes `uzz` and a BadEscapeCode
error, where the claim has the bytes C3 A9 `zz` and no error. The specification's own
witness `"a\nb"` gives the three bytes `a`, LF, `b` and no error. -/
theorem takeString_four_hex :
    (takeString specParams (lexer_init specParams input_string_u00E9zz)).map
        (fun r => (r.1, r.2.rest, r.2.tokens.map (fun t => (t.type, t.as)),
          r.2.errStream.map (fun e => e.type)))
      = some (true, [], [(TokType.string, TokData.string [0x75, 0x7A, 0x7A] SpliceType.plain)],
          [ErrType.badEscapeCode]) ∧
    encodeUchar 0xE9 ++ [0x7A, 0x7A] = [0xC3, 0xA9, 0x7A, 0x7A] ∧
    (takeString specParams (lexer_init specParams input_string_a_nl_b)).map
        (fun r => (r.1, r.2.rest, r.2.tokens.map (fun t => (t.type, t.as)), r.2.errStream))
      = some (true, [], [(TokType.string, TokData.string [0x61, 0x0A, 0x62] SpliceType.plain)],
          []) :=
  ⟨rfl, rfl, rfl⟩

/-- C10 at a failing input: in `"a?b"` with the control character 0x01 for `?`, the body
loop of `takeString` ends right after the BadStringChar error: the token holds `a` alone,
UnclosedString is emitted, and the remaining input starts with `b`, which is neither a
newline character nor the end of input. -/
theorem takeString_stops_after_bad_char :
    (takeString specParams (lexer_init specParams input_string_ctrl)).map
        (fun r => (r.1, r.2.rest, r.2.tokens.map (fun t => (t.type, t.as)),
          r.2.errStream.map (fun e => (e.type, e.as, e.loc.start.byte))))
      = some (true, [0x62, 0x22],
          [(TokType.string, TokData.string [0x61] SpliceType.plain)],
          [(ErrType.badStringChar, ErrData.badStringChar 0x01, 2),
           (ErrType.unclosedString, ErrData.none, 3)]) ∧
    specParams.isStringChar 0x01 = false ∧
    specParams.isNewlineChar 0x62 = false :=
  ⟨rfl, rfl, rfl⟩

theorem groupDigits_cons (P : Params) (radix : RadixParams) (x : Int × Nat)
    (xs : List (Int × Nat)) :
    groupDigits P radix (x :: xs)
      = (if P.isDigit radix x.1 then 1 else 0) + groupDigits P radix xs := by
  simp only [groupDigits, List.filter_cons]
  split_ifs <;> simp [Nat.add_comm]

theorem locAfter_cons (loc : FilelocPoint) (x : Int × Nat) (ys : List (Int × Nat)) :
    locAfter loc (x :: ys)
      = locAfter { loc with byte := loc.byte + x.2, col := loc.col + 1 } ys := by
  simp only [locAfter, nbytes_cons, List.length_cons, FilelocPoint.mk.injEq, and_true, true_and]
  constructor <;> omega

theorem counted_cons (P : Params) (radix : RadixParams) (n : Nat) (x : Int × Nat)
    (ys : List (Int × Nat)) :
    (n + groupDigits P radix (x :: ys)) % 2 ^ 32
      = ((if P.isDigit radix x.1 then (n + 1) % 2 ^ 32 else n) + groupDigits P radix ys)
          % 2 ^ 32 := by
  rw [groupDigits_cons]
  split_ifs <;> omega

theorem separatorError_succ (P : Params) (radix : RadixParams) (next : Int) (loc : FilelocPoint)
    (n : Nat) (x : Int × Nat) (xs : List (Int × Nat)) (i : Nat) :
    separatorError P radix next loc n (x :: xs) (i + 1)
      = separatorError P radix next
          { loc with byte := loc.byte + x.2, col := loc.col + 1 }
          (if P.isDigit radix x.1 then (n + 1) % 2 ^ 32 else n) xs i := by
  have hc := counted_cons P radix n x (xs.take i)
  simp only [separatorError, List.getElem?_cons_succ, List.drop_succ_cons, List.take_succ_cons,
    locAfter_cons, hc]

theorem sepErrors_eq_separatorErrors (P : Params) (radix : RadixParams) (next : Int) :
    ∀ (xs : List (Int × Nat)) (loc : FilelocPoint) (n : Nat), n < 2 ^ 32 →
      sepErrors P radix next loc n xs = separatorErrors P radix next loc n xs := by
  intro xs
  induction xs with
  | nil => intro loc n _; rfl
  | cons x xs ih =>
    intro loc n hn
    obtain ⟨c, adv⟩ := x
    have hrange : List.range ((c, adv) :: xs).length
        = 0 :: (List.range xs.length).map Nat.succ := by
      rw [List.length_cons, List.range_succ_eq_map]
    have hsucc : ∀ i, separatorError P radix next loc n ((c, adv) :: xs) (Nat.succ i)
        = separatorError P radix next { loc with byte := loc.byte + adv, col := loc.col + 1 }
            (if P.isDigit radix c then (n + 1) % 2 ^ 32 else n) xs i :=
      fun i => separatorError_succ P radix next loc n (c, adv) xs i
    simp only [separatorErrors, hrange, List.filterMap_cons, List.filterMap_map,
      Function.comp_def, hsucc]
    have h0 : separatorError P radix next loc n ((c, adv) :: xs) 0
        = if P.isDigit radix c then none
          else if n = 0 ∨ (P.isDigit radix (headCodepoint xs next) = false
                ∧ headCodepoint xs next ≠ P.digitSep) then
            some { loc := ⟨loc, { loc with byte := loc.byte + adv, col := loc.col + 1 }⟩,
                   type := ErrType.badDigitSeparator, as := ErrData.none }
          else none := by
      simp only [separatorError, List.getElem?_cons_zero, List.take_zero, List.drop_succ_cons,
        List.drop_zero, groupDigits, List.filter_nil, List.length_nil, Nat.add_zero,
        Nat.mod_eq_of_lt hn, locAfter, nbytes_nil, List.take_succ_cons, nbytes_cons,
        List.length_cons, Nat.zero_add]
    rw [h0]
    by_cases hd : P.isDigit radix c = true
    · simp only [hd, if_true, sepErrors]
      exact ih _ _ (Nat.mod_lt _ (by norm_num))
    · simp only [hd, Bool.false_eq_true, if_false, sepErrors]
      split_ifs with hc
      · rw [ih _ _ hn]
        rfl
      · exact ih _ _ hn

/-- Counterexample to C7 as stated: lexing `1__2` gives Number (mantissa 12, radix 10) and
EOF and no error at all, although both separators are adjacent to a separator. -/
theorem lexer_raw_double_separator :
    (lexer_raw specParams (lexer_init specParams input_1__2)).map
        (fun s => (s.tokens, s.errStream, s.fatal.type))
      = some ([⟨⟨⟨0, 1, 1⟩, ⟨4, 1, 5⟩⟩, TokType.number, TokData.number ⟨12, true⟩ 10 0 ⟨0, true⟩⟩,
               ⟨⟨⟨4, 1, 5⟩, ⟨4, 1, 5⟩⟩, TokType.eof, TokData.none⟩],
              [], ErrType.noError) := by
  decide

/-! ### A recognizer that returns false leaves the state as it was -/

theorem takeWhitespace_false (P : Params) (st st' : Lexer)
    (h : takeWhitespace P st = some (false, st')) : st' = st := by
  unfold takeWhitespace at h
  repeat' first | split at h | dsimp only at h
  all_goals first | (cases h; done) | (cases h; rfl)

theorem takeNewline_false (P : Params) (st st' : Lexer)
    (h : takeNewline P st = some (false, st')) : st' = st := by
  unfold takeNewline at h
  repeat' first | split at h | dsimp only at h
  all_goals first | (cases h; done) | (cases h; rfl)

theorem takeComment_false (P : Params) (st st' : Lexer)
    (h : takeComment P st = some (false, st')) : st' = st := by
  unfold takeComment at h
  repeat' first | split at h | dsimp only at h
  all_goals first | (cases h; done) | (cases h; rfl)

theorem takeSymbol_false (P : Params) (st st' : Lexer)
    (h : takeSymbol P st = some (false, st')) : st' = st := by
  unfold takeSymbol at h
  repeat' first | split at h | dsimp only at h
  all_goals first | (cases h; done) | (cases h; rfl)

theorem takeNumberFinish_true (P : Params) (start : FilelocPoint) (neg : Bool)
    (radix : RadixParams) (m : Bigint) (fd : Nat) (st : Lexer) (b : Bool) (st' : Lexer)
    (h : takeNumberFinish P start neg radix m fd st = some (b, st')) : b = true := by
  unfold takeNumberFinish at h
  repeat' first | split at h | dsimp only at h
  all_goals first | (cases h; done) | (cases h; rfl)

theorem takeNumber_false (P : Params) (st st' : Lexer)
    (h : takeNumber P st = some (false, st')) : st' = st := by
  unfold takeNumber at h
  repeat' first | split at h | dsimp only at h
  all_goals first | (cases h; done) | (cases h; rfl) | skip
  all_goals
    have := takeNumberFinish_true _ _ _ _ _ _ _ _ _ h
    cases this

theorem heredocLinesLoop_true (P : Params) (st0 : Lexer) (ender : List Byte) (n : Nat)
    (ic : Int) (inc : Nat) (fuel : Nat) :
    ∀ (st : Lexer) (text : List Byte) (b : Bool) (st' : Lexer),
      heredocLinesLoop P st0 ender n ic inc fuel st text = some (b, st') → b = true := by
  induction fuel with
  | zero => intro st text b st' h; simp [heredocLinesLoop] at h
  | succ fuel ih =>
    intro st text b st' h
    unfold heredocLinesLoop at h
    repeat' first | split at h | dsimp only at h
    all_goals first | (cases h; done) | (cases h; rfl) | skip
    exact ih _ _ _ _ h

theorem takeHeredoc_false (P : Params) (st st' : Lexer)
    (h : takeHeredoc P st = some (false, st')) : st' = st := by
  unfold takeHeredoc at h
  repeat' first | split at h | dsimp only at h
  all_goals first | (cases h; done) | (cases h; rfl) | skip
  all_goals
    have := heredocLinesLoop_true _ _ _ _ _ _ _ _ _ _ _ h
    cases this

theorem takeString_false (P : Params) (st st' : Lexer)
    (h : takeString P st = some (false, st')) : st' = st := by
  unfold takeString at h
  repeat' first | split at h | dsimp only at h
  all_goals first | (cases h; done) | (cases h; rfl)

theorem takeCodepoint_false (P : Params) (st st' : Lexer)
    (h : takeCodepoint P st = some (false, st')) : st' = st := by
  unfold takeCodepoint at h
  repeat' first | split at h | dsimp only at h
  all_goals first | (cases h; done) | (cases h; rfl)

theorem takeSplitter_false (P : Params) (st st' : Lexer)
    (h : takeSplitter P st = some (false, st')) : st' = st := by
  unfold takeSplitter at h
  repeat' first | split at h | dsimp only at h
  all_goals first | (cases h; done) | (cases h; rfl)

theorem takeWrap_false (P : Params) (st st' : Lexer)
    (h : takeWrap P st = some (false, st')) : st' = st := by
  unfold takeWrap at h
  repeat' first | split at h | dsimp only at h
  all_goals first | (cases h; done) | (cases h; rfl)

theorem takeLineContinue_false (P : Params) (st st' : Lexer)
    (h : takeLineContinue P st = some (false, st')) : st' = st := by
  unfold takeLineContinue at h
  repeat' first | split at h | dsimp only at h
  all_goals first | (cases h; done) | (cases h; rfl)

theorem takeEof_false (P : Params) (st st' : Lexer)
    (h : takeEof P st = some (false, st')) : st' = st := by
  unfold takeEof at h
  repeat' first | split at h | dsimp only at h
  all_goals first | (cases h; done) | (cases h; rfl)

theorem takeNullEscape_false (P : Params) (st st' : Lexer)
    (h : takeNullEscape P st = some (false, st')) : st' = st := by
  unfold takeNullEscape at h
  repeat' first | split at h | dsimp only at h
  all_goals first | (cases h; done) | (cases h; rfl)

/-! ### Claims on recognizers as a whole -/

/-- C12: every recognizer (takeWhitespace, takeNewline, takeComment, takeSymbol, takeNumber,
takeHeredoc, takeString, takeCodepoint, takeSplitter, takeWrap, takeLineContinue, takeEof
and the helper takeNullEscape) that returns false returns the lexer state it was given: the
remaining input, the location, the token list, the error list, the fatal slot,
discoveredNewline and the indent record are the fields of that state, so each is equal to
its value before the call. -/
theorem recognizer_false_unchanged (P : Params) (f : Lexer → Option (Bool × Lexer))
    (st st' : Lexer) (hf : f ∈ flagRecognizers P) (h : f st = some (false, st')) :
    st' = st ∧ st'.rest = st.rest ∧ st'.loc = st.loc ∧ st'.tokens = st.tokens ∧
      st'.errStream = st.errStream ∧ st'.fatal = st.fatal ∧
      st'.discoveredNewline = st.discoveredNewline ∧ st'.indent = st.indent := by
  have key : st' = st := by
    simp only [flagRecognizers, List.mem_cons, List.mem_singleton, List.not_mem_nil,
      or_false] at hf
    rcases hf with rfl | rfl | rfl | rfl | rfl | rfl | rfl | rfl | rfl | rfl | rfl | rfl | rfl
    · exact takeWhitespace_false P st st' h
    · exact takeNewline_false P st st' h
    · exact takeComment_false P st st' h
    · exact takeSymbol_false P st st' h
    · exact takeNumber_false P st st' h
    · exact takeHeredoc_false P st st' h
    · exact takeString_false P st st' h
    · exact takeCodepoint_false P st st' h
    · exact takeSplitter_false P st st' h
    · exact takeWrap_false P st st' h
    · exact takeLineContinue_false P st st' h
    · exact takeEof_false P st st' h
    · exact takeNullEscape_false P st st' h
  subst key
  exact ⟨rfl, rfl, rfl, rfl, rfl, rfl, rfl, rfl⟩

/-- Witness of C12: on the input `1__2` the first recognizer, takeWhitespace, returns false
and the state is the one it was called with. -/
theorem recognizer_false_unchanged_witness :
    takeWhitespace specParams ∈ flagRecognizers specParams ∧
    takeWhitespace specParams (lexer_init specParams input_1__2)
      = some (false, lexer_init specParams input_1__2) ∧
    (lexer_init specParams input_1__2 = lexer_init specParams input_1__2 ∧
      (lexer_init specParams input_1__2).rest = (lexer_init specParams input_1__2).rest ∧
      (lexer_init specParams input_1__2).loc = (lexer_init specParams input_1__2).loc ∧
      (lexer_init specParams input_1__2).tokens = (lexer_init specParams input_1__2).tokens ∧
      (lexer_init specParams input_1__2).errStream
        = (lexer_init specParams input_1__2).errStream ∧
      (lexer_init specParams input_1__2).fatal = (lexer_init specParams input_1__2).fatal ∧
      (lexer_init specParams input_1__2).discoveredNewline
        = (lexer_init specParams input_1__2).discoveredNewline ∧
      (lexer_init specParams input_1__2).indent = (lexer_init specParams input_1__2).indent) :=
  ⟨by simp [flagRecognizers], rfl,
    recognizer_false_unchanged specParams (takeWhitespace specParams)
      (lexer_init specParams input_1__2) (lexer_init specParams input_1__2)
      (by simp [flagRecognizers]) rfl⟩

/-- C11 at its own witness: on the heredoc of scenario 5 `takeHeredoc` returns false, because
the lookahead of three codepoints is taken at byte offsets 0, 1 and 3 and so reads `"`, `"`
and `E`. The dispatch loop then hands the input to `takeString`, which emits an empty
String token for the first two quotes; the run as a whole has no defined result, because
the last quote is reached with one byte left and the lookahead reads past the input. The
claim has one String token with the bytes `hello`, then EOF. -/
theorem takeHeredoc_scenario :
    takeHeredoc specParams (lexer_init specParams input_heredoc_hello)
      = some (false, lexer_init specParams input_heredoc_hello) ∧
    (firstOf (recognizers specParams) (lexer_init specParams input_heredoc_hello)).map
        (fun r => (r.1, r.2.rest.length, r.2.tokens))
      = some (true, 17, [⟨⟨⟨0, 1, 1⟩, ⟨2, 1, 3⟩⟩, TokType.string,
          TokData.string [] SpliceType.plain⟩]) ∧
    lexer_raw specParams (lexer_init specParams input_heredoc_hello) = none := by
  decide

/-- The three-codepoint lookahead of `takeHeredoc` close to the end of the input: on the
one-byte input `(` the dispatch loop reaches `takeHeredoc`, whose lookahead
`peekUchars(lookahead, 3, st->rest)` moves its copy of the input two bytes forward after
one byte was left and then reads there. The read is outside the input, so the run has no
defined result, whatever bound is put on the number of iterations. -/
theorem lexer_raw_paren_undefined :
    peekUchars specParams.UCHAR_NULL 3 input_paren = none ∧
    takeHeredoc specParams (lexer_init specParams input_paren) = none ∧
    lexer_raw specParams (lexer_init specParams input_paren) = none ∧
    ∀ fuel, lexer_rawLoop specParams fuel (lexer_init specParams input_paren) = none := by
  refine ⟨by decide, by decide, by decide, ?_⟩
  intro fuel
  cases fuel with
  | zero => rfl
  | succ n =>
    have h : firstOf (recognizers specParams) (lexer_init specParams input_paren) = none := by
      decide
    simp only [lexer_rawLoop, h]
    rfl

/-! ### Claims on newlines -/

/-- What `takeNewline` does with a lookahead that decodes to a newline, for every parameter
set in which `NEWLINE_NONE` is 0: the local `type` holds the value of the comparison
`decodeNewline(lookahead) != 0`, which is 1 for every newline kind. The call consumes
`newlineSize(1)` bytes, emits the token, and compares 1 with `discoveredNewline`. -/
theorem takeNewline_kind_one (P : Params) (st : Lexer) (la0 la1 : Int) (adv : Nat)
    (hpeek : peekUchars P.UCHAR_NULL 2 st.rest = some ([la0, la1], adv))
    (hnone : P.NEWLINE_NONE = 0) (hnl : P.decodeNewline la0 la1 ≠ 0) :
    takeNewline P st = some (true,
      if st.discoveredNewline = 1 then
        lexer_addTok (lexer_incLine st (P.newlineSize 1))
          ⟨⟨st.loc, (lexer_incLine st (P.newlineSize 1)).loc⟩, TokType.unknownNewline, TokData.none⟩
      else if st.discoveredNewline = 0 then
        { lexer_addTok (lexer_incLine st (P.newlineSize 1))
            ⟨⟨st.loc, (lexer_incLine st (P.newlineSize 1)).loc⟩, TokType.unknownNewline,
              TokData.none⟩ with discoveredNewline := 1 }
      else
        lexer_addErr (lexer_addTok (lexer_incLine st (P.newlineSize 1))
            ⟨⟨st.loc, (lexer_incLine st (P.newlineSize 1)).loc⟩, TokType.unknownNewline,
              TokData.none⟩)
          ⟨⟨st.loc, (lexer_incLine st (P.newlineSize 1)).loc⟩, ErrType.mixedNewlines,
            ErrData.none⟩) := by
  unfold takeNewline
  rw [hpeek]
  simp only [hnl, hnone, ne_eq, not_false_eq_true, if_true, one_ne_zero, if_false]
  by_cases h1 : st.discoveredNewline = 1
  · simp [h1, lexer_addTok, lexer_incLine]
  · by_cases h0 : st.discoveredNewline = 0
    · simp [h0, lexer_addTok, lexer_incLine]
    · have h1' : ¬ (1 = st.discoveredNewline) := fun h => h1 h.symm
      simp [h1, h0, h1', lexer_addTok, lexer_incLine, lexer_addErr]

/-- C19 at a failing input: in LF, CR, LF the first newline sets `discoveredNewline` to 1.
The lookahead CR, LF then decodes to kind 3, a different kind, but `takeNewline` compares
the value 1 of `decodeNewline(lookahead) != 0` with `discoveredNewline`: it appends no
MixedNewlines error, and it consumes `newlineSize(1)` = 1 byte, the CR alone. The whole
input gives three newline tokens and an empty error list. -/
theorem takeNewline_mixed_not_reported :
    specParams.decodeNewline 0x0D 0x0A = 3 ∧
    ((takeNewline specParams (lexer_init specParams input_lf_crlf)).bind
        (fun r => (takeNewline specParams r.2).map
          (fun r2 => (r.2.discoveredNewline, r.2.rest, r2.1, r2.2.rest, r2.2.tokens,
            r2.2.errStream, r2.2.discoveredNewline))))
      = some (1, [0x0D, 0x0A], true, [0x0A],
          [⟨⟨⟨0, 1, 1⟩, ⟨1, 2, 1⟩⟩, TokType.unknownNewline, TokData.none⟩,
           ⟨⟨⟨1, 2, 1⟩, ⟨2, 3, 1⟩⟩, TokType.unknownNewline, TokData.none⟩], [], 1) ∧
    (lexer_raw specParams (lexer_init specParams input_lf_crlf)).map
        (fun s => (s.tokens.map (fun t => (t.type, t.loc.start.byte, t.loc.stop.byte)),
          s.errStream, s.fatal.type))
      = some ([(TokType.unknownNewline, 0, 1), (TokType.unknownNewline, 1, 2),
               (TokType.unknownNewline, 2, 3), (TokType.eof, 3, 3)], [], ErrType.noError) :=
  ⟨rfl, rfl, rfl⟩

/-- C20 at a failing input: from the initial state, in which `discoveredNewline` is
`NEWLINE_NONE`, `takeNewline` on CR, LF returns true and emits no error, but it sets
`discoveredNewline` to 1, the value of `decodeNewline(lookahead) != 0`, where the newline
decodes to kind 3; it consumes one byte of the two. -/
theorem takeNewline_first_kind_lost :
    (lexer_init specParams input_crlf).discoveredNewline = specParams.NEWLINE_NONE ∧
    specParams.decodeNewline 0x0D 0x0A = 3 ∧
    specParams.newlineSize 3 = 2 ∧
    (takeNewline specParams (lexer_init specParams input_crlf)).map
        (fun r => (r.1, r.2.discoveredNewline, r.2.rest, r.2.loc, r.2.errStream))
      = some (true, 1, [0x0A], ⟨1, 2, 1⟩, []) :=
  ⟨rfl, rfl, rfl, rfl⟩

/-! ### The relation `Adv` and the primitive operations on the state -/

theorem newErrs_of_eq {st st' : Lexer} {es : List EexprError}
    (h : st'.errStream = st.errStream ++ es) : newErrs st st' = es := by
  simp [newErrs, h]

theorem Adv.of_errs {st st' : Lexer} {toks : List Token} (es : List EexprError)
    (h1 : st.loc.byte ≤ st'.loc.byte)
    (h2 : st.rest.length + st.loc.byte ≤ st'.rest.length + st'.loc.byte)
    (h3 : st'.tokens = st.tokens ++ toks)
    (h4 : st'.errStream = st.errStream ++ es)
    (h5 : ∀ e ∈ es, st.loc.byte ≤ e.loc.start.byte ∧ e.loc.start.byte ≤ st'.loc.byte) :
    Adv st st' toks := by
  have hn := newErrs_of_eq h4
  exact ⟨h1, h2, h3, by rw [hn]; exact h4, by rw [hn]; exact h5⟩

theorem Adv.refl (st : Lexer) : Adv st st [] :=
  Adv.of_errs [] (le_refl _) (le_refl _) (by simp) (by simp) (by simp)

theorem Adv.trans {a b c : Lexer} {ts : List Token} (h1 : Adv a b []) (h2 : Adv b c ts) :
    Adv a c ts := by
  refine Adv.of_errs (newErrs a b ++ newErrs b c) (le_trans h1.byte_le h2.byte_le)
    (le_trans h1.rest_le h2.rest_le) ?_ ?_ ?_
  · rw [h2.tokens_eq, h1.tokens_eq]; simp
  · rw [h2.errs_eq, h1.errs_eq]; simp
  · intro e he
    rcases List.mem_append.mp he with he | he
    · have := h1.errs_win e he
      have := h2.byte_le
      omega
    · have := h2.errs_win e he
      have := h1.byte_le
      omega

theorem newErrs_trans {a b c : Lexer} {ts1 ts2 : List Token} (h1 : Adv a b ts1)
    (h2 : Adv b c ts2) : newErrs a c = newErrs a b ++ newErrs b c := by
  apply newErrs_of_eq
  rw [h2.errs_eq, h1.errs_eq]; simp

theorem Adv.advance {a s : Lexer} {ts : List Token} (n k : Nat) (h : Adv a s ts) :
    Adv a (lexer_advance s n k) ts := by
  refine Adv.of_errs (newErrs a s) ?_ ?_ h.tokens_eq h.errs_eq ?_
  · have := h.byte_le; simp only [lexer_advance]; omega
  · have := h.rest_le; simp only [lexer_advance, List.length_drop]; omega
  · intro e he
    have := h.errs_win e he
    simp only [lexer_advance]; omega

theorem Adv.incLine {a s : Lexer} {ts : List Token} (n : Nat) (h : Adv a s ts) :
    Adv a (lexer_incLine s n) ts := by
  refine Adv.of_errs (newErrs a s) ?_ ?_ h.tokens_eq h.errs_eq ?_
  · have := h.byte_le; simp only [lexer_incLine]; omega
  · have := h.rest_le; simp only [lexer_incLine, List.length_drop]; omega
  · intro e he
    have := h.errs_win e he
    simp only [lexer_incLine]; omega

theorem Adv.congr {a s s' : Lexer} {ts : List Token} (h : Adv a s ts)
    (h1 : s'.rest = s.rest) (h2 : s'.loc = s.loc) (h3 : s'.tokens = s.tokens)
    (h4 : s'.errStream = s.errStream) : Adv a s' ts := by
  refine Adv.of_errs (newErrs a s) ?_ ?_ ?_ ?_ ?_
  · rw [h2]; exact h.byte_le
  · rw [h1, h2]; exact h.rest_le
  · rw [h3]; exact h.tokens_eq
  · rw [h4]; exact h.errs_eq
  · rw [h2]; exact h.errs_win

theorem Adv.addErr {a s1 s : Lexer} {ts : List Token} (e : EexprError) (h1 : Adv a s1 [])
    (h2 : Adv s1 s ts) (he : e.loc.start = s1.loc) : Adv a (lexer_addErr s e) ts := by
  have h := h1.trans h2
  refine Adv.of_errs (newErrs a s ++ [e]) h.byte_le h.rest_le h.tokens_eq ?_ ?_
  · show s.errStream ++ [e] = _
    rw [h.errs_eq]; simp
  · intro x hx
    rcases List.mem_append.mp hx with hx | hx
    · exact h.errs_win x hx
    · have : x = e := by simpa using hx
      subst this
      rw [he]
      exact ⟨h1.byte_le, h2.byte_le⟩

theorem Adv.addTok {a s : Lexer} (t : Token) (h : Adv a s []) : Adv a (lexer_addTok s t) [t] := by
  refine Adv.of_errs (newErrs a s) h.byte_le h.rest_le ?_ h.errs_eq h.errs_win
  show s.tokens ++ [t] = _
  rw [h.tokens_eq]; simp

theorem Adv.delTok {a s : Lexer} {t : Token} (h : Adv a s [t]) : Adv a (lexer_delTok s) [] := by
  refine Adv.of_errs (newErrs a s) h.byte_le h.rest_le ?_ h.errs_eq h.errs_win
  show s.tokens.dropLast = _
  rw [h.tokens_eq]; simp

theorem Adv.of_fields {a s : Lexer} {ts : List Token} (f : EexprError) (d : Nat) (i : Indent)
    (h : Adv a s ts) : Adv a ⟨s.rest, s.loc, s.tokens, s.errStream, f, d, i⟩ ts :=
  h.congr rfl rfl rfl rfl

/-! ### The loops and helpers of lexer.c only advance -/

theorem whitespaceLoop_adv (P : Params) (c0 : Int) {a : Lexer} (fuel : Nat) :
    ∀ (st : Lexer) (mixed : Bool) (n : Nat) (st' : Lexer) (mixed' : Bool) (n' : Nat),
      whitespaceLoop P c0 fuel st mixed n = some (st', mixed', n') → Adv a st [] →
      Adv a st' [] := by
  induction fuel with
  | zero => intro st mixed n st' mixed' n' h; simp [whitespaceLoop] at h
  | succ fuel ih =>
    intro st mixed n st' mixed' n' h ha
    unfold whitespaceLoop at h
    repeat' first | split at h | dsimp only at h
    · exact ih _ _ _ _ _ _ h (ha.advance _ _)
    · cases h; exact ha

theorem skipSpaceLoop_adv (P : Params) {a : Lexer} (fuel : Nat) :
    ∀ (st : Lexer) (b : Bool) (st' : Lexer) (b' : Bool),
      skipSpaceLoop P fuel st b = some (st', b') → Adv a st [] → Adv a st' [] := by
  induction fuel with
  | zero => intro st b st' b' h; simp [skipSpaceLoop] at h
  | succ fuel ih =>
    intro st b st' b' h ha
    unfold skipSpaceLoop at h
    repeat' first | split at h | dsimp only at h
    · exact ih _ _ _ _ h (ha.advance _ _)
    · cases h; exact ha

theorem symbolLoop_adv (P : Params) {a : Lexer} (fuel : Nat) :
    ∀ (st : Lexer) (len n : Nat) (st' : Lexer) (len' n' : Nat),
      symbolLoop P fuel st len n = some (st', len', n') → Adv a st [] → Adv a st' [] := by
  induction fuel with
  | zero => intro st len n st' len' n' h; simp [symbolLoop] at h
  | succ fuel ih =>
    intro st len n st' len' n' h ha
    unfold symbolLoop at h
    repeat' first | split at h | dsimp only at h
    · exact ih _ _ _ _ _ _ h (ha.advance _ _)
    · cases h; exact ha

theorem checkDigitSepContext_adv (P : Params) (radix : RadixParams) (start : FilelocPoint)
    (b : Bool) {a s1 s : Lexer} (h1 : Adv a s1 []) (h2 : Adv s1 s []) (hs : start = s1.loc) :
    Adv a (checkDigitSepContext P radix start b s) [] := by
  unfold checkDigitSepContext
  dsimp only
  split
  · exact Adv.addErr _ h1 h2 hs
  · exact h1.trans h2

theorem digitLoop_adv (P : Params) (radix : RadixParams) {a : Lexer} (fuel : Nat) :
    ∀ (st : Lexer) (acc : Bigint) (n : Nat) (st' : Lexer) (acc' : Bigint) (n' : Nat),
      digitLoop P radix fuel st acc n = some (st', acc', n') → Adv a st [] → Adv a st' [] := by
  induction fuel with
  | zero => intro st acc n st' acc' n' h; simp [digitLoop] at h
  | succ fuel ih =>
    intro st acc n st' acc' n' h ha
    unfold digitLoop at h
    repeat' first | split at h | dsimp only at h
    · exact ih _ _ _ _ _ _ h (ha.advance _ _)
    · exact ih _ _ _ _ _ _ h
        (checkDigitSepContext_adv P radix _ _ ha ((Adv.refl _).advance _ _) rfl)
    · cases h; exact ha

theorem unclosedCodepointLoop_adv (P : Params) {a : Lexer} (fuel : Nat) :
    ∀ (st st' : Lexer), unclosedCodepointLoop P fuel st = some st' → Adv a st [] →
      Adv a st' [] := by
  induction fuel with
  | zero => intro st st' h; simp [unclosedCodepointLoop] at h
  | succ fuel ih =>
    intro st st' h ha
    unfold unclosedCodepointLoop at h
    repeat' first | split at h | dsimp only at h
    all_goals first
      | (cases h; exact ha.advance _ _)
      | exact ih _ _ h (ha.advance _ _)

theorem stringCharsLoop_adv (P : Params) {a : Lexer} (fuel : Nat) :
    ∀ (st : Lexer) (n : Nat) (st' : Lexer) (n' : Nat),
      stringCharsLoop P fuel st n = some (st', n') → Adv a st [] → Adv a st' [] := by
  induction fuel with
  | zero => intro st n st' n' h; simp [stringCharsLoop] at h
  | succ fuel ih =>
    intro st n st' n' h ha
    unfold stringCharsLoop at h
    repeat' first | split at h | dsimp only at h
    all_goals first
      | (cases h; exact ha)
      | exact ih _ _ _ _ h (ha.advance _ _)

theorem heredocLineLoop_adv (P : Params) {a : Lexer} (fuel : Nat) :
    ∀ (st : Lexer) (n : Nat) (st' : Lexer) (n' : Nat),
      heredocLineLoop P fuel st n = some (st', n') → Adv a st [] → Adv a st' [] := by
  induction fuel with
  | zero => intro st n st' n' h; simp [heredocLineLoop] at h
  | succ fuel ih =>
    intro st n st' n' h ha
    unfold heredocLineLoop at h
    repeat' first | split at h | dsimp only at h
    all_goals first
      | (cases h; exact ha)
      | exact ih _ _ _ _ h (ha.advance _ _)

theorem heredocIndentLoop_adv (P : Params) (ic : Int) {a : Lexer} (fuel : Nat) :
    ∀ (st : Lexer) (n : Nat) (st' : Lexer) (r : Option Nat),
      heredocIndentLoop P ic fuel st n = some (st', r) → Adv a st [] → Adv a st' [] := by
  induction fuel with
  | zero => intro st n st' r h; simp [heredocIndentLoop] at h
  | succ fuel ih =>
    intro st n st' r h ha
    unfold heredocIndentLoop at h
    repeat' first | split at h | dsimp only at h
    all_goals first
      | (cases h; exact ha)
      | (cases h; exact ha.advance _ _)
      | (cases h; exact (ha.advance _ _).advance _ _)
      | exact ih _ _ _ _ h (ha.advance _ _)

theorem heredocSkipIndent_adv (P : Params) (ic : Int) (start : FilelocPoint) {a s1 : Lexer}
    (h1 : Adv a s1 []) (hs : start = s1.loc) (k : Nat) :
    ∀ (i : Nat) (st : Lexer), Adv s1 st [] →
      Adv a (heredocSkipIndent P ic start k i st) [] := by
  induction k with
  | zero => intro i st h2; simpa [heredocSkipIndent] using h1.trans h2
  | succ k ih =>
    intro i st h2
    unfold heredocSkipIndent
    dsimp only
    repeat' split
    · exact ih _ _ (h2.advance _ _)
    · exact Adv.addErr _ h1 h2 hs
    · exact h1.trans h2
    · exact Adv.addErr _ h1 h2 hs

theorem takeHexEscape_adv (P : Params) (nDigits : Nat) (c : Int) (adv : Nat) {a : Lexer}
    (st : Lexer) (cp : Int) (st' : Lexer)
    (h : takeHexEscape P nDigits c adv st = some (cp, st')) (ha : Adv a st []) :
    Adv a st' [] := by
  unfold takeHexEscape at h
  repeat' first | split at h | dsimp only at h
  all_goals first
    | (cases h; done)
    | (cases h
       repeat first
         | assumption
         | exact Adv.refl _
         | apply Adv.advance
         | refine Adv.addErr _ ?_ ?_ rfl)

theorem takeCharEscape_adv (P : Params) {a : Lexer} (st : Lexer) (cp : Int) (st' : Lexer)
    (h : takeCharEscape P st = some (cp, st')) (ha : Adv a st []) : Adv a st' [] := by
  unfold takeCharEscape at h
  repeat' first | split at h | dsimp only at h
  all_goals first
    | (cases h; done)
    | exact takeHexEscape_adv P _ _ _ _ _ _ h ha
    | (cases h
       repeat first
         | assumption
         | exact Adv.refl _
         | apply Adv.advance
         | refine Adv.addErr _ ?_ ?_ rfl)

theorem takeNewline_adv (P : Params) {a : Lexer} (st st' : Lexer)
    (h : takeNewline P st = some (true, st')) (ha : Adv a st []) :
    Adv a st' [⟨⟨st.loc, st'.loc⟩, TokType.unknownNewline, TokData.none⟩] := by
  unfold takeNewline at h
  repeat' first | split at h | dsimp only at h
  all_goals first
    | (cases h; done)
    | (cases h
       first
         | exact (ha.incLine _).addTok _
         | exact ((ha.incLine _).addTok _).congr rfl rfl rfl rfl
         | exact Adv.addErr _ ha (((Adv.refl _).incLine _).addTok _) rfl)

theorem takeNewline_delTok_adv (P : Params) {a : Lexer} (st st' : Lexer)
    (h : takeNewline P st = some (true, st')) (ha : Adv a st []) :
    Adv a (lexer_delTok st') [] :=
  (takeNewline_adv P st st' h ha).delTok

theorem TokOK.of_loc {st st' : Lexer} {ts : List Token} {t : Token} (h : Adv st st' ts)
    (hl : t.loc = ⟨st.loc, st'.loc⟩) (ht : t.type ≠ TokType.eof) : TokOK st st' t := by
  refine ⟨ht, by rw [hl], ?_, ?_, fun _ => by rw [hl]⟩
  · rw [hl]; exact h.byte_le
  · rw [hl]

theorem tok_intro {st st' : Lexer} {t : Token} (h : Adv st st' [t])
    (hl : t.loc = ⟨st.loc, st'.loc⟩) (ht : t.type ≠ TokType.eof) :
    ∃ t, Adv st st' [t] ∧ TokOK st st' t :=
  ⟨t, h, TokOK.of_loc h hl ht⟩

theorem takeNewline_tok (P : Params) (st st' : Lexer)
    (h : takeNewline P st = some (true, st')) : ∃ t, Adv st st' [t] ∧ TokOK st st' t :=
  tok_intro (takeNewline_adv P st st' h (Adv.refl st)) rfl (by intro hh; cases hh)

theorem takeWhitespace_tok (P : Params) (st st' : Lexer)
    (h : takeWhitespace P st = some (true, st')) : ∃ t, Adv st st' [t] ∧ TokOK st st' t := by
  unfold takeWhitespace at h
  repeat' first | split at h | dsimp only at h
  all_goals first
    | (cases h; done)
    | (cases h
       apply tok_intro
       · repeat first
           | assumption
           | exact Adv.refl _
           | apply Adv.addTok
           | refine Adv.addErr _ ?_ ?_ rfl
           | refine whitespaceLoop_adv P _ _ _ _ _ _ _ _ (by assumption) ?_
       · rfl
       · intro hh; cases hh)

theorem takeWhitespace_del_adv (P : Params) {a : Lexer} (st : Lexer) (ws : Bool) (st' : Lexer)
    (h : takeWhitespace P st = some (ws, st')) (hw : ws = true) (ha : Adv a st []) :
    Adv a (lexer_delTok st') [] := by
  subst hw
  obtain ⟨t, h1, _⟩ := takeWhitespace_tok P st st' h
  exact (ha.trans h1).delTok

theorem takeWhitespace_nodel_adv (P : Params) {a : Lexer} (st : Lexer) (ws : Bool)
    (st' : Lexer) (h : takeWhitespace P st = some (ws, st')) (hw : ¬ ws = true)
    (ha : Adv a st []) : Adv a st' [] := by
  have hw' : ws = false := by simpa using hw
  subst hw'
  rw [takeWhitespace_false P st st' h]; exact ha

theorem takeNullEscape_adv (P : Params) {a : Lexer} (st : Lexer) (b : Bool) (st' : Lexer)
    (h : takeNullEscape P st = some (b, st')) (ha : Adv a st []) : Adv a st' [] := by
  unfold takeNullEscape at h
  repeat' first | split at h | dsimp only at h
  all_goals first
    | (cases h; done)
    | (cases h
       repeat first
         | assumption
         | exact Adv.refl _
         | apply Adv.advance
         | refine Adv.addErr _ ?_ ?_ rfl
         | refine takeWhitespace_del_adv P _ _ _ (by assumption) (by assumption) ?_
         | refine takeWhitespace_nodel_adv P _ _ _ (by assumption) (by assumption) ?_
         | refine takeNewline_delTok_adv P _ _ (by assumption) ?_)

theorem badEscapeChar_adv (P : Params) (isDelim : Int → Bool) {a : Lexer} (st : Lexer)
    (ha : Adv a st []) : Adv a (badEscapeChar P isDelim st) [] := by
  unfold badEscapeChar
  dsimp only
  repeat' split
  all_goals
    repeat first
      | assumption
      | exact Adv.refl _
      | apply Adv.advance
      | refine Adv.addErr _ ?_ ?_ rfl

theorem takeStringEscape_adv (P : Params) {a : Lexer} (st : Lexer) (buf : List Byte)
    (more : Bool) (st' : Lexer) (buf' : List Byte) (more' : Bool)
    (h : takeStringEscape P st buf more = some (st', buf', more')) (ha : Adv a st []) :
    Adv a st' [] := by
  unfold takeStringEscape at h
  repeat' first | split at h | dsimp only at h
  all_goals first
    | (cases h; done)
    | (cases h
       repeat first
         | assumption
         | exact Adv.refl _
         | apply Adv.advance
         | apply badEscapeChar_adv
         | refine takeNullEscape_adv P _ _ _ (by assumption) ?_
         | refine takeCharEscape_adv P _ _ _ (by assumption) ?_)

theorem stringBodyLoop_adv (P : Params) {a : Lexer} (fuel : Nat) :
    ∀ (st : Lexer) (buf : List Byte) (st' : Lexer) (buf' : List Byte),
      stringBodyLoop P fuel st buf = some (st', buf') → Adv a st [] → Adv a st' [] := by
  induction fuel with
  | zero => intro st buf st' buf' h; simp [stringBodyLoop] at h
  | succ fuel ih =>
    intro st buf st' buf' h ha
    unfold stringBodyLoop at h
    repeat' first | split at h | dsimp only at h
    all_goals first
      | (cases h; done)
      | (refine ih _ _ _ _ h ?_
         repeat first
           | assumption
           | refine takeStringEscape_adv P _ _ _ _ _ _ (by assumption) ?_
           | refine stringCharsLoop_adv P _ _ _ _ _ (by assumption) ?_)
      | (cases h
         repeat first
           | assumption
           | exact Adv.refl _
           | apply Adv.advance
           | refine Adv.addErr _ ?_ ?_ rfl
           | refine takeStringEscape_adv P _ _ _ _ _ _ (by assumption) ?_
           | refine stringCharsLoop_adv P _ _ _ _ _ (by assumption) ?_)

theorem takeCodepointBody_adv (P : Params) {a : Lexer} (st : Lexer) (cp : Int) (st' : Lexer)
    (h : takeCodepointBody P st = some (cp, st')) (ha : Adv a st []) : Adv a st' [] := by
  unfold takeCodepointBody at h
  repeat' first | split at h | dsimp only at h
  all_goals first
    | (cases h; done)
    | (cases h
       repeat first
         | assumption
         | exact Adv.refl _
         | apply Adv.advance
         | apply badEscapeChar_adv
         | refine Adv.addErr _ ?_ ?_ rfl
         | refine takeCharEscape_adv P _ _ _ (by assumption) ?_)

theorem takeCodepointClose_adv (P : Params) {a : Lexer} (st st' : Lexer)
    (h : takeCodepointClose P st = some st') (ha : Adv a st []) : Adv a st' [] := by
  unfold takeCodepointClose at h
  repeat' first | split at h | dsimp only at h
  all_goals first
    | (cases h; done)
    | (cases h
       repeat first
         | assumption
         | exact Adv.refl _
         | apply Adv.advance
         | refine Adv.addErr _ ?_ ?_ rfl
         | refine unclosedCodepointLoop_adv P _ _ _ (by assumption) ?_)

theorem takeRadix_adv (P : Params) {a : Lexer} (st : Lexer) (r : RadixParams) (st' : Lexer)
    (h : takeRadix P st = some (r, st')) (ha : Adv a st []) : Adv a st' [] := by
  unfold takeRadix at h
  repeat' first | split at h | dsimp only at h
  all_goals first
    | (cases h; done)
    | (cases h
       repeat first
         | assumption
         | apply Adv.advance)

theorem takeNumberSign_adv (P : Params) {a : Lexer} (st : Lexer) (neg : Bool) (st' : Lexer)
    (h : takeNumberSign P st = some (some (neg, st'))) (ha : Adv a st []) : Adv a st' [] := by
  unfold takeNumberSign at h
  repeat' first | split at h | dsimp only at h
  all_goals first
    | (cases h; done)
    | (cases h
       repeat first
         | assumption
         | apply Adv.advance)

theorem takeNumberFraction_adv (P : Params) (radix : RadixParams) {a : Lexer} (st : Lexer)
    (m : Bigint) (st' : Lexer) (m' : Bigint) (n : Nat)
    (h : takeNumberFraction P radix st m = some (st', m', n)) (ha : Adv a st []) :
    Adv a st' [] := by
  unfold takeNumberFraction at h
  repeat' first | split at h | dsimp only at h
  all_goals first
    | (cases h; done)
    | (cases h; assumption)
    | exact digitLoop_adv P radix _ _ _ _ _ _ _ h (ha.advance _ _)

theorem takeExponentSign_adv (P : Params) (fd : Nat) {a : Lexer} (st : Lexer) (b : Bool)
    (st' : Lexer) (h : takeExponentSign P fd st = (b, st')) (ha : Adv a st []) :
    Adv a st' [] := by
  unfold takeExponentSign at h
  repeat' first | split at h | dsimp only at h
  all_goals
    cases h
    repeat first
      | assumption
      | exact Adv.refl _
      | apply Adv.advance
      | refine Adv.addErr _ ?_ ?_ rfl

theorem radixChoice_adv (P : Params) (radix : RadixParams) (c : Bool) {a : Lexer}
    (st : Lexer) (r : RadixParams) (st' : Lexer)
    (h : (if c = true then some (radix, st) else takeRadix P st) = some (r, st'))
    (ha : Adv a st []) : Adv a st' [] := by
  split at h
  · cases h; exact ha
  · exact takeRadix_adv P st r st' h ha

theorem takeNumberExponent_adv (P : Params) (radix : RadixParams) (fd : Nat) {a : Lexer}
    (st : Lexer) (r : ExponentResult) (h : takeNumberExponent P radix fd st = some r)
    (ha : Adv a st []) :
    Adv a (match r with
      | ExponentResult.absent s => s
      | ExponentResult.missing s => s
      | ExponentResult.present s _ _ => s) [] := by
  unfold takeNumberExponent at h
  repeat' first | split at h | dsimp only at h
  all_goals first
    | (cases h; done)
    | (cases h
       dsimp only
       repeat first
         | assumption
         | apply Adv.advance
         | refine digitLoop_adv P _ _ _ _ _ _ _ _ (by assumption) ?_
         | refine radixChoice_adv P _ _ _ _ _ (by assumption) ?_
         | refine takeRadix_adv P _ _ _ (by assumption) ?_
         | refine takeExponentSign_adv P _ _ _ _ (by assumption) ?_)

theorem takeNumberFinish_tok (P : Params) (st0 : Lexer) (neg : Bool) (radix : RadixParams)
    (m : Bigint) (fd : Nat) (st : Lexer) (b : Bool) (st' : Lexer)
    (h : takeNumberFinish P st0.loc neg radix m fd st = some (b, st')) (ha : Adv st0 st []) :
    ∃ t, Adv st0 st' [t] ∧ TokOK st0 st' t := by
  unfold takeNumberFinish at h
  cases he : takeNumberExponent P radix fd st with
  | none => rw [he] at h; cases h
  | some r =>
    have hx := takeNumberExponent_adv P radix fd st r he ha
    rw [he] at h
    cases r <;> dsimp only at h hx <;> cases h <;> apply tok_intro
    all_goals first
      | rfl
      | (intro hh; cases hh)
      | (repeat first
           | assumption
           | apply Adv.addTok
           | refine Adv.addErr _ (Adv.refl _) ?_ rfl)

theorem takeNumber_tok (P : Params) (st st' : Lexer)
    (h : takeNumber P st = some (true, st')) : ∃ t, Adv st st' [t] ∧ TokOK st st' t := by
  unfold takeNumber at h
  repeat' first | split at h | dsimp only at h
  all_goals first
    | cases h
    | (refine takeNumberFinish_tok P st _ _ _ _ _ _ _ h ?_
       repeat first
         | exact Adv.refl _
         | refine takeNumberFraction_adv P _ _ _ _ _ _ (by assumption) ?_
         | refine digitLoop_adv P _ _ _ _ _ _ _ _ (by assumption) ?_
         | refine takeRadix_adv P _ _ _ (by assumption) ?_
         | refine takeNumberSign_adv P _ _ _ (by assumption) ?_)

theorem takeComment_tok (P : Params) (st st' : Lexer)
    (h : takeComment P st = some (true, st')) : ∃ t, Adv st st' [t] ∧ TokOK st st' t := by
  unfold takeComment at h
  repeat' first | split at h | dsimp only at h
  all_goals first
    | (cases h; done)
    | (cases h
       apply tok_intro
       · exact ((Adv.refl _).advance _ _).addTok _
       · rfl
       · intro hh; cases hh)
    | (cases h
       refine ⟨_, ((((Adv.refl _).advance _ _).addTok _).advance _ _).congr rfl rfl rfl rfl,
         ?_, rfl, ?_, ?_, ?_⟩
       · intro hh; cases hh
       · simp [lexer_advance]
       · simp [lexer_advance, lexer_addTok]
       · intro hh; cases hh)

theorem takeSymbol_tok (P : Params) (st st' : Lexer)
    (h : takeSymbol P st = some (true, st')) : ∃ t, Adv st st' [t] ∧ TokOK st st' t := by
  unfold takeSymbol at h
  repeat' first | split at h | dsimp only at h
  all_goals first
    | (cases h; done)
    | (cases h
       apply tok_intro
       · repeat first
           | exact Adv.refl _
           | apply Adv.addTok
           | refine symbolLoop_adv P _ _ _ _ _ _ _ (by assumption) ?_
       · rfl
       · intro hh; cases hh)

theorem takeString_tok (P : Params) (st st' : Lexer)
    (h : takeString P st = some (true, st')) : ∃ t, Adv st st' [t] ∧ TokOK st st' t := by
  unfold takeString at h
  repeat' first | split at h | dsimp only at h
  all_goals first
    | (cases h; done)
    | (cases h
       apply tok_intro
       · repeat first
           | exact Adv.refl _
           | apply Adv.addTok
           | apply Adv.advance
           | refine Adv.addErr _ ?_ (Adv.refl _) rfl
           | refine stringBodyLoop_adv P _ _ _ _ _ (by assumption) ?_
       · rfl
       · intro hh; cases hh)

theorem takeSplitter_tok (P : Params) (st st' : Lexer)
    (h : takeSplitter P st = some (true, st')) : ∃ t, Adv st st' [t] ∧ TokOK st st' t := by
  unfold takeSplitter at h
  repeat' first | split at h | dsimp only at h
  all_goals first
    | (cases h; done)
    | (cases h
       apply tok_intro
       · exact ((Adv.refl _).advance _ _).addTok _
       · rfl
       · intro hh; cases hh)

theorem takeWrap_tok (P : Params) (st st' : Lexer)
    (h : takeWrap P st = some (true, st')) : ∃ t, Adv st st' [t] ∧ TokOK st st' t := by
  unfold takeWrap at h
  repeat' first | split at h | dsimp only at h
  all_goals first
    | (cases h; done)
    | (cases h
       apply tok_intro
       · exact ((Adv.refl _).advance _ _).addTok _
       · rfl
       · intro hh; cases hh)

theorem takeNewline_del_adv (P : Params) {a : Lexer} (st : Lexer) (nl : Bool) (st' : Lexer)
    (h : takeNewline P st = some (nl, st')) (hn : nl = true) (ha : Adv a st []) :
    Adv a (lexer_delTok st') [] := by
  subst hn
  exact takeNewline_delTok_adv P st st' h ha

theorem takeNewline_nodel_adv (P : Params) {a : Lexer} (st : Lexer) (nl : Bool) (st' : Lexer)
    (h : takeNewline P st = some (nl, st')) (hn : ¬ nl = true) (ha : Adv a st []) :
    Adv a st' [] := by
  have hn' : nl = false := by simpa using hn
  subst hn'
  rw [takeNewline_false P st st' h]; exact ha

theorem heredocFail_tok (st0 st : Lexer) (kind : ErrType) (b : Bool) (st' : Lexer)
    (h : some (heredocFail st0 st kind) = some (b, st')) (ha : Adv st0 st []) :
    ∃ t, Adv st0 st' [t] ∧ TokOK st0 st' t := by
  unfold heredocFail at h
  cases h
  apply tok_intro
  · exact (ha.addTok _).congr rfl rfl rfl rfl
  · rfl
  · intro hh; cases hh

theorem heredocLinesLoop_tok (P : Params) (st0 : Lexer) (ender : List Byte) (n : Nat)
    (ic : Int) (inc : Nat) (fuel : Nat) :
    ∀ (st : Lexer) (text : List Byte) (b : Bool) (st' : Lexer),
      heredocLinesLoop P st0 ender n ic inc fuel st text = some (b, st') → Adv st0 st [] →
      ∃ t, Adv st0 st' [t] ∧ TokOK st0 st' t := by
  induction fuel with
  | zero => intro st text b st' h; simp [heredocLinesLoop] at h
  | succ fuel ih =>
    intro st text b st' h ha
    unfold heredocLinesLoop at h
    repeat' first | split at h | dsimp only at h
    all_goals first
      | (cases h; done)
      | (with_reducible refine heredocFail_tok _ _ _ _ _ h ?_
         repeat first
           | assumption
           | refine takeNewline_nodel_adv P _ _ _ (by assumption) (by simp) ?_
           | refine heredocLineLoop_adv P _ _ _ _ _ (by assumption) ?_)
      | (with_reducible refine ih _ _ _ _ h ?_
         repeat first
           | assumption
           | exact Adv.refl _
           | refine heredocSkipIndent_adv P _ _ ?_ rfl _ _ _ (Adv.refl _)
           | refine takeNewline_del_adv P _ _ _ (by assumption) rfl ?_
           | refine heredocLineLoop_adv P _ _ _ _ _ (by assumption) ?_)
      | (cases h
         apply tok_intro
         · repeat first
             | assumption
             | exact Adv.refl _
             | apply Adv.addTok
             | with_reducible apply Adv.advance
             | refine heredocSkipIndent_adv P _ _ ?_ rfl _ _ _ (Adv.refl _)
             | refine takeNewline_del_adv P _ _ _ (by assumption) rfl ?_
             | refine heredocLineLoop_adv P _ _ _ _ _ (by assumption) ?_
         · rfl
         · intro hh; cases hh)

theorem heredocIndentDef_adv (P : Params) {a : Lexer} (st st' : Lexer)
    (r : Option (Int × Nat)) (h : heredocIndentDef P st = some (st', r)) (ha : Adv a st []) :
    Adv a st' [] := by
  unfold heredocIndentDef at h
  repeat' first | split at h | dsimp only at h
  all_goals first
    | (cases h; done)
    | (cases h
       repeat first
         | assumption
         | exact Adv.refl _
         | with_reducible apply Adv.advance
         | with_reducible refine Adv.addErr _ ?_ ?_ rfl
         | refine heredocIndentLoop_adv P _ _ _ _ _ _ (by assumption) ?_
         | with_reducible apply Adv.of_fields)

theorem heredocIndentFlag_adv (P : Params) {a : Lexer} (st st' : Lexer) (b : Bool)
    (h : heredocIndentFlag P st = some (st', b)) (ha : Adv a st []) : Adv a st' [] := by
  unfold heredocIndentFlag at h
  repeat' first | split at h | dsimp only at h
  all_goals first
    | (cases h; done)
    | (cases h
       repeat first
         | assumption
         | exact Adv.refl _
         | with_reducible apply Adv.advance
         | with_reducible refine Adv.addErr _ ?_ ?_ rfl
         | refine skipSpaceLoop_adv P _ _ _ _ _ (by assumption) ?_)

theorem takeHeredoc_tok (P : Params) (st st' : Lexer)
    (h : takeHeredoc P st = some (true, st')) : ∃ t, Adv st st' [t] ∧ TokOK st st' t := by
  unfold takeHeredoc at h
  repeat' first | split at h | dsimp only at h
  all_goals first
    | (cases h; done)
    | (with_reducible refine heredocFail_tok _ _ _ _ _ h ?_
       repeat first
         | exact Adv.refl _
         | with_reducible apply Adv.advance
         | with_reducible refine heredocIndentDef_adv P _ _ _ (by with_reducible assumption) ?_
         | with_reducible refine takeNewline_del_adv P _ _ _ (by with_reducible assumption) (by with_reducible assumption) ?_
         | with_reducible refine takeNewline_nodel_adv P _ _ _ (by with_reducible assumption) (by with_reducible assumption) ?_
         | with_reducible refine heredocIndentFlag_adv P _ _ _ (by with_reducible assumption) ?_
         | with_reducible refine symbolLoop_adv P _ _ _ _ _ _ _ (by with_reducible assumption) ?_
         | split
         | with_reducible apply Adv.of_fields)
    | (with_reducible refine heredocLinesLoop_tok P st _ _ _ _ _ _ _ _ _ h ?_
       repeat first
         | exact Adv.refl _
         | with_reducible apply Adv.advance
         | with_reducible refine heredocIndentDef_adv P _ _ _ (by with_reducible assumption) ?_
         | with_reducible refine takeNewline_del_adv P _ _ _ (by with_reducible assumption) (by with_reducible assumption) ?_
         | with_reducible refine takeNewline_nodel_adv P _ _ _ (by with_reducible assumption) (by with_reducible assumption) ?_
         | with_reducible refine heredocIndentFlag_adv P _ _ _ (by with_reducible assumption) ?_
         | with_reducible refine symbolLoop_adv P _ _ _ _ _ _ _ (by with_reducible assumption) ?_
         | split
         | with_reducible apply Adv.of_fields)

/-! ### Errors appended by a call -/

theorem newErrs_addErr {a s : Lexer} {ts : List Token} (e : EexprError) (h : Adv a s ts) :
    newErrs a (lexer_addErr s e) = newErrs a s ++ [e] := by
  apply newErrs_of_eq
  show s.errStream ++ [e] = _
  rw [h.errs_eq]; simp

theorem mem_newErrs_addErr {a s : Lexer} {ts : List Token} (e : EexprError) (h : Adv a s ts) :
    e ∈ newErrs a (lexer_addErr s e) := by
  rw [newErrs_addErr e h]; simp

theorem newErrs_mem_left {a b c : Lexer} {ts1 ts2 : List Token} {e : EexprError}
    (h1 : Adv a b ts1) (h2 : Adv b c ts2) (he : e ∈ newErrs a b) : e ∈ newErrs a c := by
  rw [newErrs_trans h1 h2]; exact List.mem_append_left _ he

theorem newErrs_mem_right {a b c : Lexer} {ts1 ts2 : List Token} {e : EexprError}
    (h1 : Adv a b ts1) (h2 : Adv b c ts2) (he : e ∈ newErrs b c) : e ∈ newErrs a c := by
  rw [newErrs_trans h1 h2]; exact List.mem_append_right _ he

theorem step_of_err {P : Params} {st s : Lexer} {e : EexprError} (hA : Adv st s [])
    (hl : e.loc = ⟨st.loc, s.loc⟩) : Step P st (lexer_addErr s e) := by
  refine Or.inr ⟨Adv.addErr e (Adv.refl _) hA (by rw [hl]), fun _ => ⟨e, ?_, Or.inl hl⟩⟩
  rw [newErrs_addErr _ hA]
  simp

theorem takeUnexpected_step (P : Params) (st : Lexer) (b : Bool) (st' : Lexer)
    (h : takeUnexpected P st = some (b, st')) : b = true ∧ Step P st st' := by
  unfold takeUnexpected at h
  repeat' first | split at h | dsimp only at h
  all_goals
    cases h
    exact ⟨rfl, step_of_err ((Adv.refl _).advance _ _) rfl⟩

theorem takeEof_step (P : Params) (st st' : Lexer) (h : takeEof P st = some (true, st')) :
    st' = lexer_addTok st ⟨⟨st.loc, st.loc⟩, TokType.eof, TokData.none⟩ := by
  unfold takeEof at h
  repeat' first | split at h | dsimp only at h
  all_goals first | (cases h; done) | (cases h; rfl)

theorem takeLineContinue_step (P : Params) (st st' : Lexer)
    (h : takeLineContinue P st = some (true, st')) : Step P st st' := by
  unfold takeLineContinue at h
  repeat' first | split at h | dsimp only at h
  all_goals first
    | (cases h; done)
    | (cases h
       refine Or.inl ?_
       apply tok_intro
       · repeat first
           | exact Adv.refl _
           | with_reducible apply Adv.addTok
           | with_reducible apply Adv.advance
           | with_reducible refine Adv.addErr _ ?_ ?_ rfl
           | with_reducible refine takeNewline_del_adv P _ _ _ (by assumption) rfl ?_
           | with_reducible refine skipSpaceLoop_adv P _ _ _ _ _ (by assumption) ?_
           | split
       · rfl
       · intro hh; cases hh)
    | (cases h
       apply step_of_err
       · repeat first
           | exact Adv.refl _
           | with_reducible apply Adv.advance
           | with_reducible refine Adv.addErr _ ?_ ?_ rfl
           | with_reducible refine takeNewline_nodel_adv P _ _ _ (by assumption) (by simp) ?_
           | with_reducible refine skipSpaceLoop_adv P _ _ _ _ _ (by assumption) ?_
           | split
       · rfl)

/-! ### A codepoint literal without a token has reported an error -/

theorem findCommonEscape_mem (N c : Int) (l : List (Int × Int)) (d : Int)
    (h : findCommonEscape N c l = some d) : ∃ p ∈ l, p.2 = d := by
  induction l with
  | nil => simp [findCommonEscape] at h
  | cons p l ih =>
    obtain ⟨s, d'⟩ := p
    unfold findCommonEscape at h
    split at h
    · cases h
    · split at h
      · cases h; exact ⟨_, List.mem_cons_self _ _, rfl⟩
      · obtain ⟨p, hp, hd⟩ := ih h
        exact ⟨p, List.mem_cons_of_mem _ hp, hd⟩

theorem decodeUnihex_nonneg (n : Nat) (digits : List Int) (v : Int)
    (h : decodeUnihex n digits = some v) : 0 ≤ v := by
  unfold decodeUnihex at h
  split at h
  · cases h
  · cases h; exact Int.natCast_nonneg _

theorem takeHexEscape_nonneg (P : Params) (n : Nat) (c : Int) (adv : Nat) (st : Lexer)
    (cp : Int) (st' : Lexer) (h : takeHexEscape P n c adv st = some (cp, st')) (hc : 0 ≤ c) :
    0 ≤ cp := by
  unfold takeHexEscape at h
  repeat' first | split at h | dsimp only at h
  all_goals first
    | (cases h; done)
    | (cases h; exact decodeUnihex_nonneg _ _ _ (by assumption))
    | (cases h; exact hc)

theorem takeCharEscape_nonneg (P : Params) (hP : P.CodepointsNonneg) (st : Lexer) (cp : Int)
    (st' : Lexer) (h : takeCharEscape P st = some (cp, st')) : 0 ≤ cp ∨ cp = P.UCHAR_NULL := by
  obtain ⟨_, hesc, h2, h4, h6⟩ := hP
  unfold takeCharEscape at h
  repeat' first | split at h | dsimp only at h
  · cases h
    rename_i hf
    obtain ⟨p, hp, hd⟩ := findCommonEscape_mem _ _ _ _ hf
    rw [← hd]; exact hesc p hp
  · rename_i hc
    exact Or.inl (takeHexEscape_nonneg P _ _ _ _ _ _ h (by rw [hc]; exact h2))
  · rename_i hc
    exact Or.inl (takeHexEscape_nonneg P _ _ _ _ _ _ h (by rw [hc]; exact h4))
  · rename_i hc
    exact Or.inl (takeHexEscape_nonneg P _ _ _ _ _ _ h (by rw [hc]; exact h6))
  · cases h; exact Or.inr rfl

theorem badEscapeChar_mem (P : Params) (isDelim : Int → Bool) (st : Lexer) :
    ∃ e ∈ newErrs st (badEscapeChar P isDelim st), e.type = ErrType.badEscapeChar := by
  unfold badEscapeChar
  dsimp only
  repeat' split
  · exact ⟨_, mem_newErrs_addErr _ (Adv.refl st), rfl⟩
  · exact ⟨_, mem_newErrs_addErr _ ((Adv.refl st).advance _ _), rfl⟩
  · exact ⟨_, mem_newErrs_addErr _ (Adv.refl st), rfl⟩

theorem takeCodepointBody_rejected (P : Params) (hP : P.CodepointsNonneg) (st : Lexer)
    (cp : Int) (st' : Lexer) (h : takeCodepointBody P st = some (cp, st')) (hneg : cp < 0) :
    ∃ e ∈ newErrs st st', e.type ∈ rejectedKinds := by
  unfold takeCodepointBody at h
  split at h
  rename_i c adv hpeek
  split at h
  · rename_i hs
    cases h
    have := hP.1 _ hs
    omega
  · split at h
    · cases hc : takeCharEscape P (lexer_advance st adv 1) with
      | none => rw [hc] at h; cases h
      | some r =>
        obtain ⟨cp1, st1⟩ := r
        rw [hc] at h
        dsimp only at h
        have hA1 : Adv st st1 [] := takeCharEscape_adv P _ _ _ hc ((Adv.refl _).advance _ _)
        split at h
        · cases h
          obtain ⟨e, he, hk⟩ := badEscapeChar_mem P P.isCodepointDelim st1
          exact ⟨e, newErrs_mem_right hA1 (badEscapeChar_adv P _ st1 (Adv.refl _)) he,
            by rw [hk]; simp [rejectedKinds]⟩
        · rename_i hnn
          cases h
          rcases takeCharEscape_nonneg P hP _ _ _ hc with h0 | h0
          · omega
          · exact absurd h0 hnn
    · dsimp only at h
      cases h
      refine ⟨_, mem_newErrs_addErr _
        (by split <;> first | exact (Adv.refl _).advance _ _ | exact Adv.refl _), ?_⟩
      show ErrType.badCodepoint ∈ rejectedKinds
      simp [rejectedKinds]

theorem takeCodepoint_step (P : Params) (st st' : Lexer)
    (h : takeCodepoint P st = some (true, st')) : Step P st st' := by
  unfold takeCodepoint at h
  split at h
  rename_i la adv hpeek
  split at h
  · cases h
  · cases hb : takeCodepointBody P (lexer_advance st adv 1) with
    | none => rw [hb] at h; cases h
    | some r =>
      obtain ⟨cp, st1⟩ := r
      rw [hb] at h
      dsimp only at h
      cases hc : takeCodepointClose P st1 with
      | none => rw [hc] at h; cases h
      | some st2 =>
        rw [hc] at h
        dsimp only at h
        have hB : Adv (lexer_advance st adv 1) st1 [] :=
          takeCodepointBody_adv P _ _ _ hb (Adv.refl _)
        have hA0 : Adv st (lexer_advance st adv 1) [] := (Adv.refl _).advance _ _
        have hA1 : Adv st st1 [] := hA0.trans hB
        have hC : Adv st1 st2 [] := takeCodepointClose_adv P _ _ hc (Adv.refl _)
        have hA2 : Adv st st2 [] := hA1.trans hC
        by_cases hov : cp > 0x10FFFF
        · simp only [hov, if_true] at h
          split at h
          · cases h
            refine Or.inl ?_
            apply tok_intro
            · exact (Adv.addErr _ (Adv.refl _) hA2 rfl).addTok _
            · rfl
            · intro hh; cases hh
          · cases h
            refine Or.inr ⟨Adv.addErr _ (Adv.refl _) hA2 rfl,
              fun _ => ⟨_, mem_newErrs_addErr _ hA2, Or.inr ?_⟩⟩
            show ErrType.unicodeOverflow ∈ rejectedKinds
            simp [rejectedKinds]
        · simp only [hov, if_false] at h
          split at h
          · cases h
            refine Or.inl ?_
            apply tok_intro
            · exact hA2.addTok _
            · rfl
            · intro hh; cases hh
          · rename_i hcp
            cases h
            refine Or.inr ⟨hA2, fun hP => ?_⟩
            have hneg : cp < 0 := by omega
            obtain ⟨e, he, hk⟩ := takeCodepointBody_rejected P hP _ _ _ hb hneg
            exact ⟨e, newErrs_mem_left hA1 hC (newErrs_mem_right hA0 hB he), Or.inr hk⟩

/-! ### The dispatch loop -/

theorem firstOf_step (P : Params) (fs : List (Lexer → Option (Bool × Lexer)))
    (hfs : ∀ f ∈ fs, ∀ st s, (f st = some (true, s) → Step P st s) ∧
      (f st = some (false, s) → s = st)) :
    ∀ (st : Lexer) (b : Bool) (st' : Lexer), firstOf fs st = some (b, st') →
      (b = true ∧ Step P st st') ∨ (b = false ∧ st' = st) := by
  induction fs with
  | nil =>
    intro st b st' h
    simp only [firstOf, Option.some.injEq, Prod.mk.injEq] at h
    exact Or.inr ⟨h.1.symm, h.2.symm⟩
  | cons f fs ih =>
    intro st b st' h
    have hf := hfs f (List.mem_cons_self _ _)
    have ih' := ih (fun g hg => hfs g (List.mem_cons_of_mem _ hg))
    unfold firstOf at h
    split at h
    · cases h
    · rename_i s hs
      cases h
      exact Or.inl ⟨rfl, (hf st _).1 hs⟩
    · rename_i s hs
      have := (hf st s).2 hs
      subst this
      exact ih' _ _ _ h

theorem recognizers_step (P : Params) :
    ∀ f ∈ recognizers P, ∀ st s, (f st = some (true, s) → Step P st s) ∧
      (f st = some (false, s) → s = st) := by
  intro f hf st s
  simp only [recognizers, List.mem_cons, List.mem_singleton, List.not_mem_nil, or_false] at hf
  rcases hf with rfl | rfl | rfl | rfl | rfl | rfl | rfl | rfl | rfl | rfl | rfl
  · exact ⟨fun h => Or.inl (takeWhitespace_tok P st s h), takeWhitespace_false P st s⟩
  · exact ⟨fun h => Or.inl (takeNewline_tok P st s h), takeNewline_false P st s⟩
  · exact ⟨fun h => Or.inl (takeComment_tok P st s h), takeComment_false P st s⟩
  · exact ⟨fun h => Or.inl (takeSymbol_tok P st s h), takeSymbol_false P st s⟩
  · exact ⟨fun h => Or.inl (takeNumber_tok P st s h), takeNumber_false P st s⟩
  · exact ⟨fun h => Or.inl (takeHeredoc_tok P st s h), takeHeredoc_false P st s⟩
  · exact ⟨fun h => Or.inl (takeString_tok P st s h), takeString_false P st s⟩
  · exact ⟨takeCodepoint_step P st s, takeCodepoint_false P st s⟩
  · exact ⟨fun h => Or.inl (takeSplitter_tok P st s h), takeSplitter_false P st s⟩
  · exact ⟨fun h => Or.inl (takeWrap_tok P st s h), takeWrap_false P st s⟩
  · exact ⟨takeLineContinue_step P st s, takeLineContinue_false P st s⟩

theorem takeEof_peek (P : Params) (st st' : Lexer) (h : takeEof P st = some (true, st')) :
    (st.peek P).1 = P.UCHAR_NULL := by
  unfold takeEof at h
  split at h
  · cases h
  · rename_i hp
    exact not_not.mp hp

/-- The induction principle of the dispatch loop: a property of the lexer state that every
recognizer call which returns true preserves holds, when `lexer_raw` returns, of the final
state if a fatal is set, and otherwise of the state to which `takeEof` added the EOF
token. -/
theorem lexer_rawLoop_inv (P : Params) (Inv : Lexer → Prop)
    (hstep : ∀ st s, Inv st → st.fatal.type = ErrType.noError → Step P st s → Inv s)
    (fuel : Nat) :
    ∀ st st', lexer_rawLoop P fuel st = some st' → Inv st →
      (st'.fatal.type ≠ ErrType.noError ∧ Inv st') ∨
      (∃ s, Inv s ∧ s.fatal.type = ErrType.noError ∧ (s.peek P).1 = P.UCHAR_NULL ∧
        st' = lexer_addTok s ⟨⟨s.loc, s.loc⟩, TokType.eof, TokData.none⟩) := by
  induction fuel with
  | zero => intro st st' h; simp [lexer_rawLoop] at h
  | succ fuel ih =>
    intro st st' h hI
    unfold lexer_rawLoop at h
    split at h
    · rename_i hf
      cases h
      exact Or.inl ⟨hf, hI⟩
    · rename_i hf
      have hf' : st.fatal.type = ErrType.noError := not_not.mp hf
      cases h1 : firstOf (recognizers P) st with
      | none => rw [h1] at h; cases h
      | some r =>
        obtain ⟨b, st1⟩ := r
        rw [h1] at h
        rcases firstOf_step P _ (recognizers_step P) st b st1 h1 with ⟨hb, hs⟩ | ⟨hb, hs⟩
        · subst hb
          exact ih _ _ h (hstep _ _ hI hf' hs)
        · subst hb
          subst hs
          dsimp only at h
          cases h2 : takeEof P st1 with
          | none => rw [h2] at h; cases h
          | some r2 =>
            obtain ⟨b2, st2⟩ := r2
            rw [h2] at h
            cases b2 with
            | true =>
              cases h
              exact Or.inr ⟨st1, hI, hf', takeEof_peek P _ _ h2, takeEof_step P _ _ h2⟩
            | false =>
              have := takeEof_false P _ _ h2
              subst this
              dsimp only at h
              cases h3 : takeUnexpected P st2 with
              | none => rw [h3] at h; cases h
              | some r3 =>
                obtain ⟨b3, st3⟩ := r3
                obtain ⟨hb3, hs3⟩ := takeUnexpected_step P _ _ _ h3
                subst hb3
                rw [h3] at h
                exact ih _ _ h (hstep _ _ hI hf' hs3)

/-! ### Claims on the output of `lexer_raw` -/

/-- C14: when `lexer_raw` returns, the token list holds exactly one EOF token, its last
token, if no fatal is set; and it holds no EOF token at all if a fatal is set. The dispatch
loop is taken with any bound `fuel` on its iterations; `lexer_raw` is the loop with the
bound `input.length + 2`. -/
theorem lexer_raw_eof_token (P : Params) (input : List Byte) (fuel : Nat)
    (st' : Lexer) (h : lexer_rawLoop P fuel (lexer_init P input) = some st') :
    (st'.fatal.type = ErrType.noError →
      ∃ pre last, st'.tokens = pre ++ [last] ∧ last.type = TokType.eof ∧
        ∀ t ∈ pre, t.type ≠ TokType.eof) ∧
    (st'.fatal.type ≠ ErrType.noError → ∀ t ∈ st'.tokens, t.type ≠ TokType.eof) := by
  have key := lexer_rawLoop_inv P (fun s => ∀ t ∈ s.tokens, t.type ≠ TokType.eof)
    (by
      intro st s hI _ hs t ht
      rcases hs with ⟨t', hA, hT⟩ | ⟨hA, _⟩
      · rw [hA.tokens_eq] at ht
        rcases List.mem_append.mp ht with ht | ht
        · exact hI t ht
        · have : t = t' := by simpa using ht
          rw [this]; exact hT.1
      · rw [hA.tokens_eq] at ht
        exact hI t (by simpa using ht))
    _ _ _ h (by intro t ht; simp [lexer_init] at ht)
  rcases key with ⟨hf, hI⟩ | ⟨s, hI, hf, _, rfl⟩
  · exact ⟨fun h0 => absurd h0 hf, fun _ => hI⟩
  · exact ⟨fun _ => ⟨s.tokens, _, rfl, rfl, hI⟩, fun h0 => absurd hf h0⟩

/-- Witness of C14: lexing `1__2` ends without a fatal; the token list is the Number token
followed by the EOF token. -/
theorem lexer_raw_eof_token_witness :
    lexer_raw specParams (lexer_init specParams input_1__2) = some output_1__2 ∧
    output_1__2.fatal.type = ErrType.noError ∧
    ((output_1__2.fatal.type = ErrType.noError →
      ∃ pre last, output_1__2.tokens = pre ++ [last] ∧ last.type = TokType.eof ∧
        ∀ t ∈ pre, t.type ≠ TokType.eof) ∧
    (output_1__2.fatal.type ≠ ErrType.noError →
      ∀ t ∈ output_1__2.tokens, t.type ≠ TokType.eof)) :=
  ⟨rfl, rfl, lexer_raw_eof_token specParams input_1__2 (input_1__2.length + 2) output_1__2 rfl⟩

/-- C16: in the token list `lexer_raw` produces, every token starts at a byte offset at most
the offset it ends at, and every token ends at a byte offset at most the offset at which
the token emitted after it starts. The dispatch loop is taken with any bound `fuel` on its
iterations; `lexer_raw` is the loop with the bound `input.length + 2`. -/
theorem lexer_raw_token_offsets (P : Params) (input : List Byte) (fuel : Nat)
    (st' : Lexer) (h : lexer_rawLoop P fuel (lexer_init P input) = some st') :
    (∀ t ∈ st'.tokens, t.loc.start.byte ≤ t.loc.stop.byte) ∧
    st'.tokens.Chain' (fun a b => a.loc.stop.byte ≤ b.loc.start.byte) := by
  have key := lexer_rawLoop_inv P
    (fun s => (∀ t ∈ s.tokens, t.loc.start.byte ≤ t.loc.stop.byte ∧
        t.loc.stop.byte ≤ s.loc.byte) ∧
      s.tokens.Chain' (fun a b => a.loc.stop.byte ≤ b.loc.start.byte))
    (by
      intro st s hI _ hs
      obtain ⟨hI1, hI2⟩ := hI
      rcases hs with ⟨t', hA, hT⟩ | ⟨hA, _⟩
      · obtain ⟨_, hst, hle1, hle2, _⟩ := hT
        have hb := hA.byte_le
        refine ⟨?_, ?_⟩
        · intro t ht
          rw [hA.tokens_eq] at ht
          rcases List.mem_append.mp ht with ht | ht
          · have := hI1 t ht; omega
          · have : t = t' := by simpa using ht
            subst this
            rw [hst]; omega
        · rw [hA.tokens_eq]
          refine List.Chain'.append hI2 (List.chain'_singleton _) ?_
          intro x hx y hy
          have hy' : y = t' := by simpa using hy.symm
          subst hy'
          have := hI1 x (List.mem_of_mem_getLast? hx)
          rw [hst]; omega
      · have hb := hA.byte_le
        have ht : s.tokens = st.tokens := by simpa using hA.tokens_eq
        rw [ht]
        exact ⟨fun t ht => by have := hI1 t ht; omega, hI2⟩)
    _ _ _ h (by simp [lexer_init])
  rcases key with ⟨_, hI1, hI2⟩ | ⟨s, ⟨hI1, hI2⟩, _, _, rfl⟩
  · exact ⟨fun t ht => (hI1 t ht).1, hI2⟩
  · refine ⟨?_, ?_⟩
    · intro t ht
      rcases List.mem_append.mp ht with ht | ht
      · exact (hI1 t ht).1
      · rw [List.mem_singleton.mp ht]
    · refine List.Chain'.append hI2 (List.chain'_singleton _) ?_
      intro x hx y hy
      have hy' : (⟨⟨s.loc, s.loc⟩, TokType.eof, TokData.none⟩ : Token) = y := by
        simpa using hy
      rw [← hy']
      exact (hI1 x (List.mem_of_mem_getLast? hx)).2

/-- Witness of C16: lexing `a`, 0x01, `abc` returns; its tokens span the bytes 0 to 1, 2 to 5
and 5 to 5. -/
theorem lexer_raw_token_offsets_witness :
    lexer_raw specParams (lexer_init specParams input_sym_ctrl_sym)
      = some output_sym_ctrl_sym ∧
    output_sym_ctrl_sym.tokens.map (fun t => (t.loc.start.byte, t.loc.stop.byte))
      = [(0, 1), (2, 5), (5, 5)] ∧
    ((∀ t ∈ output_sym_ctrl_sym.tokens, t.loc.start.byte ≤ t.loc.stop.byte) ∧
      output_sym_ctrl_sym.tokens.Chain' (fun a b => a.loc.stop.byte ≤ b.loc.start.byte)) :=
  ⟨rfl, rfl, lexer_raw_token_offsets specParams input_sym_ctrl_sym (input_sym_ctrl_sym.length + 2)
      output_sym_ctrl_sym rfl⟩

theorem specParams_codepointsNonneg : specParams.CodepointsNonneg := by
  refine ⟨?_, by decide, by decide, by decide, by decide⟩
  intro c hc
  simp only [specParams, decide_eq_true_eq] at hc
  omega

/-- Counterexample to C15 as stated: lexing `a`, 0x01, `abc` gives the Symbol token of
bytes 0 to 1 and then the Symbol token of bytes 2 to 5. The first ends at byte 1, column
2, the second starts at byte 2, column 3: `takeUnexpected` consumed the control character
between them and emitted an error, not a token. -/
theorem lexer_raw_gap_between_tokens :
    lexer_raw specParams (lexer_init specParams input_sym_ctrl_sym)
      = some output_sym_ctrl_sym ∧
    ¬ output_sym_ctrl_sym.tokens.Chain' (fun a b => a.loc.stop = b.loc.start) := by
  refine ⟨rfl, fun hc => ?_⟩
  have hc' : List.Chain' (fun a b : Token => a.loc.stop = b.loc.start)
      (⟨⟨⟨0, 1, 1⟩, ⟨1, 1, 2⟩⟩, TokType.symbol, TokData.symbol [0x61]⟩ ::
        ⟨⟨⟨2, 1, 3⟩, ⟨5, 1, 6⟩⟩, TokType.symbol, TokData.symbol [0x61, 0x62, 0x63]⟩ ::
        [⟨⟨⟨5, 1, 6⟩, ⟨5, 1, 6⟩⟩, TokType.eof, TokData.none⟩]) := hc
  have h1 := List.Chain'.rel_head hc'
  simp at h1

/-- C15, amended: in the token list `lexer_raw` produces, each token ends at the location
at which the next token starts, or an error of the error list starts in the gap between the
two (at or after the byte offset at which the first ends, at or before the byte offset at
which the second starts). This holds in every parameter set without negative string
characters, escape results and escape leaders, for the dispatch loop with any bound `fuel`
on its iterations (`lexer_raw` is the loop with the bound `input.length + 2`). -/
theorem lexer_raw_tokens_adjacent (P : Params) (hP : P.CodepointsNonneg) (input : List Byte)
    (fuel : Nat) (st' : Lexer)
    (h : lexer_rawLoop P fuel (lexer_init P input) = some st') :
    st'.tokens.Chain' (adjacentOrError st'.errStream) := by
  have mono : ∀ (es es' : List EexprError) (a b : Token), adjacentOrError es a b →
      adjacentOrError (es ++ es') a b := by
    intro es es' a b hab
    rcases hab with hab | ⟨e, he, h1, h2⟩
    · exact Or.inl hab
    · exact Or.inr ⟨e, List.mem_append_left _ he, h1, h2⟩
  have key := lexer_rawLoop_inv P
    (fun s => s.tokens.Chain' (adjacentOrError s.errStream) ∧
      (s.fatal.type = ErrType.noError → ∀ t ∈ s.tokens.getLast?,
        t.loc.stop = s.loc ∨ ∃ e ∈ s.errStream,
          t.loc.stop.byte ≤ e.loc.start.byte ∧ e.loc.start.byte ≤ s.loc.byte))
    (by
      intro st s hI hf hs
      obtain ⟨hI1, hI2⟩ := hI
      have hI2 := hI2 hf
      rcases hs with ⟨t', hA, hT⟩ | ⟨hA, hE⟩
      · obtain ⟨_, hst, _, _, hstop⟩ := hT
        have hch : st.tokens.Chain' (adjacentOrError s.errStream) := by
          rw [hA.errs_eq]
          exact hI1.imp (fun a b hab => mono _ _ a b hab)
        refine ⟨?_, ?_⟩
        · rw [hA.tokens_eq]
          refine List.Chain'.append hch (List.chain'_singleton _) ?_
          intro x hx y hy
          have hy' : t' = y := by simpa using hy
          subst hy'
          rcases hI2 x hx with hx' | ⟨e, he, h1, h2⟩
          · exact Or.inl (by rw [hx', hst])
          · refine Or.inr ⟨e, ?_, h1, by rw [hst]; exact h2⟩
            rw [hA.errs_eq]; exact List.mem_append_left _ he
        · intro hf' t ht
          rw [hA.tokens_eq, List.getLast?_append_of_ne_nil _ (by simp)] at ht
          have ht' : t' = t := by simpa using ht
          subst ht'
          exact Or.inl (hstop hf')
      · have ht : s.tokens = st.tokens := by simpa using hA.tokens_eq
        refine ⟨?_, ?_⟩
        · rw [ht, hA.errs_eq]
          exact hI1.imp (fun a b hab => mono _ _ a b hab)
        · intro _ t htl
          rw [ht] at htl
          obtain ⟨e, he, _⟩ := hE hP
          have hw := hA.errs_win e he
          have hmem : e ∈ s.errStream := by
            rw [hA.errs_eq]; exact List.mem_append_right _ he
          rcases hI2 t htl with hx' | ⟨e0, he0, h1, h2⟩
          · refine Or.inr ⟨e, hmem, ?_, hw.2⟩
            rw [hx']; exact hw.1
          · refine Or.inr ⟨e0, ?_, h1, le_trans h2 hA.byte_le⟩
            rw [hA.errs_eq]; exact List.mem_append_left _ he0)
    _ _ _ h (by simp [lexer_init])
  rcases key with ⟨_, hI1, _⟩ | ⟨s, ⟨hI1, hI2⟩, hf, _, rfl⟩
  · exact hI1
  · refine List.Chain'.append hI1 (List.chain'_singleton _) ?_
    intro x hx y hy
    have hy' : (⟨⟨s.loc, s.loc⟩, TokType.eof, TokData.none⟩ : Token) = y := by
      simpa using hy
    rw [← hy']
    exact hI2 hf x hx

/-- Witness of C15, amended: in the tokens of `a`, 0x01, `abc` the gap between the two
Symbol tokens holds the start of the BadChar error. -/
theorem lexer_raw_tokens_adjacent_witness :
    specParams.CodepointsNonneg ∧
    lexer_raw specParams (lexer_init specParams input_sym_ctrl_sym)
      = some output_sym_ctrl_sym ∧
    output_sym_ctrl_sym.tokens.Chain' (adjacentOrError output_sym_ctrl_sym.errStream) :=
  ⟨specParams_codepointsNonneg, rfl,
    lexer_raw_tokens_adjacent specParams specParams_codepointsNonneg input_sym_ctrl_sym
      (input_sym_ctrl_sym.length + 2) output_sym_ctrl_sym rfl⟩

/-- Counterexample to C17 as stated: lexing backslash, space, `x` emits the TrailingSpace
error of `takeLineContinue`, which starts at byte 1, and then its BadChar error, which
starts at byte 0. -/
theorem lexer_raw_errors_out_of_order :
    lexer_raw specParams (lexer_init specParams input_backslash_space_x)
      = some output_backslash_space_x ∧
    output_backslash_space_x.errStream.map (fun e => (e.type, e.loc.start.byte))
      = [(ErrType.trailingSpace, 1), (ErrType.badChar, 0)] ∧
    ¬ output_backslash_space_x.errStream.Chain'
        (fun a b => a.loc.start.byte ≤ b.loc.start.byte) := by
  refine ⟨rfl, rfl, fun hc => ?_⟩
  have hc' : List.Chain' (fun a b : EexprError => a.loc.start.byte ≤ b.loc.start.byte)
      (⟨⟨⟨1, 1, 2⟩, ⟨2, 1, 3⟩⟩, ErrType.trailingSpace, ErrData.none⟩ ::
        [⟨⟨⟨0, 1, 1⟩, ⟨2, 1, 3⟩⟩, ErrType.badChar, ErrData.badChar 0x5C⟩]) := hc
  have h1 := List.Chain'.rel_head hc'
  simp at h1

/-- With the null codepoint -1, `peekUchar` returns the null codepoint on the empty input
only: a decoded codepoint is not negative and a failed byte is at most -128. -/
theorem peekUchar_ne_neg_one (input : List Byte) (h : input ≠ []) :
    (peekUchar (-1) input).1 ≠ -1 := by
  cases input with
  | nil => exact absurd rfl h
  | cons b0 t =>
    simp only [peekUchar, badbyte, byte_and80]
    repeat' split
    all_goals try dsimp only
    all_goals omega

/-- Counterexample to C18 as stated: lexing tick, 0x01, tick ends without a fatal; the only
token is EOF (bytes 3 to 3) and the only error is BadCodepoint (bytes 1 to 2), so the
bytes 0 and 2, the two ticks, lie in no span. -/
theorem lexer_raw_ticks_not_covered :
    lexer_raw specParams (lexer_init specParams input_codepoint_ctrl)
      = some output_codepoint_ctrl ∧
    output_codepoint_ctrl.fatal.type = ErrType.noError ∧
    (0 : Nat) < input_codepoint_ctrl.length ∧ ¬ covered output_codepoint_ctrl 0 ∧
    (2 : Nat) < input_codepoint_ctrl.length ∧ ¬ covered output_codepoint_ctrl 2 := by
  refine ⟨rfl, rfl, by decide, by decide, by decide, by decide⟩

/-! ### Claims on CRLF, heredoc openings and heredoc indentation -/

/-- C21 at a failing input: on the two bytes CR, LF, which decode to the newline kind 3 of
size 2, one call of `takeNewline` consumes `newlineSize(1)` = 1 byte, the CR alone, and
its token spans that one byte: the local `type` holds the value 1 of the comparison
`decodeNewline(lookahead) != 0`. The LF is left and is lexed as a second newline, so that
the line is 3 at the end of the input, where the claim has one token over both bytes and
line 2. -/
theorem takeNewline_crlf_consumes_cr :
    specParams.decodeNewline 0x0D 0x0A = 3 ∧
    specParams.newlineSize 3 = 2 ∧
    specParams.newlineSize 1 = 1 ∧
    (takeNewline specParams (lexer_init specParams input_crlf)).map
        (fun r => (r.1, r.2.rest, r.2.loc, r.2.tokens))
      = some (true, [0x0A], ⟨1, 2, 1⟩,
          [⟨⟨⟨0, 1, 1⟩, ⟨1, 2, 1⟩⟩, TokType.unknownNewline, TokData.none⟩]) ∧
    (lexer_raw specParams (lexer_init specParams input_crlf)).map
        (fun s => (s.rest, s.loc,
          s.tokens.map (fun t => (t.type, t.loc.start.byte, t.loc.stop.byte))))
      = some ([], ⟨2, 3, 1⟩,
          [(TokType.unknownNewline, 0, 1), (TokType.unknownNewline, 1, 2), (TokType.eof, 2, 2)]) :=
  ⟨rfl, rfl, rfl, rfl, rfl⟩

/-- C23 at failing inputs. On `"""END x` the lookahead of `takeHeredoc` is taken at byte
offsets 0, 1 and 3 and reads `"`, `"`, `E`: the call returns false and the fatal slot stays
empty. On `""""x` the opening is recognised (the byte at offset 3 is a delimiter), the tag is
empty and no newline follows, so the fatal HeredocBadOpen is set; the function does not
return there, runs into the end of the input while gathering lines, and replaces the fatal
by UnclosedHeredoc. When the closing marker is found, as in `""""x`, newline, `"""`, the
function returns with HeredocBadOpen in the fatal slot and has emitted a String token. -/
theorem takeHeredoc_bad_open_overwritten :
    takeHeredoc specParams (lexer_init specParams input_heredoc_end_x)
      = some (false, lexer_init specParams input_heredoc_end_x) ∧
    (lexer_init specParams input_heredoc_end_x).fatal.type = ErrType.noError ∧
    (takeHeredoc specParams (lexer_init specParams input_four_quotes_x)).map
        (fun r => (r.1, r.2.rest, r.2.tokens.map (fun t => t.type), r.2.fatal.type, r.2.fatal.loc))
      = some (true, [], [TokType.stringError], ErrType.unclosedHeredoc,
          ⟨⟨0, 1, 1⟩, ⟨5, 1, 6⟩⟩) ∧
    (takeHeredoc specParams (lexer_init specParams input_four_quotes_x_closed)).map
        (fun r => (r.1, r.2.rest, r.2.tokens.map (fun t => (t.type, t.as)), r.2.fatal.type,
          r.2.fatal.loc))
      = some (true, [], [(TokType.string, TokData.string [0x22, 0x78] SpliceType.plain)],
          ErrType.heredocBadOpen, ⟨⟨0, 1, 1⟩, ⟨3, 1, 4⟩⟩) :=
  ⟨rfl, rfl, rfl, rfl⟩

/-- The closing escape leader of an indent definition, for every parameter set in which the
escape leader is not the tab character: the loop "count indentation depth" tests
`c == tabChar` in the branch in which `c` is the escape leader, so it never asks for the
alignment tab; it counts the escape leader and leaves the loop, whatever follows. -/
theorem heredocIndentLoop_closing (P : Params) (indentChar : Int) (fuel : Nat) (st : Lexer)
    (n : Nat) (hc : (st.peek P).1 = P.escapeLeader) (hi : P.escapeLeader ≠ indentChar)
    (ht : P.escapeLeader ≠ P.tabChar) :
    heredocIndentLoop P indentChar (fuel + 1) st n
      = some (lexer_advance st (st.peek P).2 1, some (n + 1)) := by
  have hp : st.peek P = (P.escapeLeader, (st.peek P).2) := by rw [← hc]
  rw [heredocIndentLoop, hp]
  simp only [hi, ht, if_false, if_true]

/-- C24 at failing inputs. On the indented heredoc `"""\`, tab `\x`, `"""` the lookahead of
`takeHeredoc` reads `"`, `"`, newline at byte offsets 0, 1 and 3: the call returns false,
with no StringError token and no fatal. In the block "accumulate indentation" itself, entered
at the start of the line tab `\x`, the indent definition is accepted with the indent
character tab and depth 2 although no tab follows the closing escape leader; and when a
tab does follow, it is not consumed: it stays in the input, and the loop that gathers the
lines puts it into the string body, which becomes tab, `x`. -/
theorem takeHeredoc_tab_alignment_unchecked :
    takeHeredoc specParams (lexer_init specParams input_heredoc_tab_indent)
      = some (false, lexer_init specParams input_heredoc_tab_indent) ∧
    (heredocIndentDef specParams state_tab_indent_line).map
        (fun r => (r.1.rest, r.1.loc, r.2, r.1.tokens, r.1.fatal.type))
      = some ([0x78, 0x0A, 0x22, 0x22, 0x22], ⟨7, 2, 3⟩, some (0x09, 2), [], ErrType.noError) ∧
    (heredocIndentDef specParams state_tab_indent_aligned).map
        (fun r => (r.1.rest, r.1.loc, r.2, r.1.tokens, r.1.fatal.type))
      = some ([0x09, 0x78, 0x0A, 0x09, 0x09, 0x22, 0x22, 0x22], ⟨7, 2, 3⟩, some (0x09, 2), [],
          ErrType.noError) ∧
    ((heredocIndentDef specParams state_tab_indent_aligned).bind
        (fun r => heredocLinesLoop specParams (lexer_init specParams input_heredoc_tab_indent)
          [0x22, 0x22, 0x22] 3 0x09 2 (r.1.rest.length + 1) r.1 [])).map
        (fun r => (r.1, r.2.rest, r.2.tokens.map (fun t => (t.type, t.as)), r.2.errStream))
      = some (true, [], [(TokType.string, TokData.string [0x09, 0x78] SpliceType.plain)], []) :=
  ⟨rfl, rfl, rfl, rfl⟩

/-! ### Claims on codepoint literals, line continuations and locations -/

/-- The lookahead of a four-digit escape close to the end of the input: on the codepoint
literal of scenario 3 (written with the escape `u00E9`) `takeCharEscape` peeks four
codepoints at byte offsets 0, 1, 3 and 6 of the five bytes left after the leader. The last
read is past the input, so the call of `takeCodepoint` has no defined result. -/
theorem takeCodepoint_four_hex_undefined :
    specParams.isCodepointDelim ((lexer_init specParams input_codepoint_u00E9).peek specParams).1
      = true ∧
    peekUchars specParams.UCHAR_NULL 4 [0x30, 0x30, 0x45, 0x39, 0x27] = none ∧
    takeCodepoint specParams (lexer_init specParams input_codepoint_u00E9) = none :=
  ⟨rfl, rfl, rfl⟩

/-- C26 at a failing input: on backslash, CR, LF the newline CR LF has two bytes, and
`takeLineContinue` emits the UnknownSpace token over the bytes 0 to 2 only: `takeNewline`
consumes the CR alone. The LF is left in the input and becomes an UnknownNewline token of
its own. The claim has one token over all three bytes. With a newline of one byte the
function does what the claim says: backslash, space, LF gives one UnknownSpace token over
the three bytes and a TrailingSpace error over the space; backslash, space, `x` gives no
token, the TrailingSpace error and a BadChar error carrying the escape leader. -/
theorem takeLineContinue_crlf_short :
    (takeLineContinue specParams (lexer_init specParams input_backslash_space_lf)).map
        (fun r => (r.1, r.2.rest, r.2.tokens, r.2.errStream))
      = some (true, [],
          [⟨⟨⟨0, 1, 1⟩, ⟨3, 2, 1⟩⟩, TokType.unknownSpace, TokData.unknownSpace 0x5C 0⟩],
          [⟨⟨⟨1, 1, 2⟩, ⟨2, 1, 3⟩⟩, ErrType.trailingSpace, ErrData.none⟩]) ∧
    (takeLineContinue specParams (lexer_init specParams input_backslash_space_x)).map
        (fun r => (r.1, r.2.rest, r.2.tokens, r.2.errStream))
      = some (true, [0x78], [],
          [⟨⟨⟨1, 1, 2⟩, ⟨2, 1, 3⟩⟩, ErrType.trailingSpace, ErrData.none⟩,
           ⟨⟨⟨0, 1, 1⟩, ⟨2, 1, 3⟩⟩, ErrType.badChar, ErrData.badChar 0x5C⟩]) ∧
    (takeLineContinue specParams (lexer_init specParams input_backslash_crlf)).map
        (fun r => (r.1, r.2.rest, r.2.tokens, r.2.errStream))
      = some (true, [0x0A],
          [⟨⟨⟨0, 1, 1⟩, ⟨2, 2, 1⟩⟩, TokType.unknownSpace, TokData.unknownSpace 0x5C 0⟩], []) ∧
    (lexer_raw specParams (lexer_init specParams input_backslash_crlf)).map
        (fun s => (s.tokens.map (fun t => (t.type, t.loc.start.byte, t.loc.stop.byte)),
          s.errStream))
      = some ([(TokType.unknownSpace, 0, 2), (TokType.unknownNewline, 2, 3), (TokType.eof, 3, 3)],
          []) :=
  ⟨rfl, rfl, rfl, rfl⟩

/-- C28 at failing inputs. In `'a`, LF, `b` the codepoint literal has no closing tick, and
the recovery loop of `takeCodepoint` consumes the LF with `lexer_advance`: after the first
dispatch three bytes with one newline are consumed and the location is line 1, column 4,
where the claim has line 2, column 1; the symbol `b` after the newline is placed on line 1.
In CR, LF the one newline sequence is consumed in two calls of `takeNewline`, and the line
is 3 at the end, where the claim has 2. -/
theorem lexer_raw_line_miscounted :
    newlineSequences (input_tick_a_lf_b.take 3) = 1 ∧
    (firstOf (recognizers specParams) (lexer_init specParams input_tick_a_lf_b)).map
        (fun r => (r.1, r.2.rest, r.2.loc))
      = some (true, [0x62], ⟨3, 1, 4⟩) ∧
    (lexer_raw specParams (lexer_init specParams input_tick_a_lf_b)).map
        (fun s => (s.rest, s.loc, s.tokens.map (fun t => (t.type, t.loc.start))))
      = some ([], ⟨4, 1, 5⟩,
          [(TokType.codepoint, ⟨0, 1, 1⟩), (TokType.symbol, ⟨3, 1, 4⟩), (TokType.eof, ⟨4, 1, 5⟩)]) ∧
    newlineSequences input_crlf = 1 ∧
    (lexer_raw specParams (lexer_init specParams input_crlf)).map (fun s => (s.rest, s.loc))
      = some ([], ⟨2, 3, 1⟩) :=
  ⟨rfl, rfl, rfl, rfl, rfl⟩

/-- C29 at a failing input: the four bytes `"\x4` are four codepoints of one byte each, on
one line. The two-digit hex escape finds one codepoint before the end of the input, and
`takeCharEscape` advances by the one byte peeked and by two columns: at the end of the input
the column is 6, where the claim has 1 + 4 = 5. -/
theorem lexer_raw_column_past_input :
    input_string_x4.length = 4 ∧
    input_string_x4.all (fun b => decide (b.val < 0x80)) = true ∧
    newlineSequences input_string_x4 = 0 ∧
    (takeString specParams (lexer_init specParams input_string_x4)).map
        (fun r => (r.1, r.2.rest, r.2.loc))
      = some (true, [], ⟨4, 1, 6⟩) ∧
    (lexer_raw specParams (lexer_init specParams input_string_x4)).map
        (fun s => (s.rest, s.loc, s.tokens.map (fun t => (t.type, t.loc.stop))))
      = some ([], ⟨4, 1, 6⟩, [(TokType.string, ⟨4, 1, 6⟩), (TokType.eof, ⟨4, 1, 6⟩)]) :=
  ⟨rfl, rfl, rfl, rfl, rfl⟩

/-- C30 at a failing input: in `'\u00Z9'bc` the four-digit escape holds `Z`, which is no
hex digit. `takeCharEscape`, entered after the escape leader, peeks at byte offsets 0, 1, 3
and 6 after the leader `u` and so reads `0`, `0`, `9`, `c`: it appends no error and returns
0x9C, and the lexer emits Codepoint 0x9C with an empty error list, where the claim has one
BadEscapeCode error and the value `u`. With two digits the claim holds: `'\xZZ'` gives one
BadEscapeCode error with the payload null, null, null, null, `Z`, `Z` and Codepoint `x`. -/
theorem takeCharEscape_four_hex_unnoticed :
    (takeCharEscape specParams (lexer_advance (lexer_init specParams input_codepoint_u00Z9) 2 2)).map
        (fun r => (r.1, r.2.rest, r.2.errStream))
      = some (0x9C, [0x27, 0x62, 0x63], []) ∧
    (lexer_raw specParams (lexer_init specParams input_codepoint_u00Z9)).map
        (fun s => (s.tokens.map (fun t => (t.type, t.as)), s.errStream))
      = some ([(TokType.codepoint, TokData.codepoint 0x9C),
               (TokType.symbol, TokData.symbol [0x62, 0x63]), (TokType.eof, TokData.none)], []) ∧
    (takeCharEscape specParams (lexer_advance (lexer_init specParams input_codepoint_xZZ) 2 2)).map
        (fun r => (r.1, r.2.rest, r.2.loc, r.2.errStream.map (fun e => (e.type, e.as))))
      = some (0x78, [0x27], ⟨5, 1, 6⟩,
          [(ErrType.badEscapeCode, ErrData.badEscapeCode [-1, -1, -1, -1, 0x5A, 0x5A])]) ∧
    (lexer_raw specParams (lexer_init specParams input_codepoint_xZZ)).map
        (fun s => (s.tokens.map (fun t => (t.type, t.as)), s.errStream.map (fun e => e.type)))
      = some ([(TokType.codepoint, TokData.codepoint 0x78), (TokType.eof, TokData.none)],
          [ErrType.badEscapeCode]) :=
  ⟨rfl, rfl, rfl, rfl⟩

/-! ### The hex decoder -/

theorem unihexStep_eq (accum : Nat) (d : Int) :
    unihexStep accum d = if isHexDigit d = true then some (accum * 16 + hexDigitValue d) else none := by
  have hshift : accum <<< 4 = accum * 16 := by rw [Nat.shiftLeft_eq]
  have hor : ∀ v, v < 16 → (accum <<< 4) ||| v = accum * 16 + v := by
    intro v hv
    rw [hshift]
    exact or_eq_add (accum * 16) v 4 ⟨accum, by ring⟩ (by simpa using hv)
  unfold unihexStep isHexDigit hexDigitValue
  by_cases h1 : 0x30 ≤ d ∧ d ≤ 0x39
  · simp only [h1, and_self, if_true, true_or, decide_True]
    rw [hor _ (by omega)]
  · by_cases h2 : 0x61 ≤ d ∧ d ≤ 0x66
    · simp only [h1, h2, and_self, if_true, if_false, true_or, or_true, decide_True]
      rw [hor _ (by omega)]
      congr 1
      omega
    · by_cases h3 : 0x41 ≤ d ∧ d ≤ 0x46
      · simp only [h1, h2, h3, and_self, if_true, if_false, or_true, decide_True]
        rw [hor _ (by omega)]
        congr 1
        omega
      · simp only [h1, h2, h3, if_false, or_self, decide_False, Bool.false_eq_true]

theorem hexDigitValue_lt (d : Int) (h : isHexDigit d = true) : hexDigitValue d < 16 := by
  unfold isHexDigit at h
  unfold hexDigitValue
  simp only [decide_eq_true_eq] at h
  split_ifs <;> omega

theorem decodeUnihexLoop_eq :
    ∀ (n : Nat) (digits : List Int) (accum : Nat), n ≤ digits.length →
      decodeUnihexLoop n digits accum
        = if ∀ d ∈ digits.take n, isHexDigit d = true then some (hexValueFrom accum (digits.take n))
          else none := by
  intro n
  induction n with
  | zero =>
    intro digits accum _
    simp [decodeUnihexLoop, hexValueFrom]
  | succ n ih =>
    intro digits accum hlen
    rcases digits with _ | ⟨d, ds⟩
    · simp at hlen
    · have hlen' : n ≤ ds.length := by simpa using hlen
      rw [decodeUnihexLoop, unihexStep_eq]
      by_cases hd : isHexDigit d = true
      · simp only [hd, if_true, ih ds _ hlen', List.take_succ_cons, List.mem_cons,
          forall_eq_or_imp, true_and, hexValueFrom, List.foldl_cons]
      · simp only [hd, Bool.false_eq_true, if_false, List.take_succ_cons, List.mem_cons,
          forall_eq_or_imp, false_and]

theorem hexValueFrom_lt :
    ∀ (ds : List Int) (accum : Nat), (∀ d ∈ ds, isHexDigit d = true) →
      hexValueFrom accum ds < (accum + 1) * 16 ^ ds.length := by
  intro ds
  induction ds with
  | nil => intro accum _; simp [hexValueFrom]
  | cons d ds ih =>
    intro accum h
    have hd := hexDigitValue_lt d (h d (List.mem_cons_self _ _))
    have h' := ih (accum * 16 + hexDigitValue d) (fun x hx => h x (List.mem_cons_of_mem _ hx))
    simp only [hexValueFrom, List.foldl_cons, List.length_cons] at h' ⊢
    calc List.foldl (fun a d => a * 16 + hexDigitValue d) (accum * 16 + hexDigitValue d) ds
        < (accum * 16 + hexDigitValue d + 1) * 16 ^ ds.length := h'
      _ ≤ ((accum + 1) * 16) * 16 ^ ds.length := Nat.mul_le_mul_right _ (by omega)
      _ = (accum + 1) * 16 ^ (ds.length + 1) := by ring

/-- C27: for n <= 6 (and n entries to read) `decodeUnihex(n, out, digits)` returns true
exactly when each of the first n entries of `digits` is a hex digit; when it returns true,
`out` holds the base-16 value of those n digits read most-significant first, a value below
16^n (and so below 2^24, within the range of `uchar`); when it returns false, `out` holds
what it held before the call. -/
theorem decodeUnihex_spec (n : Nat) (out : Int) (digits : List Int) (hn : n ≤ 6)
    (hlen : n ≤ digits.length) :
    ((decodeUnihexCall n out digits).1 = true ↔ ∀ d ∈ digits.take n, isHexDigit d = true) ∧
    ((decodeUnihexCall n out digits).1 = true →
      (decodeUnihexCall n out digits).2 = (hexValue (digits.take n) : Int) ∧
      hexValue (digits.take n) < 16 ^ n ∧ hexValue (digits.take n) < 2 ^ 24) ∧
    ((decodeUnihexCall n out digits).1 = false → (decodeUnihexCall n out digits).2 = out) := by
  have hloop := decodeUnihexLoop_eq n digits 0 hlen
  by_cases hall : ∀ d ∈ digits.take n, isHexDigit d = true
  · rw [if_pos hall] at hloop
    have hcall : decodeUnihexCall n out digits = (true, (hexValue (digits.take n) : Int)) := by
      simp only [decodeUnihexCall, decodeUnihex, hloop, hexValue]
    have hlt : hexValue (digits.take n) < 16 ^ n := by
      have h := hexValueFrom_lt (digits.take n) 0 hall
      rw [List.length_take, Nat.min_eq_left hlen] at h
      simpa [hexValue] using h
    have hpow : 16 ^ n ≤ 2 ^ 24 :=
      le_trans (Nat.pow_le_pow_right (by norm_num) hn) (by norm_num)
    rw [hcall]
    exact ⟨⟨fun _ => hall, fun _ => rfl⟩, fun _ => ⟨rfl, hlt, lt_of_lt_of_le hlt hpow⟩,
      fun h => by cases h⟩
  · rw [if_neg hall] at hloop
    have hcall : decodeUnihexCall n out digits = (false, out) := by
      simp only [decodeUnihexCall, decodeUnihex, hloop]
    rw [hcall]
    exact ⟨⟨fun h => (by cases h), fun h => absurd h hall⟩, fun h => (by cases h), fun _ => rfl⟩

/-- Witness of C27: the four digits `00E9` decode to 0xE9, which replaces the value `u`
held by `out`. -/
theorem decodeUnihex_spec_witness :
    4 ≤ 6 ∧ 4 ≤ [(0x30 : Int), 0x30, 0x45, 0x39].length ∧
    decodeUnihexCall 4 0x75 [0x30, 0x30, 0x45, 0x39] = (true, 0xE9) ∧
    hexValue ([(0x30 : Int), 0x30, 0x45, 0x39].take 4) = 0xE9 ∧
    decodeUnihexCall 2 0x78 [0x5A, 0x5A] = (false, 0x78) ∧
    (((decodeUnihexCall 4 0x75 [0x30, 0x30, 0x45, 0x39]).1 = true ↔
        ∀ d ∈ [(0x30 : Int), 0x30, 0x45, 0x39].take 4, isHexDigit d = true) ∧
      ((decodeUnihexCall 4 0x75 [0x30, 0x30, 0x45, 0x39]).1 = true →
        (decodeUnihexCall 4 0x75 [0x30, 0x30, 0x45, 0x39]).2
          = (hexValue ([(0x30 : Int), 0x30, 0x45, 0x39].take 4) : Int) ∧
        hexValue ([(0x30 : Int), 0x30, 0x45, 0x39].take 4) < 16 ^ 4 ∧
        hexValue ([(0x30 : Int), 0x30, 0x45, 0x39].take 4) < 2 ^ 24) ∧
      ((decodeUnihexCall 4 0x75 [0x30, 0x30, 0x45, 0x39]).1 = false →
        (decodeUnihexCall 4 0x75 [0x30, 0x30, 0x45, 0x39]).2 = 0x75)) :=
  ⟨by decide, by decide, by decide, by decide, by decide,
    decodeUnihex_spec 4 0x75 [0x30, 0x30, 0x45, 0x39] (by decide) (by decide)⟩

/-! ### An exponent without digits -/

theorem missingExponentAt_drop (P : Params) (radix : RadixParams) (e : ExpLit) (rest : List Byte)
    (a : Nat) : missingExponentAt P radix e (rest.drop a) 0 = missingExponentAt P radix e rest a := by
  simp only [missingExponentAt, List.drop_zero, Nat.zero_add, expSignOk_drop, prefixOk_drop,
    codepointAt_drop]

theorem takeNumberExponent_missing (P : Params) (radix : RadixParams) (fd : Nat) (st : Lexer)
    (e : ExpLit) (h : missingExponentAt P radix e st.rest 0 = true) :
    ∃ errs, takeNumberExponent P radix fd st
      = some (ExponentResult.missing
          (st.after (nbytes e.codepoints) e.codepoints.length errs)) := by
  obtain ⟨⟨lc, la⟩, sign, pfx, ds⟩ := e
  have hK : nbytes (ExpLit.mk (lc, la) sign pfx ds).codepoints
      = la + nbytes sign.toList + nbytes (prefixCodepoints pfx) + nbytes ds := by
    simp only [ExpLit.codepoints, nbytes_append, nbytes_cons, nbytes_nil, Nat.add_zero]
  have hL : (ExpLit.mk (lc, la) sign pfx ds).codepoints.length
      = 1 + sign.toList.length + (prefixCodepoints pfx).length + ds.length := by
    simp only [ExpLit.codepoints, List.length_append, List.length_singleton]
  simp only [missingExponentAt, Bool.and_eq_true, decide_eq_true_eq, List.drop_zero,
    Nat.zero_add, Bool.or_eq_true, Bool.not_eq_true'] at h
  obtain ⟨⟨⟨⟨⟨⟨⟨hsp, hletter⟩, hsign⟩, hpfx⟩, hg⟩, hzero⟩, hnd⟩, hns⟩ := h
  rw [hK] at hnd hns
  rw [hK, hL]
  simp only [ExpLit.codepoints, spells_append, nbytes_append, nbytes_cons, nbytes_nil,
    Nat.add_zero] at hsp hpfx
  obtain ⟨⟨⟨hspL, hspS⟩, hspP⟩, hspD⟩ := hsp
  rw [spells_cons] at hspL
  obtain ⟨hpk, hla, -⟩ := hspL
  have hp : st.peek P = (lc, la) := hpk
  have hlenD := spells_length_le _ _ _ hspD
  simp only [List.length_drop] at hlenD
  have hgd : groupDigits P ((ExpLit.mk (lc, la) sign pfx ds).radix P radix) ds % 2 ^ 32 = 0 := by
    rw [hzero]; rfl
  obtain ⟨errs1, hsgn⟩ := takeExponentSign_literal P fd (st.after la 1 []) sign
    (by rw [Lexer.after_rest]; exact hspS)
    (by rw [Lexer.after_rest, expSignOk_drop, Nat.add_zero]; exact hsign)
  rw [Lexer.after_after] at hsgn
  rw [takeNumberExponent, hp]
  simp only [ExpLit.specific, ExpLit.radix] at hletter hpfx hg hgd hnd ⊢
  by_cases hspec : ucharElem P.UCHAR_NULL lc radix.exponentLetters = true
  · -- a radix-specific exponent letter
    simp only [hspec, if_true, Option.isNone_iff_eq_none] at hpfx hg hgd hnd ⊢
    subst hpfx
    simp only [prefixCodepoints, nbytes_nil, Nat.add_zero] at hspD hlenD hnd hns ⊢
    simp only [lexer_advance_eq_after, hsgn, Bool.not_false, if_true]
    have e3 := digitLoop_group P radix _ ds
      ((st.after (la + nbytes sign.toList) (1 + sign.toList.length) ([] ++ errs1)).rest.length + 1)
      (st.after (la + nbytes sign.toList) (1 + sign.toList.length) ([] ++ errs1)) bigint_new 0
      (by rw [Lexer.after_rest]; exact hspD) hg
      (by rw [Lexer.after_rest, codepointAt_drop]) hnd hns
      (by simp only [Lexer.after_rest, List.length_drop] at hlenD ⊢; omega)
      (by norm_num)
    rw [e3, Lexer.after_after]
    simp only [Nat.zero_add, hgd, if_true, List.length_nil, Nat.add_zero]
    exact ⟨_, rfl⟩
  · -- the generic exponent letter
    have hgen : lc = P.genericExpLetter := by
      rcases hletter with h | h
      · exact absurd h hspec
      · exact h
    simp only [hspec, Bool.false_eq_true, if_false] at hpfx hg hgd hnd ⊢
    simp only [hgen, if_true, lexer_advance_eq_after, hsgn, Bool.not_true]
    have e2 := takeRadix_literal P
      (st.after (la + nbytes sign.toList) (1 + sign.toList.length) ([] ++ errs1)) pfx
      (by rw [Lexer.after_rest]; exact hspP)
      (by rw [Lexer.after_rest, prefixOk_drop, Nat.add_zero]; exact hpfx)
    rw [Lexer.after_after] at e2
    simp only [Bool.false_eq_true, if_false, e2]
    have e3 := digitLoop_group P (prefixRadix P pfx) _ ds
      ((st.after (la + nbytes sign.toList + nbytes (prefixCodepoints pfx))
        (1 + sign.toList.length + (prefixCodepoints pfx).length) ([] ++ errs1 ++ [])).rest.length + 1)
      (st.after (la + nbytes sign.toList + nbytes (prefixCodepoints pfx))
        (1 + sign.toList.length + (prefixCodepoints pfx).length) ([] ++ errs1 ++ [])) bigint_new 0
      (by rw [Lexer.after_rest]; exact hspD) hg
      (by rw [Lexer.after_rest, codepointAt_drop]) hnd hns
      (by simp only [Lexer.after_rest, List.length_drop] at hlenD ⊢; omega)
      (by norm_num)
    rw [e3, Lexer.after_after]
    simp only [Nat.zero_add, hgd, if_true]
    exact ⟨_, rfl⟩

/-- C22: when the remaining input starts with a number literal whose mantissa part `m` is
followed by an exponent part `e` without exponent digits (a radix-specific or the generic
exponent letter, an optional sign, after the generic letter an optional radix prefix, and
no digit before the next codepoint that is neither digit nor separator), `takeNumber`
returns true having consumed both parts; it has appended exactly one token, of kind
NumberError, spanning from the start of the literal to the location reached, and the last
error it has appended is MissingExponent with the same span. -/
theorem takeNumber_missing_exponent (P : Params) (st : Lexer) (m : MantissaLit) (e : ExpLit)
    (h : mantissaAt P m st.rest = true)
    (hexp : missingExponentAt P (m.radix P) e st.rest (nbytes m.codepoints) = true) :
    ∃ st' errs, takeNumber P st = some (true, st') ∧
      st'.rest = st.rest.drop (nbytes m.codepoints + nbytes e.codepoints) ∧
      st'.loc.byte = st.loc.byte + (nbytes m.codepoints + nbytes e.codepoints) ∧
      st'.tokens = st.tokens ++ [Token.mk ⟨st.loc, st'.loc⟩ TokType.numberError TokData.none] ∧
      st'.errStream = st.errStream ++ errs ++
        [EexprError.mk ⟨st.loc, st'.loc⟩ ErrType.missingExponent ErrData.none] := by
  obtain ⟨errs, he⟩ := takeNumber_of_mantissa P st m h
  obtain ⟨errs', hm⟩ := takeNumberExponent_missing P (m.radix P)
    (groupDigits P (m.radix P) m.fracDigits % 2 ^ 32)
    (st.after (nbytes m.codepoints) m.codepoints.length errs) e
    (by rw [Lexer.after_rest, missingExponentAt_drop]; exact hexp)
  rw [he, takeNumberFinish, hm, Lexer.after_after]
  refine ⟨_, errs ++ errs', rfl, ?_, ?_, ?_, ?_⟩
  · simp [lexer_addErr, lexer_addTok, Lexer.after]
  · simp [lexer_addErr, lexer_addTok, Lexer.after]
  · simp [lexer_addErr, lexer_addTok, Lexer.after]
  · simp [lexer_addErr, lexer_addTok, Lexer.after, List.append_assoc]

/-- Witness of C22: `1.5e+_` has the mantissa part `1.5` and the exponent part `e+_` without
a digit. -/
theorem takeNumber_missing_exponent_witness :
    mantissaAt specParams lit_1_5 (lexer_init specParams input_1_5e_plus_sep).rest = true ∧
    missingExponentAt specParams (lit_1_5.radix specParams) exp_e_plus_sep
      (lexer_init specParams input_1_5e_plus_sep).rest (nbytes lit_1_5.codepoints) = true ∧
    (takeNumber specParams (lexer_init specParams input_1_5e_plus_sep)).map
        (fun r => (r.1, r.2.rest, r.2.tokens, r.2.errStream.map (fun x => (x.type, x.loc))))
      = some (true, [],
          [⟨⟨⟨0, 1, 1⟩, ⟨6, 1, 7⟩⟩, TokType.numberError, TokData.none⟩],
          [(ErrType.badDigitSeparator, ⟨⟨5, 1, 6⟩, ⟨6, 1, 7⟩⟩),
           (ErrType.missingExponent, ⟨⟨0, 1, 1⟩, ⟨6, 1, 7⟩⟩)]) ∧
    ∃ st' errs, takeNumber specParams (lexer_init specParams input_1_5e_plus_sep)
        = some (true, st') ∧
      st'.rest = (lexer_init specParams input_1_5e_plus_sep).rest.drop
        (nbytes lit_1_5.codepoints + nbytes exp_e_plus_sep.codepoints) ∧
      st'.loc.byte = (lexer_init specParams input_1_5e_plus_sep).loc.byte
        + (nbytes lit_1_5.codepoints + nbytes exp_e_plus_sep.codepoints) ∧
      st'.tokens = (lexer_init specParams input_1_5e_plus_sep).tokens
        ++ [Token.mk ⟨(lexer_init specParams input_1_5e_plus_sep).loc, st'.loc⟩
              TokType.numberError TokData.none] ∧
      st'.errStream = (lexer_init specParams input_1_5e_plus_sep).errStream ++ errs ++
        [EexprError.mk ⟨(lexer_init specParams input_1_5e_plus_sep).loc, st'.loc⟩
          ErrType.missingExponent ErrData.none] :=
  ⟨by decide, by decide, rfl,
    takeNumber_missing_exponent specParams (lexer_init specParams input_1_5e_plus_sep) lit_1_5
      exp_e_plus_sep (by decide) (by decide)⟩

/-! ### What holds of `takeNewline` and `takeCodepoint` for every parameter set -/

/-- The bytes `takeNewline` consumes, for every parameter set in which `NEWLINE_NONE` is 0:
whatever kind the lookahead decodes to, the call consumes `newlineSize(1)` bytes, adds one
to the line and sets the column to 1. A two-byte newline is consumed whole exactly when the
kind 1 has size 2, and then a one-byte newline loses the byte after it. -/
theorem takeNewline_size_one (P : Params) (st : Lexer) (la0 la1 : Int) (adv : Nat)
    (hpeek : peekUchars P.UCHAR_NULL 2 st.rest = some ([la0, la1], adv))
    (hnone : P.NEWLINE_NONE = 0) (hnl : P.decodeNewline la0 la1 ≠ 0) :
    ∃ st', takeNewline P st = some (true, st') ∧
      st'.rest = st.rest.drop (P.newlineSize 1) ∧
      st'.loc = ⟨st.loc.byte + P.newlineSize 1, st.loc.line + 1, 1⟩ ∧
      st'.tokens = st.tokens ++ [⟨⟨st.loc, st'.loc⟩, TokType.unknownNewline, TokData.none⟩] := by
  rw [takeNewline_kind_one P st la0 la1 adv hpeek hnone hnl]
  refine ⟨_, rfl, ?_, ?_, ?_⟩
  · split_ifs <;> simp [lexer_addTok, lexer_incLine, lexer_addErr]
  · split_ifs <;> simp [lexer_addTok, lexer_incLine, lexer_addErr]
  · split_ifs <;> simp [lexer_addTok, lexer_incLine, lexer_addErr]

theorem spells_replicate_zero (n : Nat) (tail : List Byte) :
    spells (-1) (List.replicate n ((0x30 : Int), 1)) (List.replicate n (0x30 : Byte) ++ tail) = true := by
  induction n with
  | zero => rfl
  | succ n ih =>
    rw [List.replicate_succ, List.replicate_succ, List.cons_append, spells_cons]
    refine ⟨peekUchar_lead1 _ _ _ (by decide), by decide, ?_⟩
    simpa using ih

theorem nbytes_replicate_one (n : Nat) (c : Int) : nbytes (List.replicate n (c, 1)) = n := by
  simp [nbytes]

theorem groupDigits_replicate_zero (n : Nat) :
    groupDigits specParams specRadix10 (List.replicate n ((0x30 : Int), 1)) = n := by
  induction n with
  | zero => rfl
  | succ n ih =>
    rw [List.replicate_succ, groupDigits_cons, ih]
    simp [specParams, specRadix10]
    omega

theorem mantissaAt_one_point_zeros (n : Nat) :
    mantissaAt specParams (lit_one_point_zeros (n + 1)) (input_one_point_zeros (n + 1)) = true := by
  have hrest : input_one_point_zeros (n + 1)
      = 0x31 :: 0x2E :: (List.replicate (n + 1) (0x30 : Byte) ++ []) := by
    simp [input_one_point_zeros]
  have hsp := spells_replicate_zero (n + 1) []
  simp only [mantissaAt, lit_one_point_zeros, MantissaLit.codepoints, MantissaLit.radix,
    MantissaLit.fracCodepoints, prefixRadix, prefixCodepoints, Option.toList, List.nil_append,
    List.append_nil, Bool.and_eq_true, decide_eq_true_eq, nbytes_nil, nbytes_cons,
    nbytes_replicate_one, List.singleton_append]
  have hdrop : (input_one_point_zeros (n + 1)).drop (1 + (1 + (n + 1))) = [] := by
    apply List.drop_eq_nil_of_le
    simp [input_one_point_zeros]
    omega
  have hend : codepointAt specParams.UCHAR_NULL (input_one_point_zeros (n + 1))
      (1 + (1 + (n + 1))) = -1 := by
    simp only [codepointAt, hdrop]; rfl
  have hpk : peekUchar specParams.UCHAR_NULL (input_one_point_zeros (n + 1)) = (0x31, 1) := by
    rw [hrest]; exact peekUchar_lead1 _ _ _ (by decide)
  rw [hend]
  refine ⟨⟨⟨⟨⟨?_, rfl⟩, ?_⟩, ?_⟩, by decide⟩,
    ⟨⟨⟨⟨⟨⟨rfl, by decide⟩, by decide⟩, ?_⟩, by simp⟩, ?_⟩, by decide⟩, by decide⟩
  · rw [hrest, spells_cons, spells_cons]
    refine ⟨peekUchar_lead1 _ _ _ (by decide), by decide, ?_, by decide, ?_⟩
    · exact peekUchar_lead1 _ _ _ (by decide)
    · exact hsp
  · simp only [codepointAt, List.drop_zero, hpk]
    decide
  · have h0 : decide ((49 : Int) = specParams.defaultRadix.digits.getD 0 specParams.UCHAR_NULL)
        = false := by decide
    simp only [prefixOk, radixPrefixAt, lookahead2, List.drop_zero, hpk, h0, Bool.false_and,
      Bool.not_false]
  · show specParams.isDigit specParams.defaultRadix 48 = true
    decide
  · intro x hx
    rw [List.eq_of_mem_replicate hx]
    exact Or.inl (by decide)

theorem takeNumber_one_point_zeros (n : Nat) :
    (takeNumber specParams (lexer_init specParams (input_one_point_zeros (n + 1)))).map
        (fun r => (r.1, r.2.tokens.map (fun t => (t.type, t.fractionalDigits))))
      = some (true, [(TokType.number, some ((n + 1) % 2 ^ 32))]) := by
  have hm := mantissaAt_one_point_zeros n
  obtain ⟨errs, he⟩ := takeNumber_of_mantissa specParams
    (lexer_init specParams (input_one_point_zeros (n + 1))) (lit_one_point_zeros (n + 1)) hm
  have hnb : nbytes (lit_one_point_zeros (n + 1)).codepoints = 1 + (1 + (n + 1)) := by
    simp [lit_one_point_zeros, MantissaLit.codepoints, MantissaLit.fracCodepoints,
      prefixCodepoints, nbytes_cons, nbytes_replicate_one, nbytes_nil]
  have hdrop : (input_one_point_zeros (n + 1)).drop (1 + (1 + (n + 1))) = [] := by
    apply List.drop_eq_nil_of_le
    simp [input_one_point_zeros]
    omega
  have hrest : ((lexer_init specParams (input_one_point_zeros (n + 1))).after
      (nbytes (lit_one_point_zeros (n + 1)).codepoints)
      (lit_one_point_zeros (n + 1)).codepoints.length errs).rest = [] := by
    rw [Lexer.after_rest, hnb]
    exact hdrop
  have ha := takeNumberExponent_absent specParams ((lit_one_point_zeros (n + 1)).radix specParams)
    (groupDigits specParams ((lit_one_point_zeros (n + 1)).radix specParams)
      (lit_one_point_zeros (n + 1)).fracDigits % 2 ^ 32)
    ((lexer_init specParams (input_one_point_zeros (n + 1))).after
      (nbytes (lit_one_point_zeros (n + 1)).codepoints)
      (lit_one_point_zeros (n + 1)).codepoints.length errs)
    (by rw [hrest]; show noExponentAt specParams specRadix10 [] 0 = true; decide)
  have hg : groupDigits specParams ((lit_one_point_zeros (n + 1)).radix specParams)
      (lit_one_point_zeros (n + 1)).fracDigits = n + 1 :=
    groupDigits_replicate_zero (n + 1)
  rw [he, takeNumberFinish, ha, hg]
  rfl

/-- Counterexample to C5 as stated: in `1.` followed by 2^32 digits `0` the literal has 2^32
digits after the decimal point, and the Number token `takeNumber` emits has the
fractionalDigits 0: the counter is a `uint32_t` and wraps. -/
theorem takeNumber_fraction_count_wraps :
    mantissaAt specParams (lit_one_point_zeros (2 ^ 32)) (input_one_point_zeros (2 ^ 32)) = true ∧
    groupDigits specParams ((lit_one_point_zeros (2 ^ 32)).radix specParams)
      (lit_one_point_zeros (2 ^ 32)).fracDigits = 2 ^ 32 ∧
    (takeNumber specParams (lexer_init specParams (input_one_point_zeros (2 ^ 32)))).map
        (fun r => (r.1, r.2.tokens.map (fun t => (t.type, t.fractionalDigits))))
      = some (true, [(TokType.number, some 0)]) := by
  have e : (2 : Nat) ^ 32 = 4294967295 + 1 := by norm_num
  refine ⟨?_, ?_, ?_⟩
  · rw [e]; exact mantissaAt_one_point_zeros _
  · rw [e]; exact groupDigits_replicate_zero _
  · have h := takeNumber_one_point_zeros 4294967295
    rw [← e, Nat.mod_self] at h
    exact h

theorem separatorErrs_none (P : Params) (sign : Option (Int × Nat))
    (pfx : Option ((Int × Nat) × (Int × Nat))) (ip : List (Int × Nat)) (rest : List Byte)
    (loc : FilelocPoint) :
    (MantissaLit.mk sign pfx ip none).separatorErrs P rest loc
      = sepErrors P (prefixRadix P pfx)
          (codepointAt P.UCHAR_NULL rest
            (nbytes sign.toList + nbytes (prefixCodepoints pfx) + nbytes ip))
          { loc with byte := loc.byte + (nbytes sign.toList + nbytes (prefixCodepoints pfx)),
                     col := loc.col + (sign.toList.length + (prefixCodepoints pfx).length) }
          0 ip := by
  simp only [MantissaLit.separatorErrs, MantissaLit.radix]
  rw [sepErrors_eq_separatorErrors _ _ _ _ _ _ (by norm_num)]
  simp only [locAfter, nbytes_append, List.length_append]

theorem separatorErrs_some (P : Params) (sign : Option (Int × Nat))
    (pfx : Option ((Int × Nat) × (Int × Nat))) (ip : List (Int × Nat)) (p : Int × Nat)
    (ds : List (Int × Nat)) (rest : List Byte) (loc : FilelocPoint) :
    (MantissaLit.mk sign pfx ip (some (p, ds))).separatorErrs P rest loc
      = sepErrors P (prefixRadix P pfx) P.digitPoint
          { loc with byte := loc.byte + (nbytes sign.toList + nbytes (prefixCodepoints pfx)),
                     col := loc.col + (sign.toList.length + (prefixCodepoints pfx).length) }
          0 ip
        ++ sepErrors P (prefixRadix P pfx)
          (codepointAt P.UCHAR_NULL rest
            (nbytes sign.toList + nbytes (prefixCodepoints pfx) + nbytes ip + nbytes (p :: ds)))
          { loc with
            byte := loc.byte + (nbytes sign.toList + nbytes (prefixCodepoints pfx) + nbytes ip) + p.2,
            col := loc.col + (sign.toList.length + (prefixCodepoints pfx).length + ip.length) + 1 }
          0 ds := by
  simp only [MantissaLit.separatorErrs, MantissaLit.radix, MantissaLit.codepoints,
    MantissaLit.fracCodepoints]
  rw [sepErrors_eq_separatorErrors _ _ _ _ _ _ (by norm_num),
    sepErrors_eq_separatorErrors _ _ _ _ _ _ (by norm_num)]
  simp only [locAfter, nbytes_append, List.length_append, nbytes_cons, nbytes_nil,
    List.length_singleton, Nat.add_zero, Nat.add_assoc]

theorem takeNumber_of_mantissa_errs (P : Params) (st : Lexer) (m : MantissaLit)
    (h : mantissaAt P m st.rest = true) :
    takeNumber P st
      = takeNumberFinish P st.loc (m.negative P) (m.radix P) ⟨m.value P, true⟩
          (groupDigits P (m.radix P) m.fracDigits % 2 ^ 32)
          (st.after (nbytes m.codepoints) m.codepoints.length
            (m.separatorErrs P st.rest st.loc)) := by
  obtain ⟨sign, pfx, ip, frac⟩ := m
  have hK : nbytes (MantissaLit.mk sign pfx ip frac).codepoints
      = nbytes sign.toList + nbytes (prefixCodepoints pfx) + nbytes ip
        + nbytes (MantissaLit.mk sign pfx ip frac).fracCodepoints := by
    simp only [MantissaLit.codepoints, nbytes_append]
  have hL : (MantissaLit.mk sign pfx ip frac).codepoints.length
      = sign.toList.length + (prefixCodepoints pfx).length + ip.length
        + (MantissaLit.mk sign pfx ip frac).fracCodepoints.length := by
    simp only [MantissaLit.codepoints, List.length_append]
  rw [hK, hL]
  simp only [mantissaAt, MantissaLit.codepoints, MantissaLit.radix, Bool.and_eq_true,
    decide_eq_true_eq] at h
  obtain ⟨⟨⟨⟨⟨hsp, hsign⟩, hdig⟩, hpfx⟩, hip⟩, hfrac⟩ := h
  simp only [spells_append] at hsp
  obtain ⟨⟨⟨hspS, hspP⟩, hspI⟩, hspF⟩ := hsp
  have hlenI := spells_length_le _ _ _ hspI
  have hlenF := spells_length_le _ _ _ hspF
  simp only [List.length_drop] at hlenI hlenF
  simp only [nbytes_append] at hspI hspF hlenI hlenF hfrac
  -- the sign
  have e1 := takeNumberSign_literal P st sign hspS hsign hdig
  -- the radix prefix
  have e2 := takeRadix_literal P (st.after (nbytes sign.toList) sign.toList.length []) pfx
    (by rw [Lexer.after_rest]; exact hspP)
    (by rw [Lexer.after_rest, prefixOk_drop, Nat.add_zero]; exact hpfx)
  rw [Lexer.after_after] at e2
  simp only [takeNumber, e1, e2, MantissaLit.negative, MantissaLit.radix, MantissaLit.value,
    MantissaLit.fracDigits]
  rcases frac with _ | ⟨p, ds⟩
  · -- no fractional part
    simp only [Bool.and_eq_true, Bool.not_eq_true', decide_eq_true_eq] at hfrac
    obtain ⟨⟨hnd, hns⟩, hnf⟩ := hfrac
    have e3 := digitLoop_group P (prefixRadix P pfx) _ ip
      ((st.after (nbytes sign.toList + nbytes (prefixCodepoints pfx))
        (sign.toList.length + (prefixCodepoints pfx).length) ([] ++ [])).rest.length + 1)
      (st.after (nbytes sign.toList + nbytes (prefixCodepoints pfx))
        (sign.toList.length + (prefixCodepoints pfx).length) ([] ++ [])) bigint_new 0
      (by rw [Lexer.after_rest]; exact hspI) hip
      (by rw [Lexer.after_rest, codepointAt_drop]) hnd hns
      (by simp only [Lexer.after_rest, List.length_drop] at hlenI ⊢; omega)
      (by norm_num)
    rw [e3, Lexer.after_after]
    simp only []
    rw [takeNumberFraction_none _ _ _ _
      (by rw [Lexer.after_rest, lookahead2_drop, Nat.add_zero]; exact hnf)]
    rw [separatorErrs_none]
    rfl
  · -- a fractional part
    simp only [Bool.and_eq_true, Bool.not_eq_true', decide_eq_true_eq, decide_not,
      Bool.not_eq_true', decide_eq_false_iff_not, ne_eq] at hfrac
    obtain ⟨⟨⟨⟨⟨⟨⟨hp, hpd⟩, hps⟩, hd⟩, hne⟩, hg⟩, hnd⟩, hns⟩ := hfrac
    simp only [MantissaLit.fracCodepoints] at hspF hlenF hnd hns
    have hpk : codepointAt P.UCHAR_NULL st.rest
        (nbytes sign.toList + nbytes (prefixCodepoints pfx) + nbytes ip) = P.digitPoint := by
      obtain ⟨pc, pa⟩ := p
      rw [spells_cons] at hspF
      simp only [codepointAt, hspF.1]
      exact hp
    have e3 := digitLoop_group P (prefixRadix P pfx) P.digitPoint ip
      ((st.after (nbytes sign.toList + nbytes (prefixCodepoints pfx))
        (sign.toList.length + (prefixCodepoints pfx).length) ([] ++ [])).rest.length + 1)
      (st.after (nbytes sign.toList + nbytes (prefixCodepoints pfx))
        (sign.toList.length + (prefixCodepoints pfx).length) ([] ++ [])) bigint_new 0
      (by rw [Lexer.after_rest]; exact hspI) hip
      (by rw [Lexer.after_rest, codepointAt_drop]; exact hpk) hpd (fun e => hps e)
      (by simp only [Lexer.after_rest, List.length_drop] at hlenI ⊢; omega)
      (by norm_num)
    rw [e3, Lexer.after_after]
    simp only []
    rw [takeNumberFraction_some P _ _ _ p ds _
      (by rw [Lexer.after_rest]; exact hspF) hp hd hne hg
      (by rw [Lexer.after_rest, codepointAt_drop])
      hnd hns, Lexer.after_after]
    rw [separatorErrs_some]
    rfl

theorem takeExponentSign_errs (P : Params) (fd : Nat) (st : Lexer) (sign : Option (Int × Nat))
    (hsp : spells P.UCHAR_NULL sign.toList st.rest = true)
    (hsign : expSignOk P st.rest 0 sign = true) :
    takeExponentSign P fd st
      = (signNegative P sign && decide (fd ≠ 0),
          st.after (nbytes sign.toList) sign.toList.length (expSignErrs fd sign st.loc)) := by
  revert hsp hsign
  rcases sign with _ | ⟨sc, sa⟩
  · intro _ hsign
    simp only [expSignOk, Bool.not_eq_true', codepointAt, List.drop_zero] at hsign
    have hp1 : st.peek P
        = ((peekUchar P.UCHAR_NULL st.rest).1, (peekUchar P.UCHAR_NULL st.rest).2) := rfl
    rw [takeExponentSign, hp1]
    simp only [hsign, Bool.false_eq_true, if_false, signNegative, Bool.false_and,
      Option.toList, nbytes_nil, List.length_nil, expSignErrs, Lexer.after_zero]
  · intro hsp hsign
    simp only [expSignOk] at hsign
    simp only [Option.toList, spells_cons, spells_nil, and_true] at hsp
    have hp1 : st.peek P = (sc, sa) := hsp.1
    rw [takeExponentSign, hp1]
    by_cases hfd : fd = 0
    · simp only [hsign, if_true, hfd, ne_eq, not_true_eq_false, if_false, decide_False,
        Bool.and_false, lexer_advance_eq_after, lexer_addErr_after,
        Option.toList, nbytes_cons, nbytes_nil, List.length_singleton, Nat.add_zero,
        List.nil_append, expSignErrs, Lexer.after_loc]
    · simp only [hsign, if_true, hfd, ne_eq, not_false_eq_true, decide_True, Bool.and_true,
        lexer_advance_eq_after, signNegative, expSignErrs, if_false,
        Option.toList, nbytes_cons, nbytes_nil, List.length_singleton, Nat.add_zero]

theorem ExpLit.errs_eq (P : Params) (radix : RadixParams) (fd : Nat) (lc : Int) (la : Nat)
    (sign : Option (Int × Nat)) (pfx : Option ((Int × Nat) × (Int × Nat)))
    (ds : List (Int × Nat)) (rest : List Byte) (loc : FilelocPoint) :
    (ExpLit.mk (lc, la) sign pfx ds).errs P radix fd rest 0 loc
      = expSignErrs fd sign { loc with byte := loc.byte + la, col := loc.col + 1 }
        ++ sepErrors P ((ExpLit.mk (lc, la) sign pfx ds).radix P radix)
            (codepointAt P.UCHAR_NULL rest
              (la + nbytes sign.toList + nbytes (prefixCodepoints pfx) + nbytes ds))
            { loc with
              byte := loc.byte + (la + nbytes sign.toList + nbytes (prefixCodepoints pfx)),
              col := loc.col + (1 + sign.toList.length + (prefixCodepoints pfx).length) }
            0 ds := by
  simp only [ExpLit.errs, ExpLit.codepoints]
  rw [sepErrors_eq_separatorErrors _ _ _ _ _ _ (by norm_num)]
  simp only [locAfter, nbytes_append, List.length_append, nbytes_cons, nbytes_nil,
    List.length_singleton, Nat.add_zero, Nat.zero_add, List.length_cons, List.length_nil]

theorem takeNumberExponent_errs (P : Params) (radix : RadixParams) (fd : Nat) (st : Lexer)
    (e : ExpLit) (h : exponentAt P radix e st.rest 0 = true)
    (hcount : groupDigits P (e.radix P radix) e.digits % 2 ^ 32 ≠ 0) :
    takeNumberExponent P radix fd st
      = some (ExponentResult.present
          (st.after (nbytes e.codepoints) e.codepoints.length (e.errs P radix fd st.rest 0 st.loc))
          ⟨e.value P radix, true⟩ (signNegative P e.sign && decide (fd ≠ 0))) := by
  obtain ⟨⟨lc, la⟩, sign, pfx, ds⟩ := e
  have hK : nbytes (ExpLit.mk (lc, la) sign pfx ds).codepoints
      = la + nbytes sign.toList + nbytes (prefixCodepoints pfx) + nbytes ds := by
    simp only [ExpLit.codepoints, nbytes_append, nbytes_cons, nbytes_nil, Nat.add_zero]
  have hL : (ExpLit.mk (lc, la) sign pfx ds).codepoints.length
      = 1 + sign.toList.length + (prefixCodepoints pfx).length + ds.length := by
    simp only [ExpLit.codepoints, List.length_append, List.length_singleton]
  simp only [exponentAt, Bool.and_eq_true, decide_eq_true_eq, List.drop_zero, Nat.zero_add,
    Bool.or_eq_true, Bool.not_eq_true'] at h
  obtain ⟨⟨⟨⟨⟨⟨⟨hsp, hletter⟩, hsign⟩, hpfx⟩, hg⟩, hpos⟩, hnd⟩, hns⟩ := h
  rw [hK] at hnd hns
  rw [hK, hL, ExpLit.errs_eq]
  simp only [ExpLit.codepoints, spells_append, nbytes_append, nbytes_cons, nbytes_nil,
    Nat.add_zero] at hsp hpfx
  obtain ⟨⟨⟨hspL, hspS⟩, hspP⟩, hspD⟩ := hsp
  rw [spells_cons] at hspL
  obtain ⟨hpk, hla, -⟩ := hspL
  have hp : st.peek P = (lc, la) := hpk
  have hlenD := spells_length_le _ _ _ hspD
  simp only [List.length_drop] at hlenD
  have hgd : groupDigits P ((ExpLit.mk (lc, la) sign pfx ds).radix P radix) ds % 2 ^ 32 ≠ 0 :=
    hcount
  have hsgn := takeExponentSign_errs P fd (st.after la 1 []) sign
    (by rw [Lexer.after_rest]; exact hspS)
    (by rw [Lexer.after_rest, expSignOk_drop, Nat.add_zero]; exact hsign)
  rw [Lexer.after_after] at hsgn
  rw [takeNumberExponent, hp]
  simp only [ExpLit.specific, ExpLit.value, ExpLit.radix] at hletter hpfx hg hgd hnd ⊢
  by_cases hspec : ucharElem P.UCHAR_NULL lc radix.exponentLetters = true
  · -- a radix-specific exponent letter
    simp only [hspec, if_true, Option.isNone_iff_eq_none] at hpfx hg hgd hnd ⊢
    subst hpfx
    simp only [prefixCodepoints, nbytes_nil, Nat.add_zero] at hspD hlenD hnd hns ⊢
    simp only [lexer_advance_eq_after, hsgn, Bool.not_false, if_true]
    have e3 := digitLoop_group P radix _ ds
      ((st.after (la + nbytes sign.toList) (1 + sign.toList.length)
        ([] ++ expSignErrs fd sign (st.after la 1 []).loc)).rest.length + 1)
      (st.after (la + nbytes sign.toList) (1 + sign.toList.length)
        ([] ++ expSignErrs fd sign (st.after la 1 []).loc)) bigint_new 0
      (by rw [Lexer.after_rest]; exact hspD) hg
      (by rw [Lexer.after_rest, codepointAt_drop]) hnd hns
      (by simp only [Lexer.after_rest, List.length_drop] at hlenD ⊢; omega)
      (by norm_num)
    rw [e3, Lexer.after_after]
    simp only [Nat.zero_add, hgd, if_false, bigint_new, List.length_nil, Nat.add_zero]
    rfl
  · -- the generic exponent letter
    have hgen : lc = P.genericExpLetter := by
      rcases hletter with h | h
      · exact absurd h hspec
      · exact h
    simp only [hspec, Bool.false_eq_true, if_false] at hpfx hg hgd hnd ⊢
    simp only [hgen, if_true, lexer_advance_eq_after, hsgn, Bool.not_true]
    have e2 := takeRadix_literal P
      (st.after (la + nbytes sign.toList) (1 + sign.toList.length)
        ([] ++ expSignErrs fd sign (st.after la 1 []).loc)) pfx
      (by rw [Lexer.after_rest]; exact hspP)
      (by rw [Lexer.after_rest, prefixOk_drop, Nat.add_zero]; exact hpfx)
    rw [Lexer.after_after] at e2
    simp only [Bool.false_eq_true, if_false, e2]
    have e3 := digitLoop_group P (prefixRadix P pfx) _ ds
      ((st.after (la + nbytes sign.toList + nbytes (prefixCodepoints pfx))
        (1 + sign.toList.length + (prefixCodepoints pfx).length)
        ([] ++ expSignErrs fd sign (st.after la 1 []).loc ++ [])).rest.length + 1)
      (st.after (la + nbytes sign.toList + nbytes (prefixCodepoints pfx))
        (1 + sign.toList.length + (prefixCodepoints pfx).length)
        ([] ++ expSignErrs fd sign (st.after la 1 []).loc ++ [])) bigint_new 0
      (by rw [Lexer.after_rest]; exact hspD) hg
      (by rw [Lexer.after_rest, codepointAt_drop]) hnd hns
      (by simp only [Lexer.after_rest, List.length_drop] at hlenD ⊢; omega)
      (by norm_num)
    rw [e3, Lexer.after_after]
    simp only [Nat.zero_add, hgd, if_false, bigint_new]
    simp only [List.append_nil, List.nil_append, Lexer.after_loc]

theorem ExpLit.errs_drop (P : Params) (radix : RadixParams) (fd : Nat) (e : ExpLit)
    (rest : List Byte) (a : Nat) (loc : FilelocPoint) :
    e.errs P radix fd (rest.drop a) 0 loc = e.errs P radix fd rest a loc := by
  simp only [ExpLit.errs, codepointAt_drop, Nat.zero_add]

/-- What `takeNumber` does on a literal with the mantissa part `m` and the optional exponent
part `e` (whose `uint32_t` digit count is not zero): it returns true; the state is the
one after the codepoints of both parts with the separator errors of the mantissa and the
errors of the exponent appended, and with one Number token appended. -/
theorem takeNumber_literal (P : Params) (st : Lexer) (m : MantissaLit) (e : Option ExpLit)
    (h : mantissaAt P m st.rest = true)
    (hexp : exponentPartAt P (m.radix P) e st.rest (nbytes m.codepoints) = true)
    (hcountExp : ∀ x, e = some x →
      groupDigits P (x.radix P (m.radix P)) x.digits % 2 ^ 32 ≠ 0) :
    ∃ mantissa exponent : Bigint,
      mantissa.mag = m.value P ∧
      mantissa.toInt = (if m.negative P then -(m.value P : Int) else (m.value P : Int)) ∧
      takeNumber P st = some (true,
        lexer_addTok
          (st.after (nbytes m.codepoints + nbytes (exponentCodepoints e))
            (m.codepoints.length + (exponentCodepoints e).length)
            (m.separatorErrs P st.rest st.loc
              ++ exponentErrs P (m.radix P) (groupDigits P (m.radix P) m.fracDigits % 2 ^ 32) e
                  st.rest (nbytes m.codepoints) (locAfter st.loc m.codepoints)))
          ⟨⟨st.loc, (st.after (nbytes m.codepoints + nbytes (exponentCodepoints e))
              (m.codepoints.length + (exponentCodepoints e).length) []).loc⟩, TokType.number,
            TokData.number mantissa (m.radix P).radix
              (groupDigits P (m.radix P) m.fracDigits % 2 ^ 32) exponent⟩) := by
  have he := takeNumber_of_mantissa_errs P st m h
  have hmag : (if m.value P ≠ 0 then ({ mag := m.value P, pos := !m.negative P } : Bigint)
      else ⟨m.value P, true⟩).mag = m.value P := by
    split <;> rfl
  revert hexp hcountExp
  rcases e with _ | x
  · intro hexp _
    have ha := takeNumberExponent_absent P (m.radix P)
      (groupDigits P (m.radix P) m.fracDigits % 2 ^ 32)
      (st.after (nbytes m.codepoints) m.codepoints.length (m.separatorErrs P st.rest st.loc))
      (by simpa [noExponentAt, codepointAt_drop, exponentPartAt] using hexp)
    rw [he, takeNumberFinish, ha]
    refine ⟨(if m.value P ≠ 0 then ({ mag := m.value P, pos := !m.negative P } : Bigint)
        else ⟨m.value P, true⟩), bigint_new, hmag,
      Bigint.toInt_signed (m.value P) (m.negative P), ?_⟩
    simp only [exponentCodepoints, exponentErrs, nbytes_nil, List.length_nil, Nat.add_zero,
      List.append_nil]
    rfl
  · intro hexp hcountExp
    have hp := takeNumberExponent_errs P (m.radix P)
      (groupDigits P (m.radix P) m.fracDigits % 2 ^ 32)
      (st.after (nbytes m.codepoints) m.codepoints.length (m.separatorErrs P st.rest st.loc)) x
      (by rw [Lexer.after_rest, exponentAt_drop]; exact hexp) (hcountExp x rfl)
    rw [he, takeNumberFinish, hp, Lexer.after_after, Lexer.after_rest, ExpLit.errs_drop]
    refine ⟨(if m.value P ≠ 0 then ({ mag := m.value P, pos := !m.negative P } : Bigint)
        else ⟨m.value P, true⟩),
      (if x.value P (m.radix P) ≠ 0 then
        ({ mag := x.value P (m.radix P),
           pos := !(signNegative P x.sign
             && decide (groupDigits P (m.radix P) m.fracDigits % 2 ^ 32 ≠ 0)) } : Bigint)
        else ⟨x.value P (m.radix P), true⟩), hmag,
      Bigint.toInt_signed (m.value P) (m.negative P), ?_⟩
    simp only [exponentCodepoints, exponentErrs]
    rfl

/-- C5, amended: on a literal `sign? radix-prefix? digits ('.' digits)?`, followed by no
exponent part or by an exponent part with digits (the `uint32_t` count of its digits not
zero), `takeNumber` returns true and appends exactly one Number token: its radix is the
prefix's radix (the default radix without prefix), its fractionalDigits the number of
digits after the decimal point modulo 2^32 (the counter is a `uint32_t`), its mantissa the
base-radix value of the integer digits followed by the fractional digits, separators
ignored, negated under the negative sign. -/
theorem takeNumber_number_token (P : Params) (st : Lexer) (m : MantissaLit) (e : Option ExpLit)
    (h : mantissaAt P m st.rest = true)
    (hexp : exponentPartAt P (m.radix P) e st.rest (nbytes m.codepoints) = true)
    (hcountExp : ∀ x, e = some x →
      groupDigits P (x.radix P (m.radix P)) x.digits % 2 ^ 32 ≠ 0) :
    ∃ st' mantissa exponent, takeNumber P st = some (true, st') ∧
      st'.tokens = st.tokens ++ [Token.mk ⟨st.loc, st'.loc⟩ TokType.number
        (TokData.number mantissa (m.radix P).radix
          (groupDigits P (m.radix P) m.fracDigits % 2 ^ 32) exponent)] ∧
      mantissa.toInt = (if m.negative P then -(m.value P : Int) else (m.value P : Int)) ∧
      st'.rest = st.rest.drop (nbytes m.codepoints + nbytes (exponentCodepoints e)) := by
  obtain ⟨mantissa, exponent, -, hv, ht⟩ := takeNumber_literal P st m e h hexp hcountExp
  exact ⟨_, mantissa, exponent, ht, rfl, hv, rfl⟩

/-- Witness of C5, amended: `-12.50e+2` gives one Number token with mantissa -1250, radix
10 and two fractional digits; `0x1F_e2` has the mantissa part `0x1F_e2` (value 0x1FE2,
radix 16, no fractional digit) and no exponent part. -/
theorem takeNumber_number_token_witness :
    mantissaAt specParams lit_neg_12_50 (lexer_init specParams input_neg_12_50e2).rest = true ∧
    exponentPartAt specParams (lit_neg_12_50.radix specParams) (some exp_e_plus_2)
      (lexer_init specParams input_neg_12_50e2).rest (nbytes lit_neg_12_50.codepoints) = true ∧
    (∀ x, some exp_e_plus_2 = some x →
      groupDigits specParams (x.radix specParams (lit_neg_12_50.radix specParams)) x.digits
        % 2 ^ 32 ≠ 0) ∧
    lit_neg_12_50.negative specParams = true ∧
    lit_neg_12_50.value specParams = 1250 ∧
    (lit_neg_12_50.radix specParams).radix = 10 ∧
    groupDigits specParams (lit_neg_12_50.radix specParams) lit_neg_12_50.fracDigits % 2 ^ 32 = 2 ∧
    (takeNumber specParams (lexer_init specParams input_neg_12_50e2)).map
        (fun r => (r.1, r.2.rest, r.2.tokens.map Token.as))
      = some (true, [], [TokData.number ⟨1250, false⟩ 10 2 ⟨2, true⟩]) ∧
    (Bigint.mk 1250 false).toInt = -1250 ∧
    mantissaAt specParams lit_0x1F_e2 (lexer_init specParams input_0x1F_e2).rest = true ∧
    exponentPartAt specParams (lit_0x1F_e2.radix specParams) none
      (lexer_init specParams input_0x1F_e2).rest (nbytes lit_0x1F_e2.codepoints) = true ∧
    lit_0x1F_e2.value specParams = 0x1FE2 ∧
    (takeNumber specParams (lexer_init specParams input_0x1F_e2)).map
        (fun r => (r.1, r.2.rest, r.2.tokens.map Token.as))
      = some (true, [], [TokData.number ⟨0x1FE2, true⟩ 16 0 ⟨0, true⟩]) ∧
    ∃ st' mantissa exponent,
      takeNumber specParams (lexer_init specParams input_neg_12_50e2) = some (true, st') ∧
      st'.tokens = (lexer_init specParams input_neg_12_50e2).tokens ++
        [Token.mk ⟨(lexer_init specParams input_neg_12_50e2).loc, st'.loc⟩ TokType.number
          (TokData.number mantissa (lit_neg_12_50.radix specParams).radix
            (groupDigits specParams (lit_neg_12_50.radix specParams) lit_neg_12_50.fracDigits
              % 2 ^ 32) exponent)] ∧
      mantissa.toInt = (if lit_neg_12_50.negative specParams
        then -(lit_neg_12_50.value specParams : Int)
        else (lit_neg_12_50.value specParams : Int)) ∧
      st'.rest = (lexer_init specParams input_neg_12_50e2).rest.drop
        (nbytes lit_neg_12_50.codepoints + nbytes (exponentCodepoints (some exp_e_plus_2))) :=
  ⟨by decide, by decide, fun x hx => by cases hx; decide, by decide, by decide, by decide,
    by decide, rfl, by decide, by decide, by decide, by decide, rfl,
    takeNumber_number_token specParams (lexer_init specParams input_neg_12_50e2) lit_neg_12_50
      (some exp_e_plus_2) (by decide) (by decide) (fun x hx => by cases hx; decide)⟩

/-- C7, amended: on a literal with the mantissa part `m` and the optional exponent part `e`,
`takeNumber` accepts every digit separator and emits the Number token with the separators
ignored (the magnitude of the mantissa is the value of the digits). The errors it appends
are those of `separatorErrs` for the integer and the fractional digit group and of `errs`
for the exponent: in each digit group, counted from no digit, one BadDigitSeparator error
spanning the separator for each separator read before any digit of the group or followed by
a codepoint that is neither a digit of the radix nor a separator, and none for any other
separator (a separator next to another one between two digits gets none); the only other
error is BadExponentSign. -/
theorem takeNumber_separator_errors (P : Params) (st : Lexer) (m : MantissaLit)
    (e : Option ExpLit) (h : mantissaAt P m st.rest = true)
    (hexp : exponentPartAt P (m.radix P) e st.rest (nbytes m.codepoints) = true)
    (hcountExp : ∀ x, e = some x →
      groupDigits P (x.radix P (m.radix P)) x.digits % 2 ^ 32 ≠ 0) :
    ∃ st' mantissa exponent, takeNumber P st = some (true, st') ∧
      st'.tokens = st.tokens ++ [Token.mk ⟨st.loc, st'.loc⟩ TokType.number
        (TokData.number mantissa (m.radix P).radix
          (groupDigits P (m.radix P) m.fracDigits % 2 ^ 32) exponent)] ∧
      mantissa.mag = m.value P ∧
      st'.errStream = st.errStream
        ++ (m.separatorErrs P st.rest st.loc
          ++ exponentErrs P (m.radix P) (groupDigits P (m.radix P) m.fracDigits % 2 ^ 32) e
              st.rest (nbytes m.codepoints) (locAfter st.loc m.codepoints)) := by
  obtain ⟨mantissa, exponent, hmag, -, ht⟩ := takeNumber_literal P st m e h hexp hcountExp
  exact ⟨_, mantissa, exponent, ht, rfl, hmag, rfl⟩

/-- Witness of C7, amended: in `1__2_.3_e+_4_` the separator at the end of the integer
part, the one at the end of the fractional part and the two around the exponent digit get
an error; the two between `1` and `2` get none. The token has the mantissa 123. -/
theorem takeNumber_separator_errors_witness :
    mantissaAt specParams lit_separators (lexer_init specParams input_separators).rest = true ∧
    exponentPartAt specParams (lit_separators.radix specParams) (some exp_separators)
      (lexer_init specParams input_separators).rest (nbytes lit_separators.codepoints) = true ∧
    (∀ x, some exp_separators = some x →
      groupDigits specParams (x.radix specParams (lit_separators.radix specParams)) x.digits
        % 2 ^ 32 ≠ 0) ∧
    lit_separators.value specParams = 123 ∧
    (lit_separators.separatorErrs specParams (lexer_init specParams input_separators).rest
        (lexer_init specParams input_separators).loc
      ++ exponentErrs specParams (lit_separators.radix specParams)
          (groupDigits specParams (lit_separators.radix specParams) lit_separators.fracDigits
            % 2 ^ 32) (some exp_separators) (lexer_init specParams input_separators).rest
          (nbytes lit_separators.codepoints)
          (locAfter (lexer_init specParams input_separators).loc lit_separators.codepoints))
      = [⟨⟨⟨4, 1, 5⟩, ⟨5, 1, 6⟩⟩, ErrType.badDigitSeparator, ErrData.none⟩,
         ⟨⟨⟨7, 1, 8⟩, ⟨8, 1, 9⟩⟩, ErrType.badDigitSeparator, ErrData.none⟩,
         ⟨⟨⟨10, 1, 11⟩, ⟨11, 1, 12⟩⟩, ErrType.badDigitSeparator, ErrData.none⟩,
         ⟨⟨⟨12, 1, 13⟩, ⟨13, 1, 14⟩⟩, ErrType.badDigitSeparator, ErrData.none⟩] ∧
    (takeNumber specParams (lexer_init specParams input_separators)).map
        (fun r => (r.1, r.2.rest, r.2.tokens.map Token.as,
          r.2.errStream.map (fun x => (x.type, x.loc.start.byte, x.loc.stop.byte))))
      = some (true, [], [TokData.number ⟨123, true⟩ 10 1 ⟨4, true⟩],
          [(ErrType.badDigitSeparator, 4, 5), (ErrType.badDigitSeparator, 7, 8),
           (ErrType.badDigitSeparator, 10, 11), (ErrType.badDigitSeparator, 12, 13)]) ∧
    ∃ st' mantissa exponent,
      takeNumber specParams (lexer_init specParams input_separators) = some (true, st') ∧
      st'.tokens = (lexer_init specParams input_separators).tokens ++
        [Token.mk ⟨(lexer_init specParams input_separators).loc, st'.loc⟩ TokType.number
          (TokData.number mantissa (lit_separators.radix specParams).radix
            (groupDigits specParams (lit_separators.radix specParams) lit_separators.fracDigits
              % 2 ^ 32) exponent)] ∧
      mantissa.mag = lit_separators.value specParams ∧
      st'.errStream = (lexer_init specParams input_separators).errStream
        ++ (lit_separators.separatorErrs specParams (lexer_init specParams input_separators).rest
            (lexer_init specParams input_separators).loc
          ++ exponentErrs specParams (lit_separators.radix specParams)
              (groupDigits specParams (lit_separators.radix specParams)
                lit_separators.fracDigits % 2 ^ 32) (some exp_separators)
              (lexer_init specParams input_separators).rest (nbytes lit_separators.codepoints)
              (locAfter (lexer_init specParams input_separators).loc
                lit_separators.codepoints)) :=
  ⟨by decide, by decide, fun x hx => by cases hx; decide, by decide, by decide, rfl,
    takeNumber_separator_errors specParams (lexer_init specParams input_separators)
      lit_separators (some exp_separators) (by decide) (by decide)
      (fun x hx => by cases hx; decide)⟩

/-! ## The calls of a run of the dispatch loop -/

/-- The dispatch loop is the iteration of `lexer_rawStep`. -/
theorem lexer_rawLoop_step (P : Params) (fuel : Nat) (st : Lexer) :
    lexer_rawLoop P (fuel + 1) st =
      match lexer_rawStep P st with
      | none => none
      | some (false, s) => some s
      | some (true, s) => lexer_rawLoop P fuel s := by
  conv_lhs => unfold lexer_rawLoop
  unfold lexer_rawStep
  by_cases hf : st.fatal.type ≠ ErrType.noError
  · rw [if_pos hf, if_pos hf]
  · rw [if_neg hf, if_neg hf]
    rcases firstOf (recognizers P) st with _ | ⟨_ | _, st1⟩
    · rfl
    · dsimp only
      rcases takeEof P st1 with _ | ⟨_ | _, st2⟩
      · rfl
      · dsimp only
        rcases takeUnexpected P st2 with _ | ⟨_ | _, st3⟩ <;> rfl
      · rfl
    · rfl

/-- A run of the dispatch loop that returns has a list of calls, and the calls form a
chain from the state in which the run starts to the state with which it ends. -/
theorem lexer_rawLoop_calls (P : Params) (fuel : Nat) :
    ∀ st st', lexer_rawLoop P fuel st = some st' →
      ∃ calls, lexer_rawCalls P fuel st = some calls ∧ callChain P st calls st' := by
  induction fuel with
  | zero => intro st st' h; simp [lexer_rawLoop] at h
  | succ fuel ih =>
    intro st st' h
    rw [lexer_rawLoop_step] at h
    cases hs : lexer_rawStep P st with
    | none => rw [hs] at h; cases h
    | some r =>
      obtain ⟨b, s⟩ := r
      rw [hs] at h
      cases b with
      | false =>
        cases h
        exact ⟨[], by simp [lexer_rawCalls, hs], hs⟩
      | true =>
        obtain ⟨calls, hc, hch⟩ := ih s st' h
        exact ⟨(st, s) :: calls, by simp [lexer_rawCalls, hs, hc], rfl, hs, hch⟩

theorem outcome_of_err {P : Params} {st s : Lexer} {e : EexprError} (hA : Adv st s [])
    (hl : e.loc = ⟨st.loc, s.loc⟩) : CallOutcome P st (lexer_addErr s e) := by
  refine Or.inr (Or.inl ⟨Adv.addErr e (Adv.refl _) hA (by rw [hl]), e, ?_, hl⟩)
  rw [newErrs_addErr _ hA]
  simp

theorem takeUnexpected_outcome (P : Params) (st : Lexer) (b : Bool) (st' : Lexer)
    (h : takeUnexpected P st = some (b, st')) : b = true ∧ CallOutcome P st st' := by
  unfold takeUnexpected at h
  repeat' first | split at h | dsimp only at h
  all_goals
    cases h
    exact ⟨rfl, outcome_of_err ((Adv.refl _).advance _ _) rfl⟩

theorem takeLineContinue_outcome (P : Params) (st st' : Lexer)
    (h : takeLineContinue P st = some (true, st')) : CallOutcome P st st' := by
  unfold takeLineContinue at h
  repeat' first | split at h | dsimp only at h
  all_goals first
    | (cases h; done)
    | (cases h
       refine Or.inl ?_
       apply tok_intro
       · repeat first
           | exact Adv.refl _
           | with_reducible apply Adv.addTok
           | with_reducible apply Adv.advance
           | with_reducible refine Adv.addErr _ ?_ ?_ rfl
           | with_reducible refine takeNewline_del_adv P _ _ _ (by assumption) rfl ?_
           | with_reducible refine skipSpaceLoop_adv P _ _ _ _ _ (by assumption) ?_
           | split
       · rfl
       · intro hh; cases hh)
    | (cases h
       apply outcome_of_err
       · repeat first
           | exact Adv.refl _
           | with_reducible apply Adv.advance
           | with_reducible refine Adv.addErr _ ?_ ?_ rfl
           | with_reducible refine takeNewline_nodel_adv P _ _ _ (by assumption) (by simp) ?_
           | with_reducible refine skipSpaceLoop_adv P _ _ _ _ _ (by assumption) ?_
           | split
       · rfl)

theorem takeCodepoint_outcome_call (P : Params) (st st' : Lexer)
    (h : takeCodepoint P st = some (true, st')) : CallOutcome P st st' := by
  rcases takeCodepoint_step P st st' h with ⟨t, hA, hT⟩ | ⟨hA, _⟩
  · exact Or.inl ⟨t, hA, hT⟩
  · exact Or.inr (Or.inr ⟨hA, h⟩)

theorem firstOf_rel (R : Lexer → Lexer → Prop) (fs : List (Lexer → Option (Bool × Lexer)))
    (hfs : ∀ f ∈ fs, ∀ st s, (f st = some (true, s) → R st s) ∧
      (f st = some (false, s) → s = st)) :
    ∀ (st : Lexer) (b : Bool) (st' : Lexer), firstOf fs st = some (b, st') →
      (b = true ∧ R st st') ∨ (b = false ∧ st' = st) := by
  induction fs with
  | nil =>
    intro st b st' h
    simp only [firstOf, Option.some.injEq, Prod.mk.injEq] at h
    exact Or.inr ⟨h.1.symm, h.2.symm⟩
  | cons f fs ih =>
    intro st b st' h
    have hf := hfs f (List.mem_cons_self _ _)
    have ih' := ih (fun g hg => hfs g (List.mem_cons_of_mem _ hg))
    unfold firstOf at h
    split at h
    · cases h
    · rename_i s hs
      cases h
      exact Or.inl ⟨rfl, (hf st _).1 hs⟩
    · rename_i s hs
      have := (hf st s).2 hs
      subst this
      exact ih' _ _ _ h

theorem recognizers_outcome (P : Params) :
    ∀ f ∈ recognizers P, ∀ st s, (f st = some (true, s) → CallOutcome P st s) ∧
      (f st = some (false, s) → s = st) := by
  intro f hf st s
  simp only [recognizers, List.mem_cons, List.mem_singleton, List.not_mem_nil, or_false] at hf
  rcases hf with rfl | rfl | rfl | rfl | rfl | rfl | rfl | rfl | rfl | rfl | rfl
  · exact ⟨fun h => Or.inl (takeWhitespace_tok P st s h), takeWhitespace_false P st s⟩
  · exact ⟨fun h => Or.inl (takeNewline_tok P st s h), takeNewline_false P st s⟩
  · exact ⟨fun h => Or.inl (takeComment_tok P st s h), takeComment_false P st s⟩
  · exact ⟨fun h => Or.inl (takeSymbol_tok P st s h), takeSymbol_false P st s⟩
  · exact ⟨fun h => Or.inl (takeNumber_tok P st s h), takeNumber_false P st s⟩
  · exact ⟨fun h => Or.inl (takeHeredoc_tok P st s h), takeHeredoc_false P st s⟩
  · exact ⟨fun h => Or.inl (takeString_tok P st s h), takeString_false P st s⟩
  · exact ⟨takeCodepoint_outcome_call P st s, takeCodepoint_false P st s⟩
  · exact ⟨fun h => Or.inl (takeSplitter_tok P st s h), takeSplitter_false P st s⟩
  · exact ⟨fun h => Or.inl (takeWrap_tok P st s h), takeWrap_false P st s⟩
  · exact ⟨takeLineContinue_outcome P st s, takeLineContinue_false P st s⟩

/-- An iteration after which the loop goes on started without a fatal, and its call has one
of the three outcomes of `CallOutcome`. -/
theorem lexer_rawStep_true (P : Params) (st s : Lexer)
    (h : lexer_rawStep P st = some (true, s)) :
    st.fatal.type = ErrType.noError ∧ CallOutcome P st s := by
  unfold lexer_rawStep at h
  split at h
  · cases h
  · rename_i hf
    refine ⟨not_not.mp hf, ?_⟩
    cases h1 : firstOf (recognizers P) st with
    | none => rw [h1] at h; cases h
    | some r =>
      obtain ⟨b, st1⟩ := r
      rw [h1] at h
      rcases firstOf_rel (CallOutcome P) _ (recognizers_outcome P) st b st1 h1 with
        ⟨hb, hs⟩ | ⟨hb, hs⟩
      · subst hb
        cases h
        exact hs
      · subst hb
        subst hs
        dsimp only at h
        cases h2 : takeEof P st1 with
        | none => rw [h2] at h; cases h
        | some r2 =>
          obtain ⟨b2, st2⟩ := r2
          rw [h2] at h
          cases b2 with
          | true => cases h
          | false =>
            have := takeEof_false P _ _ h2
            subst this
            dsimp only at h
            cases h3 : takeUnexpected P st2 with
            | none => rw [h3] at h; cases h
            | some r3 =>
              obtain ⟨b3, st3⟩ := r3
              obtain ⟨hb3, hs3⟩ := takeUnexpected_outcome P _ _ _ h3
              subst hb3
              rw [h3] at h
              cases h
              exact hs3

/-- The iteration that ends the loop returns the state unchanged when a fatal is set, and
otherwise the state with the EOF token appended, at the end of the input. -/
theorem lexer_rawStep_false (P : Params) (st s : Lexer)
    (h : lexer_rawStep P st = some (false, s)) :
    (st.fatal.type ≠ ErrType.noError ∧ s = st) ∨
    (st.fatal.type = ErrType.noError ∧ (st.peek P).1 = P.UCHAR_NULL ∧
      s = lexer_addTok st ⟨⟨st.loc, st.loc⟩, TokType.eof, TokData.none⟩) := by
  unfold lexer_rawStep at h
  split at h
  · rename_i hf
    cases h
    exact Or.inl ⟨hf, rfl⟩
  · rename_i hf
    refine Or.inr ?_
    cases h1 : firstOf (recognizers P) st with
    | none => rw [h1] at h; cases h
    | some r =>
      obtain ⟨b, st1⟩ := r
      rw [h1] at h
      rcases firstOf_rel (CallOutcome P) _ (recognizers_outcome P) st b st1 h1 with
        ⟨hb, hs⟩ | ⟨hb, hs⟩
      · subst hb
        cases h
      · subst hb
        subst hs
        dsimp only at h
        cases h2 : takeEof P st1 with
        | none => rw [h2] at h; cases h
        | some r2 =>
          obtain ⟨b2, st2⟩ := r2
          rw [h2] at h
          cases b2 with
          | true =>
            cases h
            exact ⟨not_not.mp hf, takeEof_peek P _ _ h2, takeEof_step P _ _ h2⟩
          | false =>
            dsimp only at h
            cases h3 : takeUnexpected P st2 with
            | none => rw [h3] at h; cases h
            | some r3 =>
              obtain ⟨b3, st3⟩ := r3
              obtain ⟨hb3, _⟩ := takeUnexpected_outcome P _ _ _ h3
              subst hb3
              rw [h3] at h
              cases h

theorem CallOutcome.adv {P : Params} {st s : Lexer} (h : CallOutcome P st s) :
    ∃ ts, Adv st s ts := by
  rcases h with ⟨t, hA, _⟩ | ⟨hA, _⟩ | ⟨hA, _⟩
  · exact ⟨_, hA⟩
  · exact ⟨_, hA⟩
  · exact ⟨_, hA⟩

/-! ## The errors and the spans of a run, call by call -/

theorem callChain_errors (P : Params) :
    ∀ (calls : List (Lexer × Lexer)) (st st' : Lexer), callChain P st calls st' →
      st'.errStream = st.errStream ++ (callErrors calls).flatten ∧
      (∀ c ∈ calls, st.loc.byte ≤ c.1.loc.byte ∧
        ∀ e ∈ newErrs c.1 c.2, c.1.loc.byte ≤ e.loc.start.byte ∧
          e.loc.start.byte ≤ c.2.loc.byte) ∧
      calls.Pairwise (fun c1 c2 => c1.2.loc.byte ≤ c2.1.loc.byte) := by
  intro calls
  induction calls with
  | nil =>
    intro st st' h
    have h' : lexer_rawStep P st = some (false, st') := h
    refine ⟨?_, by simp, List.Pairwise.nil⟩
    rcases lexer_rawStep_false P st st' h' with ⟨_, rfl⟩ | ⟨_, _, rfl⟩
    · simp [callErrors]
    · simp [callErrors, lexer_addTok]
  | cons c cs ih =>
    intro st st' h
    obtain ⟨hc, hs, hch⟩ : c.1 = st ∧ lexer_rawStep P st = some (true, c.2) ∧
      callChain P c.2 cs st' := h
    obtain ⟨ih1, ih2, ih3⟩ := ih c.2 st' hch
    obtain ⟨_, ho⟩ := lexer_rawStep_true P st c.2 hs
    obtain ⟨ts, hA⟩ := ho.adv
    subst hc
    refine ⟨?_, ?_, ?_⟩
    · rw [ih1, hA.errs_eq]
      simp [callErrors]
    · intro c' hc'
      rcases List.mem_cons.mp hc' with rfl | hc'
      · exact ⟨le_refl _, hA.errs_win⟩
      · exact ⟨le_trans hA.byte_le (ih2 c' hc').1, (ih2 c' hc').2⟩
    · exact List.Pairwise.cons (fun c' hc' => (ih2 c' hc').1) ih3

theorem callChain_cover (P : Params)
    (hnull : ∀ input : List Byte, input ≠ [] →
      (peekUchar P.UCHAR_NULL input).1 ≠ P.UCHAR_NULL) :
    ∀ (calls : List (Lexer × Lexer)) (st st' : Lexer), callChain P st calls st' →
      st'.fatal.type = ErrType.noError →
      st.fatal.type = ErrType.noError ∧ st'.rest = [] ∧
      st.rest.length + st.loc.byte ≤ st'.loc.byte ∧
      (∀ t ∈ st.tokens, t ∈ st'.tokens) ∧ (∀ e ∈ st.errStream, e ∈ st'.errStream) ∧
      ∀ i, st.loc.byte ≤ i → i < st'.loc.byte →
        covered st' i ∨ ∃ c ∈ calls, inRejectedLiteral P c i := by
  intro calls
  induction calls with
  | nil =>
    intro st st' h hfatal
    have h' : lexer_rawStep P st = some (false, st') := h
    rcases lexer_rawStep_false P st st' h' with ⟨hf, rfl⟩ | ⟨hf, hpeek, rfl⟩
    · exact absurd hfatal hf
    · have hrest : st.rest = [] := by
        by_contra hne
        exact hnull st.rest hne hpeek
      refine ⟨hf, hrest, ?_, ?_, ?_, ?_⟩
      · rw [hrest]; simp [lexer_addTok]
      · intro t ht; simp [lexer_addTok, ht]
      · intro e he; exact he
      · intro i h1 h2
        have : (lexer_addTok st ⟨⟨st.loc, st.loc⟩, TokType.eof, TokData.none⟩).loc = st.loc := rfl
        rw [this] at h2
        omega
  | cons c cs ih =>
    intro st st' h hfatal
    obtain ⟨hc, hs, hch⟩ : c.1 = st ∧ lexer_rawStep P st = some (true, c.2) ∧
      callChain P c.2 cs st' := h
    obtain ⟨ihf, ihr, ihl, iht, ihe, ihc⟩ := ih c.2 st' hch hfatal
    obtain ⟨hf, ho⟩ := lexer_rawStep_true P st c.2 hs
    obtain ⟨ts, hA⟩ := ho.adv
    subst hc
    refine ⟨hf, ihr, ?_, ?_, ?_, ?_⟩
    · have := hA.rest_le; omega
    · intro t ht
      exact iht t (by rw [hA.tokens_eq]; exact List.mem_append_left _ ht)
    · intro e he
      exact ihe e (by rw [hA.errs_eq]; exact List.mem_append_left _ he)
    · intro i h1 h2
      by_cases hlt : c.2.loc.byte ≤ i
      · rcases ihc i hlt h2 with hcov | ⟨c', hc', hr⟩
        · exact Or.inl hcov
        · exact Or.inr ⟨c', List.mem_cons_of_mem _ hc', hr⟩
      · rcases ho with ⟨t, hA1, hT⟩ | ⟨hA1, e, he, hl⟩ | ⟨hA1, hcp⟩
        · obtain ⟨_, hst, _, _, hstop⟩ := hT
          refine Or.inl (Or.inl ⟨t, iht t (by rw [hA1.tokens_eq]; simp), ?_, ?_⟩)
          · rw [hst]; exact h1
          · rw [hstop ihf]; omega
        · have hmem : e ∈ c.2.errStream := by
            rw [hA1.errs_eq]; exact List.mem_append_right _ he
          refine Or.inl (Or.inr ⟨e, ihe e hmem, ?_, ?_⟩)
          · rw [hl]; exact h1
          · rw [hl]; dsimp only; omega
        · refine Or.inr ⟨c, List.mem_cons_self _ _, hcp, ?_, h1, by omega⟩
          have := hA1.tokens_eq
          simpa using this

/-- C17, amended: in every run of `lexer_raw` that returns (the dispatch loop with any
bound `fuel` on its iterations), the error list is the concatenation, call by call, of the
errors that the recognizer calls of the run appended; every error a call appended starts at
a byte offset at least the offset at which the call began and at most the offset at which
it returned; each call begins at or after the offset at which every earlier call returned;
hence no error starts before an error that an earlier call appended. -/
theorem lexer_raw_errors_ordered_across_calls (P : Params) (input : List Byte) (fuel : Nat)
    (st' : Lexer) (h : lexer_rawLoop P fuel (lexer_init P input) = some st') :
    ∃ calls, lexer_rawCalls P fuel (lexer_init P input) = some calls ∧
      callChain P (lexer_init P input) calls st' ∧
      st'.errStream = (callErrors calls).flatten ∧
      (∀ c ∈ calls, ∀ e ∈ newErrs c.1 c.2,
        c.1.loc.byte ≤ e.loc.start.byte ∧ e.loc.start.byte ≤ c.2.loc.byte) ∧
      calls.Pairwise (fun c1 c2 => c1.2.loc.byte ≤ c2.1.loc.byte ∧
        ∀ e1 ∈ newErrs c1.1 c1.2, ∀ e2 ∈ newErrs c2.1 c2.2,
          e1.loc.start.byte ≤ e2.loc.start.byte) := by
  obtain ⟨calls, hc, hch⟩ := lexer_rawLoop_calls P fuel _ _ h
  obtain ⟨h1, h2, h3⟩ := callChain_errors P calls _ _ hch
  refine ⟨calls, hc, hch, by simpa [lexer_init] using h1, fun c hc => (h2 c hc).2, ?_⟩
  have h4 : calls.Pairwise (fun c1 c2 => c1 ∈ calls ∧ c2 ∈ calls ∧
      c1.2.loc.byte ≤ c2.1.loc.byte) := by
    rw [List.pairwise_iff_forall_sublist] at h3 ⊢
    intro a b hab
    have hsub : [a, b].Subset calls := hab.subset
    exact ⟨hsub (by simp), hsub (by simp), h3 hab⟩
  refine h4.imp ?_
  rintro c1 c2 ⟨hc1, hc2, hle⟩
  refine ⟨hle, fun e1 he1 e2 he2 => ?_⟩
  have a1 := ((h2 c1 hc1).2 e1 he1).2
  have a2 := ((h2 c2 hc2).2 e2 he2).1
  omega

/-- Witness of C17, amended: lexing backslash, space, 0x01, 0x01, `abc` makes four calls that
return true; the first appends TrailingSpace (byte 1) and then BadChar (byte 0), the second
and third append one BadChar each (bytes 2 and 3), and the errors of later calls start at
or after those of earlier calls. -/
theorem lexer_raw_errors_ordered_across_calls_witness :
    lexer_raw specParams (lexer_init specParams input_backslash_ctrl)
      = some output_backslash_ctrl ∧
    (lexer_rawCalls specParams (input_backslash_ctrl.length + 2)
        (lexer_init specParams input_backslash_ctrl)).map (fun cs => cs.map callSummary)
      = some [(0, 2, [(ErrType.trailingSpace, 1), (ErrType.badChar, 0)]),
          (2, 3, [(ErrType.badChar, 2)]), (3, 4, [(ErrType.badChar, 3)]), (4, 7, [])] ∧
    ∃ calls, lexer_rawCalls specParams (input_backslash_ctrl.length + 2)
        (lexer_init specParams input_backslash_ctrl) = some calls ∧
      callChain specParams (lexer_init specParams input_backslash_ctrl) calls
        output_backslash_ctrl ∧
      output_backslash_ctrl.errStream = (callErrors calls).flatten ∧
      (∀ c ∈ calls, ∀ e ∈ newErrs c.1 c.2,
        c.1.loc.byte ≤ e.loc.start.byte ∧ e.loc.start.byte ≤ c.2.loc.byte) ∧
      calls.Pairwise (fun c1 c2 => c1.2.loc.byte ≤ c2.1.loc.byte ∧
        ∀ e1 ∈ newErrs c1.1 c1.2, ∀ e2 ∈ newErrs c2.1 c2.2,
          e1.loc.start.byte ≤ e2.loc.start.byte) :=
  ⟨rfl, rfl,
    lexer_raw_errors_ordered_across_calls specParams input_backslash_ctrl
      (input_backslash_ctrl.length + 2) output_backslash_ctrl rfl⟩

/-- C18, amended: for every input that `lexer_raw` finishes without a fatal (the dispatch
loop with any bound `fuel` on its iterations), every byte offset of the input lies in the
span of an emitted token or of an emitted error, or it is one of the offsets consumed by a
call of `takeCodepoint` of the run that returned true and emitted no token (a rejected
codepoint literal). This holds in every parameter set in which the null codepoint is
returned at the end of the input only. -/
theorem lexer_raw_spans_cover_but_rejected (P : Params)
    (hnull : ∀ input : List Byte, input ≠ [] →
      (peekUchar P.UCHAR_NULL input).1 ≠ P.UCHAR_NULL)
    (input : List Byte) (fuel : Nat) (st' : Lexer)
    (h : lexer_rawLoop P fuel (lexer_init P input) = some st')
    (hfatal : st'.fatal.type = ErrType.noError) :
    ∃ calls, lexer_rawCalls P fuel (lexer_init P input) = some calls ∧
      callChain P (lexer_init P input) calls st' ∧
      ∀ i, i < input.length → covered st' i ∨ ∃ c ∈ calls, inRejectedLiteral P c i := by
  obtain ⟨calls, hc, hch⟩ := lexer_rawLoop_calls P fuel _ _ h
  obtain ⟨_, _, hl, _, _, hcov⟩ := callChain_cover P hnull calls _ _ hch hfatal
  refine ⟨calls, hc, hch, fun i hi => hcov i (Nat.zero_le _) ?_⟩
  have : input.length + 0 ≤ st'.loc.byte := hl
  omega

/-- Witness of C18, amended: lexing `"\q"`, tick, 0x01, tick, `abc` ends without a fatal.
The String token covers the bytes 0 to 3 although the string holds a bad escape character,
the Symbol token covers the bytes 7 to 9, the BadCodepoint error covers the byte 5, and the
two ticks (bytes 4 and 6), which no span covers, were consumed by the call of
`takeCodepoint` from byte 4 to byte 7. -/
theorem lexer_raw_spans_cover_but_rejected_witness :
    (∀ input : List Byte, input ≠ [] →
      (peekUchar specParams.UCHAR_NULL input).1 ≠ specParams.UCHAR_NULL) ∧
    lexer_raw specParams (lexer_init specParams input_bad_escape_ctrl)
      = some output_bad_escape_ctrl ∧
    output_bad_escape_ctrl.fatal.type = ErrType.noError ∧
    (lexer_rawCalls specParams (input_bad_escape_ctrl.length + 2)
        (lexer_init specParams input_bad_escape_ctrl)).map (fun cs => cs.map callSummary)
      = some [(0, 4, [(ErrType.badEscapeChar, 2)]), (4, 7, [(ErrType.badCodepoint, 5)]),
          (7, 10, [])] ∧
    (List.range input_bad_escape_ctrl.length).filter
        (fun i => decide (covered output_bad_escape_ctrl i)) = [0, 1, 2, 3, 5, 7, 8, 9] ∧
    ∃ calls, lexer_rawCalls specParams (input_bad_escape_ctrl.length + 2)
        (lexer_init specParams input_bad_escape_ctrl) = some calls ∧
      callChain specParams (lexer_init specParams input_bad_escape_ctrl) calls
        output_bad_escape_ctrl ∧
      ∀ i, i < input_bad_escape_ctrl.length →
        covered output_bad_escape_ctrl i ∨ ∃ c ∈ calls, inRejectedLiteral specParams c i :=
  ⟨peekUchar_ne_neg_one, rfl, rfl, rfl, by decide,
    lexer_raw_spans_cover_but_rejected specParams peekUchar_ne_neg_one input_bad_escape_ctrl
      (input_bad_escape_ctrl.length + 2) output_bad_escape_ctrl rfl rfl⟩

/-! ## Termination: the inner loops -/

end Nest
